import Mathlib

/-!
The migration orchestrator of k8s-es-migrator.

A shallow embedding of `internal/migrator.go`.  The two Kubernetes clients are
external: every call the program makes is answered by an environment `Env`
whose answer may depend on the client addressed, on the call, and on the whole
history of calls and answers so far.  The program state is that history (the
`Trace`), threaded through every function; a Go `error` is `Option Error`
(`none` is `nil`).  `time.Sleep` and logging have no effect on the history and
are left out.
-/

namespace K8sEsMigrator

/-! ## Data model -/

/-- Instant of `metav1.Time`, counted from the zero value `metav1.Time{}`. -/
structure Time where
  sinceZero : Int
deriving DecidableEq, Repr

/-- Go `error` values: the ones a client call returns (with what
`apierrors.IsNotFound` answers on them) and the ones built by `errors.New` and
`fmt.Errorf`. -/
inductive Error where
  | api (notFound : Bool) (msg : String)
  | text (msg : String)
deriving DecidableEq, Repr

/-- Go `apierrors.IsNotFound`, which is false on `nil`. -/
def IsNotFound : Option Error → Bool
  | some (.api nf _) => nf
  | _ => false

structure OwnerReference where
  Kind : String
  Name : String
  UID : String
deriving DecidableEq, Repr

/-- Part of `metav1.ObjectMeta`.  A Go `map[string]string` is an association
list, `nil` being `[]`. -/
structure ObjectMeta where
  Name : String
  Namespace : String
  UID : String
  ResourceVersion : String
  Generation : Int
  CreationTimestamp : Time
  Labels : List (String × String)
  Annotations : List (String × String)
  OwnerReferences : List OwnerReference
  Finalizers : List String
deriving DecidableEq, Repr

/-- Go map indexing `m[k]`: the zero value `""` when the key is absent. -/
def mapGet (m : List (String × String)) (k : String) : String :=
  (m.lookup k).getD ""

structure NamespacedName where
  Namespace : String
  Name : String
deriving DecidableEq, Repr

structure ObjectReference where
  Kind : String
  Namespace : String
  Name : String
  UID : String
  APIVersion : String
  ResourceVersion : String
  FieldPath : String
deriving DecidableEq, Repr

structure PersistentVolumeSpec where
  Capacity : String
  PersistentVolumeSource : String
  AccessModes : List String
  ClaimRef : Option ObjectReference
  PersistentVolumeReclaimPolicy : String
  StorageClassName : String
deriving DecidableEq, Repr

structure PersistentVolumeStatus where
  Phase : String
  Message : String
  Reason : String
deriving DecidableEq, Repr

structure PersistentVolume where
  ObjectMeta : ObjectMeta
  Spec : PersistentVolumeSpec
  Status : PersistentVolumeStatus
deriving DecidableEq, Repr

structure PersistentVolumeClaimSpec where
  VolumeName : String
  StorageClassName : String
deriving DecidableEq, Repr

structure PersistentVolumeClaim where
  ObjectMeta : ObjectMeta
  Spec : PersistentVolumeClaimSpec
deriving DecidableEq, Repr

structure PodStatus where
  Phase : String
deriving DecidableEq, Repr

structure Pod where
  ObjectMeta : ObjectMeta
  Status : PodStatus
deriving DecidableEq, Repr

structure ElasticsearchSpec where
  Version : String
  NodeSets : List String
deriving DecidableEq, Repr

structure ElasticsearchStatus where
  AvailableNodes : Int
  Health : String
  Phase : String
deriving DecidableEq, Repr

structure Elasticsearch where
  ObjectMeta : ObjectMeta
  Spec : ElasticsearchSpec
  Status : ElasticsearchStatus
deriving DecidableEq, Repr

/-- Constant `corev1.PersistentVolumeReclaimRetain`. -/
def PersistentVolumeReclaimRetain : String := "Retain"

/-- Constant `corev1.PodRunning`. -/
def PodRunning : String := "Running"

/-- Constant `bootstrap.ClusterUUIDAnnotationName` of cloud-on-k8s. -/
def ClusterUUIDAnnotationName : String := "elasticsearch.k8s.elastic.co/cluster-uuid"

/-- Label key of the selector used by the two `List` calls. -/
def clusterNameLabel : String := "elasticsearch.k8s.elastic.co/cluster-name"

/-- Zero value `metav1.Time{}`. -/
def Time.zero : Time := ⟨0⟩

/-- Zero value `corev1.PersistentVolumeStatus{}`. -/
def PersistentVolumeStatus.zero : PersistentVolumeStatus := ⟨"", "", ""⟩

/-- Zero value `esv1.ElasticsearchStatus{}`. -/
def ElasticsearchStatus.zero : ElasticsearchStatus := ⟨0, "", ""⟩

/-! ## Clients, calls and the history of calls -/

/-- The two client handles of the migrator. -/
inductive Client where
  | source
  | target
deriving DecidableEq, Repr

inductive Kind where
  | Elasticsearch
  | Pod
  | PersistentVolumeClaim
  | PersistentVolume
deriving DecidableEq, Repr

/-- An object handed to `Update`, `Delete` or `Create`, or read by `Get`. -/
inductive Object where
  | es (o : Elasticsearch)
  | pod (o : Pod)
  | pv (o : PersistentVolume)
deriving DecidableEq, Repr

/-- Part of `client.DeleteOptions`; `none` is a nil `GracePeriodSeconds`. -/
structure DeleteOptions where
  GracePeriodSeconds : Option Int
deriving DecidableEq, Repr

/-- One call on a `client.Client`. -/
inductive Op where
  | Get (kind : Kind) (key : NamespacedName)
  | List (kind : Kind) (inNamespace : String) (matchingLabels : List (String × String))
  | Update (obj : Object)
  | Delete (obj : Object) (opts : DeleteOptions)
  | Create (obj : Object)
deriving DecidableEq, Repr

/-- What a call answered. -/
inductive Response where
  | err (e : Error)
  | done
  | object (o : Object)
  | pods (items : List Pod)
  | pvcs (items : List PersistentVolumeClaim)
deriving DecidableEq, Repr

structure Event where
  client : Client
  op : Op
  resp : Response
deriving DecidableEq, Repr

abbrev Trace := List Event

/-- The two clusters as seen through the clients: the answer to each call,
given the history so far. -/
structure Env where
  getElasticsearch : Trace → Client → NamespacedName → Except Error Elasticsearch
  getPod : Trace → Client → NamespacedName → Except Error Pod
  getPersistentVolume : Trace → Client → NamespacedName → Except Error PersistentVolume
  listPods : Trace → Client → String → List (String × String) → Except Error (List Pod)
  listPVCs : Trace → Client → String → List (String × String)
    → Except Error (List PersistentVolumeClaim)
  update : Trace → Client → Object → Option Error
  delete : Trace → Client → Object → DeleteOptions → Option Error
  create : Trace → Client → Object → Option Error

/-- Answer of a call that returns only an error. -/
def respOf : Option Error → Response
  | none => .done
  | some e => .err e

def GetElasticsearch (env : Env) (c : Client) (key : NamespacedName) (h : Trace) :
    Except Error Elasticsearch × Trace :=
  match env.getElasticsearch h c key with
  | .ok o => (.ok o, h ++ [⟨c, .Get .Elasticsearch key, .object (.es o)⟩])
  | .error e => (.error e, h ++ [⟨c, .Get .Elasticsearch key, .err e⟩])

def GetPod (env : Env) (c : Client) (key : NamespacedName) (h : Trace) :
    Except Error Pod × Trace :=
  match env.getPod h c key with
  | .ok o => (.ok o, h ++ [⟨c, .Get .Pod key, .object (.pod o)⟩])
  | .error e => (.error e, h ++ [⟨c, .Get .Pod key, .err e⟩])

def GetPersistentVolume (env : Env) (c : Client) (key : NamespacedName) (h : Trace) :
    Except Error PersistentVolume × Trace :=
  match env.getPersistentVolume h c key with
  | .ok o => (.ok o, h ++ [⟨c, .Get .PersistentVolume key, .object (.pv o)⟩])
  | .error e => (.error e, h ++ [⟨c, .Get .PersistentVolume key, .err e⟩])

def ListPods (env : Env) (c : Client) (ns : String) (labels : List (String × String))
    (h : Trace) : Except Error (List Pod) × Trace :=
  match env.listPods h c ns labels with
  | .ok l => (.ok l, h ++ [⟨c, .List .Pod ns labels, .pods l⟩])
  | .error e => (.error e, h ++ [⟨c, .List .Pod ns labels, .err e⟩])

def ListPVCs (env : Env) (c : Client) (ns : String) (labels : List (String × String))
    (h : Trace) : Except Error (List PersistentVolumeClaim) × Trace :=
  match env.listPVCs h c ns labels with
  | .ok l => (.ok l, h ++ [⟨c, .List .PersistentVolumeClaim ns labels, .pvcs l⟩])
  | .error e => (.error e, h ++ [⟨c, .List .PersistentVolumeClaim ns labels, .err e⟩])

def Update (env : Env) (c : Client) (obj : Object) (h : Trace) : Option Error × Trace :=
  (env.update h c obj, h ++ [⟨c, .Update obj, respOf (env.update h c obj)⟩])

def Delete (env : Env) (c : Client) (obj : Object) (opts : DeleteOptions) (h : Trace) :
    Option Error × Trace :=
  (env.delete h c obj opts, h ++ [⟨c, .Delete obj opts, respOf (env.delete h c obj opts)⟩])

def Create (env : Env) (c : Client) (obj : Object) (h : Trace) : Option Error × Trace :=
  (env.create h c obj, h ++ [⟨c, .Create obj, respOf (env.create h c obj)⟩])

/-! ## The migrator -/

structure migrator where
  clientFrom : Client
  clientTo : Client
  namespace_ : String
  name : String

structure resourcesFrom where
  elasticsearch : Elasticsearch
  pods : List Pod
  pvcs : List PersistentVolumeClaim
  pvs : List PersistentVolume
deriving DecidableEq, Repr

/-- The loop `for _, pvc := range pvcs.Items` of `retrieveExistingResources`;
`pvs` is the slice appended to. -/
def retrievePVs (env : Env) (c : Client) :
    List PersistentVolumeClaim → List PersistentVolume → Trace →
      Except Error (List PersistentVolume) × Trace
  | [], pvs, h => (.ok pvs, h)
  | pvc :: rest, pvs, h =>
    if pvc.Spec.VolumeName = "" then
      (.error (.text ("PVC " ++ pvc.ObjectMeta.Namespace ++ "/" ++ pvc.ObjectMeta.Name
        ++ " has no spec.volumeName")), h)
    else
      match GetPersistentVolume env c ⟨pvc.ObjectMeta.Namespace, pvc.Spec.VolumeName⟩ h with
      | (.error e, h1) => (.error e, h1)
      | (.ok pv, h1) => retrievePVs env c rest (pvs ++ [pv]) h1

def retrieveExistingResources (env : Env) (m : migrator) (h : Trace) :
    Except Error resourcesFrom × Trace :=
  match GetElasticsearch env m.clientFrom ⟨m.namespace_, m.name⟩ h with
  | (.error e, h1) => (.error e, h1)
  | (.ok es, h1) =>
    match ListPods env m.clientFrom m.namespace_ [(clusterNameLabel, m.name)] h1 with
    | (.error e, h2) => (.error e, h2)
    | (.ok pods, h2) =>
      match ListPVCs env m.clientFrom m.namespace_ [(clusterNameLabel, m.name)] h2 with
      | (.error e, h3) => (.error e, h3)
      | (.ok pvcs, h3) =>
        if pvcs.length = 0 then (.error (.text "no PVC found"), h3)
        else
          match retrievePVs env m.clientFrom pvcs [] h3 with
          | (.error e, h4) => (.error e, h4)
          | (.ok pvs, h4) => (.ok ⟨es, pods, pvcs, pvs⟩, h4)

/-- Go `setPVsReclaimPolicy`.  The loop variable `pv` is a copy of the slice
element: the assignment to its reclaim policy changes what is sent, not the
slice. -/
def setPVsReclaimPolicy (env : Env) (client : Client) :
    List PersistentVolume → Trace → Option Error × Trace
  | [], h => (none, h)
  | pv :: rest, h =>
    if pv.Spec.PersistentVolumeReclaimPolicy = PersistentVolumeReclaimRetain then
      setPVsReclaimPolicy env client rest h
    else
      match Update env client (.pv { pv with Spec := { pv.Spec with
          PersistentVolumeReclaimPolicy := PersistentVolumeReclaimRetain } }) h with
      | (some e, h1) => (some e, h1)
      | (none, h1) => setPVsReclaimPolicy env client rest h1

/-- The loop `for _, p := range pods.Items` of `deleteElasticsearch`. -/
def deletePods (env : Env) (c : Client) : List Pod → Trace → Option Error × Trace
  | [], h => (none, h)
  | p :: rest, h =>
    match Delete env c (.pod p) ⟨some 0⟩ h with
    | (err, h1) =>
      if err ≠ none ∧ ¬ IsNotFound err then (err, h1)
      else deletePods env c rest h1

def deleteElasticsearch (env : Env) (c : Client) (es : Elasticsearch) (h : Trace) :
    Option Error × Trace :=
  match Delete env c (.es es) ⟨none⟩ h with
  | (some e, h1) => (some e, h1)
  | (none, h1) =>
    match ListPods env c es.ObjectMeta.Namespace [(clusterNameLabel, es.ObjectMeta.Name)] h1 with
    | (.error e, h2) => (some e, h2)
    | (.ok pods, h2) => deletePods env c pods h2

/-- Go `DeepCopy`: a value that shares no pointer with its argument. -/
def PersistentVolume.DeepCopy (pv : PersistentVolume) : PersistentVolume := pv

/-- Go `DeepCopy`: a value that shares no pointer with its argument. -/
def Elasticsearch.DeepCopy (es : Elasticsearch) : Elasticsearch := es

/-- The loop `for _, pv := range resources.pvs` of `recreateResources`. -/
def recreatePVs (env : Env) (c : Client) : List PersistentVolume → Trace → Option Error × Trace
  | [], h => (none, h)
  | pv :: rest, h =>
    let toCreate := pv.DeepCopy
    let toCreate := { toCreate with ObjectMeta := { toCreate.ObjectMeta with
      CreationTimestamp := Time.zero } }
    let toCreate := { toCreate with ObjectMeta := { toCreate.ObjectMeta with
      ResourceVersion := "" } }
    let toCreate := { toCreate with ObjectMeta := { toCreate.ObjectMeta with UID := "" } }
    match toCreate.Spec.ClaimRef with
    | none =>
      (some (.text ("spec.claimRef is nil on PV " ++ pv.ObjectMeta.Namespace ++ "/"
        ++ pv.ObjectMeta.Name)), h)
    | some ref =>
      let ref := { ref with UID := "" }
      let ref := { ref with ResourceVersion := "" }
      let toCreate := { toCreate with Spec := { toCreate.Spec with ClaimRef := some ref } }
      let toCreate := { toCreate with Status := PersistentVolumeStatus.zero }
      match Create env c (.pv toCreate) h with
      | (some e, h1) => (some e, h1)
      | (none, h1) => recreatePVs env c rest h1

def recreateResources (env : Env) (c : Client) (resources : resourcesFrom) (h : Trace) :
    Option Error × Trace :=
  match recreatePVs env c resources.pvs h with
  | (some e, h1) => (some e, h1)
  | (none, h1) =>
    let toCreate := resources.elasticsearch.DeepCopy
    let toCreate := { toCreate with ObjectMeta := { toCreate.ObjectMeta with
      CreationTimestamp := Time.zero } }
    let toCreate := { toCreate with ObjectMeta := { toCreate.ObjectMeta with
      ResourceVersion := "" } }
    let toCreate := { toCreate with ObjectMeta := { toCreate.ObjectMeta with UID := "" } }
    let toCreate := { toCreate with ObjectMeta := { toCreate.ObjectMeta with
      OwnerReferences := [] } }
    let toCreate := { toCreate with ObjectMeta := { toCreate.ObjectMeta with
      Annotations := [] } }
    let toCreate := { toCreate with Status := ElasticsearchStatus.zero }
    Create env c (.es toCreate) h1

def allPodsRunning (env : Env) (c : Client) :
    List Pod → Trace → (Bool × Option Error) × Trace
  | [], h => ((true, none), h)
  | p :: rest, h =>
    match GetPod env c ⟨p.ObjectMeta.Namespace, p.ObjectMeta.Name⟩ h with
    | (.error e, h1) =>
      if IsNotFound (some e) then ((false, none), h1)
      else ((false, some e), h1)
    | (.ok retrievedPod, h1) =>
      if retrievedPod.Status.Phase ≠ PodRunning then ((false, none), h1)
      else allPodsRunning env c rest h1

/-- The loop `for i := 0; i < retries; i++` of `checkPodsRunning`, with
`left = retries - i` iterations still to run. -/
def checkPodsRunningLoop (env : Env) (c : Client) (previousPods : List Pod) :
    Nat → Trace → Option Error × Trace
  | 0, h => (some (.text "not all Pods are running"), h)
  | left + 1, h =>
    match allPodsRunning env c previousPods h with
    | ((_, some e), h1) => (some e, h1)
    | ((true, none), h1) => (none, h1)
    | ((false, none), h1) => checkPodsRunningLoop env c previousPods left h1

def checkPodsRunning (env : Env) (c : Client) (previousPods : List Pod) (h : Trace) :
    Option Error × Trace :=
  if previousPods.length = 0 then (none, h)
  else
    let retries := 30
    checkPodsRunningLoop env c previousPods retries h

/-- The loop `for i := 0; i < retries; i++` of `checkNewClusterUUID`, with
`left = retries - i` iterations still to run. -/
def checkNewClusterUUIDLoop (env : Env) (c : Client) (previousES : Elasticsearch)
    (retries : Nat) : Nat → Trace → Option Error × Trace
  | 0, h => (some (.text ("got no UUID after " ++ toString retries ++ " retries")), h)
  | left + 1, h =>
    match GetElasticsearch env c
        ⟨previousES.ObjectMeta.Namespace, previousES.ObjectMeta.Name⟩ h with
    | (.error e, h1) => (some e, h1)
    | (.ok retrieved, h1) =>
      if mapGet retrieved.ObjectMeta.Annotations ClusterUUIDAnnotationName = "" then
        checkNewClusterUUIDLoop env c previousES retries left h1
      else if mapGet retrieved.ObjectMeta.Annotations ClusterUUIDAnnotationName
          = mapGet previousES.ObjectMeta.Annotations ClusterUUIDAnnotationName then
        (none, h1)
      else
        (some (.text ("expected UUID "
          ++ mapGet previousES.ObjectMeta.Annotations ClusterUUIDAnnotationName ++ ", got "
          ++ mapGet retrieved.ObjectMeta.Annotations ClusterUUIDAnnotationName)), h1)

def checkNewClusterUUID (env : Env) (c : Client) (previousES : Elasticsearch) (h : Trace) :
    Option Error × Trace :=
  let retries := 30
  checkNewClusterUUIDLoop env c previousES retries retries h

def deletePVs (env : Env) (c : Client) : List PersistentVolume → Trace → Option Error × Trace
  | [], h => (none, h)
  | pv :: rest, h =>
    match Delete env c (.pv pv) ⟨none⟩ h with
    | (err, h1) =>
      if err ≠ none ∧ ¬ IsNotFound err then (err, h1)
      else deletePVs env c rest h1

def Migrate (env : Env) (m : migrator) (h : Trace) : Option Error × Trace :=
  match retrieveExistingResources env m h with
  | (.error e, h1) => (some e, h1)
  | (.ok resourcesFrom, h1) =>
    match setPVsReclaimPolicy env m.clientFrom resourcesFrom.pvs h1 with
    | (some e, h2) => (some e, h2)
    | (none, h2) =>
      match deleteElasticsearch env m.clientFrom resourcesFrom.elasticsearch h2 with
      | (some e, h3) => (some e, h3)
      | (none, h3) =>
        match recreateResources env m.clientTo resourcesFrom h3 with
        | (some e, h4) => (some e, h4)
        | (none, h4) =>
          match checkPodsRunning env m.clientTo resourcesFrom.pods h4 with
          | (some e, h5) => (some e, h5)
          | (none, h5) =>
            match checkNewClusterUUID env m.clientTo resourcesFrom.elasticsearch h5 with
            | (some e, h6) => (some e, h6)
            | (none, h6) =>
              match deletePVs env m.clientFrom resourcesFrom.pvs h6 with
              | (some e, h7) => (some e, h7)
              | (none, h7) => (none, h7)

/-! ## Specification vocabulary -/

/-- The volume sent by `setPVsReclaimPolicy`: `pv` with reclaim policy Retain. -/
def withRetain (pv : PersistentVolume) : PersistentVolume :=
  { pv with Spec := { pv.Spec with
      PersistentVolumeReclaimPolicy := PersistentVolumeReclaimRetain } }

/-- A successful `Update` of `pv` carrying reclaim policy Retain. -/
def retainUpdate (c : Client) (pv : PersistentVolume) : Event :=
  ⟨c, .Update (.pv (withRetain pv)), .done⟩

/-- The volumes of a list whose recorded reclaim policy is not Retain. -/
def notRetained (pvs : List PersistentVolume) : List PersistentVolume :=
  pvs.filter (fun pv => decide (pv.Spec.PersistentVolumeReclaimPolicy
    ≠ PersistentVolumeReclaimRetain))

/-- Object metadata with every field at its zero value. -/
def emptyMeta : ObjectMeta := ⟨"", "", "", "", 0, ⟨0⟩, [], [], [], []⟩

/-- An environment that answers every call with success: an object named by
the key for a `Get` (a Running pod, a volume with policy Delete and no claim
reference), an empty list for a `List`. -/
def okEnv : Env where
  getElasticsearch := fun _ _ key =>
    .ok ⟨{ emptyMeta with Name := key.Name, Namespace := key.Namespace }, ⟨"", []⟩, ⟨0, "", ""⟩⟩
  getPod := fun _ _ key =>
    .ok ⟨{ emptyMeta with Name := key.Name, Namespace := key.Namespace }, ⟨PodRunning⟩⟩
  getPersistentVolume := fun _ _ key =>
    .ok ⟨{ emptyMeta with Name := key.Name }, ⟨"", "", [], none, "Delete", ""⟩, ⟨"", "", ""⟩⟩
  listPods := fun _ _ _ _ => .ok []
  listPVCs := fun _ _ _ _ => .ok []
  update := fun _ _ _ => none
  delete := fun _ _ _ _ => none
  create := fun _ _ _ => none

/-- A volume `name` with the given reclaim policy and claim reference. -/
def mkPV (name policy : String) (claimRef : Option ObjectReference) : PersistentVolume :=
  ⟨{ emptyMeta with Name := name, UID := "uid-" ++ name, ResourceVersion := "7" },
   ⟨"1Gi", "disk-" ++ name, [], claimRef, policy, "standard"⟩, ⟨"Bound", "", ""⟩⟩

/-- The cluster UUID an Elasticsearch resource reports in its annotations
(`""` when it reports none). -/
def uuidOf (es : Elasticsearch) : String :=
  mapGet es.ObjectMeta.Annotations ClusterUUIDAnnotationName

/-- The key under which `checkNewClusterUUID` polls the target. -/
def esKey (previousES : Elasticsearch) : NamespacedName :=
  ⟨previousES.ObjectMeta.Namespace, previousES.ObjectMeta.Name⟩

/-- One poll of `checkNewClusterUUID` that fetched the resource `r`. -/
def pollES (c : Client) (previousES r : Elasticsearch) : Event :=
  ⟨c, .Get .Elasticsearch (esKey previousES), .object (.es r)⟩

/-- A poll that fetched a resource without cluster-UUID annotation. -/
def AbsentPoll (c : Client) (previousES : Elasticsearch) (ev : Event) : Prop :=
  ∃ r, ev = pollES c previousES r ∧ uuidOf r = ""

/-- The mismatch error of `checkNewClusterUUID`. -/
def uuidMismatch (expected got : String) : Error :=
  .text ("expected UUID " ++ expected ++ ", got " ++ got)

/-- The timeout error of `checkNewClusterUUID`. -/
def uuidTimeout : Error := .text "got no UUID after 30 retries"

/-- The polls `t` of a run of the verifier loop with `left` iterations to go
and its result `res`: only absent annotations until the budget is used up, or
absent annotations and then a last poll that decides. -/
def UUIDRun (c : Client) (previousES : Elasticsearch) (retries left : Nat)
    (res : Option Error) (t : Trace) : Prop :=
  (res = some (.text ("got no UUID after " ++ toString retries ++ " retries"))
      ∧ t.length = left ∧ ∀ ev ∈ t, AbsentPoll c previousES ev)
  ∨ ∃ t0 last, t = t0 ++ [last] ∧ t0.length < left ∧ (∀ ev ∈ t0, AbsentPoll c previousES ev)
      ∧ ((∃ e, last = ⟨c, .Get .Elasticsearch (esKey previousES), .err e⟩ ∧ res = some e)
        ∨ (∃ r, last = pollES c previousES r ∧ uuidOf r ≠ ""
            ∧ uuidOf r = uuidOf previousES ∧ res = none)
        ∨ (∃ r, last = pollES c previousES r ∧ uuidOf r ≠ ""
            ∧ uuidOf r ≠ uuidOf previousES
            ∧ res = some (uuidMismatch (uuidOf previousES) (uuidOf r))))

/-- An Elasticsearch resource `ns/name` with the given annotations. -/
def mkES (ns name : String) (annotations : List (String × String)) : Elasticsearch :=
  ⟨⟨name, ns, "uid-es", "42", 3, ⟨1700000000⟩, [("team", "search")], annotations,
      [⟨"Kibana", "kb", "uid-kb"⟩], ["finalizer.elasticsearch.k8s.elastic.co"]⟩,
   ⟨"7.6.0", ["default"]⟩, ⟨3, "green", "Ready"⟩⟩

/-- The environment `okEnv` whose clients report the given annotations on
every `Get` of an Elasticsearch resource. -/
def uuidEnv (annotations : List (String × String)) : Env :=
  { okEnv with
    getElasticsearch := fun _ _ key => .ok (mkES key.Namespace key.Name annotations) }

/-- The key under which the waiter fetches a rostered pod. -/
def podKey (p : Pod) : NamespacedName :=
  ⟨p.ObjectMeta.Namespace, p.ObjectMeta.Name⟩

/-- The Get of the rostered pod `p` fetched a pod whose phase is Running. -/
def FetchedRunning (c : Client) (p : Pod) (ev : Event) : Prop :=
  ∃ r, ev = ⟨c, .Get .Pod (podKey p), .object (.pod r)⟩ ∧ r.Status.Phase = PodRunning

/-- The Get of the rostered pod `p` answered NotFound, or fetched a pod whose
phase is not Running. -/
def NotYet (c : Client) (p : Pod) (ev : Event) : Prop :=
  (∃ e, ev = ⟨c, .Get .Pod (podKey p), .err e⟩ ∧ IsNotFound (some e) = true)
  ∨ ∃ r, ev = ⟨c, .Get .Pod (podKey p), .object (.pod r)⟩ ∧ r.Status.Phase ≠ PodRunning

/-- The Get of the rostered pod `p` failed with `e`, which is not a NotFound. -/
def FailedGet (c : Client) (e : Error) (p : Pod) (ev : Event) : Prop :=
  ev = ⟨c, .Get .Pod (podKey p), .err e⟩ ∧ IsNotFound (some e) = false

/-- A poll round in which every rostered pod was fetched, in roster order,
with phase Running. -/
def RoundOk (c : Client) (pods : List Pod) (round : Trace) : Prop :=
  List.Forall₂ (FetchedRunning c) pods round

/-- A poll round that fetched the first pods of the roster with phase Running
and stopped at the next pod, whose Get satisfies `stop`. -/
def RoundStopped (c : Client) (stop : Pod → Event → Prop) (pods : List Pod)
    (round : Trace) : Prop :=
  ∃ ps p rest r0 ev, pods = ps ++ p :: rest ∧ round = r0 ++ [ev]
    ∧ List.Forall₂ (FetchedRunning c) ps r0 ∧ stop p ev

/-- The timeout error of `checkPodsRunning`. -/
def podsTimeout : Error := .text "not all Pods are running"

/-- The poll rounds of a run of the waiter loop with `left` iterations to go
and its result `res`: only rounds stopped at a pod not yet running until the
budget is used up, or such rounds and then a last round that either found
every pod running or failed. -/
def PodsRun (c : Client) (pods : List Pod) (left : Nat) (res : Option Error)
    (rounds : List Trace) : Prop :=
  (res = some podsTimeout ∧ rounds.length = left
      ∧ ∀ r ∈ rounds, RoundStopped c (NotYet c) pods r)
  ∨ ∃ rs last, rounds = rs ++ [last] ∧ rs.length < left
      ∧ (∀ r ∈ rs, RoundStopped c (NotYet c) pods r)
      ∧ ((res = none ∧ RoundOk c pods last)
        ∨ ∃ e, res = some e ∧ RoundStopped c (FailedGet c e) pods last)

/-- A pod `ns/name` in the given phase. -/
def mkPod (ns name phase : String) : Pod :=
  ⟨{ emptyMeta with Name := name, Namespace := ns, UID := "uid-" ++ name }, ⟨phase⟩⟩

/-- An answer to a Delete that the two deletion loops pass over: success, or
an error that is a NotFound. -/
def Tolerated (resp : Response) : Prop :=
  resp = .done ∨ ∃ e, resp = .err e ∧ IsNotFound (some e) = true

/-- A Delete of `o` with options `opts` on `c` whose answer is tolerated. -/
def ToleratedDelete (c : Client) (opts : DeleteOptions) (o : Object) (ev : Event) : Prop :=
  ev.client = c ∧ ev.op = .Delete o opts ∧ Tolerated ev.resp

/-- The calls `t` and the result `res` of a deletion loop over `objs`: one
tolerated Delete per object, in order, and no error; or tolerated Deletes of
the first objects, then a Delete that failed with an error that is not a
NotFound, which is the result, and nothing after it. -/
def DeleteRun (c : Client) (opts : DeleteOptions) (objs : List Object) (res : Option Error)
    (t : Trace) : Prop :=
  (res = none ∧ List.Forall₂ (ToleratedDelete c opts) objs t)
  ∨ ∃ os o rest t0 e, objs = os ++ o :: rest ∧ t = t0 ++ [⟨c, .Delete o opts, .err e⟩]
      ∧ List.Forall₂ (ToleratedDelete c opts) os t0 ∧ IsNotFound (some e) = false
      ∧ res = some e

/-- The selector of the pods of the cluster `name`. -/
def clusterPods (name : String) : List (String × String) := [(clusterNameLabel, name)]

/-- The environment `okEnv` whose Deletes all answer NotFound. -/
def goneEnv : Env :=
  { okEnv with delete := fun _ _ _ _ => some (.api true "not found") }

/-- A claim reference with its uid and resource version cleared and every
other field kept. -/
def clearedRef (ref : ObjectReference) : ObjectReference where
  Kind := ref.Kind
  Namespace := ref.Namespace
  Name := ref.Name
  UID := ""
  APIVersion := ref.APIVersion
  ResourceVersion := ""
  FieldPath := ref.FieldPath

/-- The volume to create on the target for the snapshot volume `pv`: `pv`
with creation timestamp, resource version, uid, the uid and resource version
of the claim reference and the status cleared, and every other field kept. -/
def recreatedPV (pv : PersistentVolume) : PersistentVolume where
  ObjectMeta :=
    { Name := pv.ObjectMeta.Name
      Namespace := pv.ObjectMeta.Namespace
      UID := ""
      ResourceVersion := ""
      Generation := pv.ObjectMeta.Generation
      CreationTimestamp := ⟨0⟩
      Labels := pv.ObjectMeta.Labels
      Annotations := pv.ObjectMeta.Annotations
      OwnerReferences := pv.ObjectMeta.OwnerReferences
      Finalizers := pv.ObjectMeta.Finalizers }
  Spec :=
    { Capacity := pv.Spec.Capacity
      PersistentVolumeSource := pv.Spec.PersistentVolumeSource
      AccessModes := pv.Spec.AccessModes
      ClaimRef := pv.Spec.ClaimRef.map clearedRef
      PersistentVolumeReclaimPolicy := pv.Spec.PersistentVolumeReclaimPolicy
      StorageClassName := pv.Spec.StorageClassName }
  Status := ⟨"", "", ""⟩

/-- The Elasticsearch resource to create on the target for the snapshot
resource `es`: `es` with creation timestamp, resource version, uid, owner
references, annotations and status cleared, and every other field kept. -/
def recreatedES (es : Elasticsearch) : Elasticsearch where
  ObjectMeta :=
    { Name := es.ObjectMeta.Name
      Namespace := es.ObjectMeta.Namespace
      UID := ""
      ResourceVersion := ""
      Generation := es.ObjectMeta.Generation
      CreationTimestamp := ⟨0⟩
      Labels := es.ObjectMeta.Labels
      Annotations := []
      OwnerReferences := []
      Finalizers := es.ObjectMeta.Finalizers }
  Spec := es.Spec
  Status := ⟨0, "", ""⟩

/-- A successful Create, on `c`, of the recreation of the snapshot volume
`pv`, whose claim reference is not nil. -/
def CreatedPV (c : Client) (pv : PersistentVolume) (ev : Event) : Prop :=
  pv.Spec.ClaimRef ≠ none ∧ ev = ⟨c, .Create (.pv (recreatedPV pv)), .done⟩

/-- The error of `recreateResources` on a volume without claim reference. -/
def claimRefNil (pv : PersistentVolume) : Error :=
  .text ("spec.claimRef is nil on PV " ++ pv.ObjectMeta.Namespace ++ "/" ++ pv.ObjectMeta.Name)

/-- The calls `t` and the result `res` of the volume loop of
`recreateResources`: every volume created, in order; or the first volumes
created and then a volume without claim reference, for which nothing is
called, or a volume whose Create failed. -/
def RecreatePVsRun (c : Client) (pvs : List PersistentVolume) (res : Option Error)
    (t : Trace) : Prop :=
  (res = none ∧ List.Forall₂ (CreatedPV c) pvs t)
  ∨ ∃ ps pv rest t0, pvs = ps ++ pv :: rest ∧ List.Forall₂ (CreatedPV c) ps t0
      ∧ ((pv.Spec.ClaimRef = none ∧ t = t0 ∧ res = some (claimRefNil pv))
        ∨ ∃ e, pv.Spec.ClaimRef ≠ none
            ∧ t = t0 ++ [⟨c, .Create (.pv (recreatedPV pv)), .err e⟩] ∧ res = some e)

/-- A claim reference to the claim `ns/name`. -/
def mkRef (ns name : String) : ObjectReference :=
  ⟨"PersistentVolumeClaim", ns, name, "uid-" ++ name, "v1", "11", ""⟩

/-- A call that reads: a Get or a List. -/
def isRead : Op → Bool
  | .Get _ _ => true
  | .List _ _ _ => true
  | _ => false

/-- The error of `retrieveExistingResources` on an empty list of claims. -/
def noPVCFound : Error := .text "no PVC found"

/-- The error of `retrieveExistingResources` that names a claim without
volume name. -/
def noVolumeName (pvc : PersistentVolumeClaim) : Error :=
  .text ("PVC " ++ pvc.ObjectMeta.Namespace ++ "/" ++ pvc.ObjectMeta.Name
    ++ " has no spec.volumeName")

/-- The key under which the volume of a claim is fetched. -/
def pvKey (pvc : PersistentVolumeClaim) : NamespacedName :=
  ⟨pvc.ObjectMeta.Namespace, pvc.Spec.VolumeName⟩

/-- The Get of the volume of `pvc` on `c` that fetched `pv`. -/
def fetchPV (c : Client) (pvc : PersistentVolumeClaim) (pv : PersistentVolume) : Event :=
  ⟨c, .Get .PersistentVolume (pvKey pvc), .object (.pv pv)⟩

/-- The calls `t` and the result `res` of the claim loop of
`retrieveExistingResources` started with the volumes `acc`: one volume
fetched per claim, in order; or the volumes of the first claims fetched and
then a claim without volume name, for which nothing is called, or a claim
whose volume could not be fetched. -/
def RetrievePVsRun (c : Client) (pvcs : List PersistentVolumeClaim)
    (acc : List PersistentVolume) (res : Except Error (List PersistentVolume))
    (t : Trace) : Prop :=
  (∃ pvs, res = .ok (acc ++ pvs) ∧ pvs.length = pvcs.length
      ∧ t = List.zipWith (fetchPV c) pvcs pvs ∧ ∀ pvc ∈ pvcs, pvc.Spec.VolumeName ≠ "")
  ∨ ∃ ps pvc rest pvs, pvcs = ps ++ pvc :: rest ∧ pvs.length = ps.length
      ∧ (∀ p ∈ ps, p.Spec.VolumeName ≠ "")
      ∧ ((pvc.Spec.VolumeName = "" ∧ t = List.zipWith (fetchPV c) ps pvs
            ∧ res = .error (noVolumeName pvc))
        ∨ ∃ e, pvc.Spec.VolumeName ≠ ""
            ∧ t = List.zipWith (fetchPV c) ps pvs
                ++ [⟨c, .Get .PersistentVolume (pvKey pvc), .err e⟩]
            ∧ res = .error e)

/-- The first call of `retrieveExistingResources`, with its answer. -/
def getESCall (m : migrator) (resp : Response) : Event :=
  ⟨m.clientFrom, .Get .Elasticsearch ⟨m.namespace_, m.name⟩, resp⟩

/-- The second call of `retrieveExistingResources`, with its answer. -/
def listPodsCall (m : migrator) (resp : Response) : Event :=
  ⟨m.clientFrom, .List .Pod m.namespace_ (clusterPods m.name), resp⟩

/-- The third call of `retrieveExistingResources`, with its answer. -/
def listPVCsCall (m : migrator) (resp : Response) : Event :=
  ⟨m.clientFrom, .List .PersistentVolumeClaim m.namespace_ (clusterPods m.name), resp⟩

/-- The calls `t` and the result `res` of `retrieveExistingResources`. -/
def RetrieveRun (m : migrator) (res : Except Error resourcesFrom) (t : Trace) : Prop :=
  (∃ e, t = [getESCall m (.err e)] ∧ res = .error e)
  ∨ (∃ es e, t = [getESCall m (.object (.es es)), listPodsCall m (.err e)] ∧ res = .error e)
  ∨ (∃ es pods e, t = [getESCall m (.object (.es es)), listPodsCall m (.pods pods),
        listPVCsCall m (.err e)] ∧ res = .error e)
  ∨ (∃ es pods, t = [getESCall m (.object (.es es)), listPodsCall m (.pods pods),
        listPVCsCall m (.pvcs [])] ∧ res = .error noPVCFound)
  ∨ ∃ es pods pvcs t1, pvcs ≠ []
      ∧ t = [getESCall m (.object (.es es)), listPodsCall m (.pods pods),
          listPVCsCall m (.pvcs pvcs)] ++ t1
      ∧ ((∃ pvs, res = .ok ⟨es, pods, pvcs, pvs⟩
            ∧ RetrievePVsRun m.clientFrom pvcs [] (.ok pvs) t1)
        ∨ ∃ e, res = .error e ∧ RetrievePVsRun m.clientFrom pvcs [] (.error e) t1)

/-- A claim `ns/name` bound to the volume `volumeName`. -/
def mkPVC (ns name volumeName : String) : PersistentVolumeClaim :=
  ⟨{ emptyMeta with Name := name, Namespace := ns }, ⟨volumeName, "standard"⟩⟩

/-- The seven steps of `Migrate`. -/
inductive Stage where
  | collect
  | guard
  | delete
  | recreate
  | wait
  | verify
  | cleanup
deriving DecidableEq, Repr

/-- The calls a step of `Migrate` may issue: on which client and of which
form. -/
def InStage (m : migrator) : Stage → Event → Prop
  | .collect, ev => ev.client = m.clientFrom ∧ isRead ev.op = true
  | .guard, ev => ev.client = m.clientFrom ∧ ∃ pv, ev.op = .Update (.pv pv)
  | .delete, ev => ev.client = m.clientFrom
      ∧ ((∃ es, ev.op = .Delete (.es es) ⟨none⟩) ∨ (∃ ns labels, ev.op = .List .Pod ns labels)
        ∨ ∃ p, ev.op = .Delete (.pod p) ⟨some 0⟩)
  | .recreate, ev => ev.client = m.clientTo ∧ ∃ o, ev.op = .Create o
  | .wait, ev => ev.client = m.clientTo ∧ ∃ key, ev.op = .Get .Pod key
  | .verify, ev => ev.client = m.clientTo ∧ ∃ key, ev.op = .Get .Elasticsearch key
  | .cleanup, ev => ev.client = m.clientFrom ∧ ∃ pv, ev.op = .Delete (.pv pv) ⟨none⟩

/-- The trace `t` is made of consecutive segments, one per stage of the list
and in its order, each holding only calls of its stage (a segment may be
empty). -/
def InOrder (m : migrator) : List Stage → Trace → Prop
  | [], t => t = []
  | st :: rest, t => ∃ t1 t2, t = t1 ++ t2 ∧ (∀ ev ∈ t1, InStage m st ev) ∧ InOrder m rest t2

/-- The steps of `Migrate` in their order. -/
def allStages : List Stage :=
  [.collect, .guard, .delete, .recreate, .wait, .verify, .cleanup]

/-- Collection succeeded with snapshot `r`, leaving the history `h1`. -/
def Collected (env : Env) (m : migrator) (h : Trace) (r : resourcesFrom) (h1 : Trace) : Prop :=
  retrieveExistingResources env m h = (.ok r, h1)

/-- Collection and then the guard succeeded, leaving the history `h2`. -/
def Guarded (env : Env) (m : migrator) (h : Trace) (r : resourcesFrom) (h2 : Trace) : Prop :=
  ∃ h1, Collected env m h r h1 ∧ setPVsReclaimPolicy env m.clientFrom r.pvs h1 = (none, h2)

/-- The steps up to the deletion on the source succeeded. -/
def Deleted (env : Env) (m : migrator) (h : Trace) (r : resourcesFrom) (h3 : Trace) : Prop :=
  ∃ h2, Guarded env m h r h2
    ∧ deleteElasticsearch env m.clientFrom r.elasticsearch h2 = (none, h3)

/-- The steps up to the recreation on the target succeeded. -/
def Recreated (env : Env) (m : migrator) (h : Trace) (r : resourcesFrom) (h4 : Trace) : Prop :=
  ∃ h3, Deleted env m h r h3 ∧ recreateResources env m.clientTo r h3 = (none, h4)

/-- The steps up to `checkPodsRunning` succeeded. -/
def Converged (env : Env) (m : migrator) (h : Trace) (r : resourcesFrom) (h5 : Trace) : Prop :=
  ∃ h4, Recreated env m h r h4 ∧ checkPodsRunning env m.clientTo r.pods h4 = (none, h5)

/-- The steps up to `checkNewClusterUUID` succeeded. -/
def Verified (env : Env) (m : migrator) (h : Trace) (r : resourcesFrom) (h6 : Trace) : Prop :=
  ∃ h5, Converged env m h r h5
    ∧ checkNewClusterUUID env m.clientTo r.elasticsearch h5 = (none, h6)

/-- All seven steps succeeded. -/
def Cleaned (env : Env) (m : migrator) (h : Trace) (r : resourcesFrom) (h7 : Trace) : Prop :=
  ∃ h6, Verified env m h r h6 ∧ deletePVs env m.clientFrom r.pvs h6 = (none, h7)

/-- From the history `h` the calls up to the history `hk` were issued by the
stages `sts`, in their order. -/
def Progress (m : migrator) (h : Trace) (sts : List Stage) (hk : Trace) : Prop :=
  ∃ t, hk = h ++ t ∧ InOrder m sts t

/-- A call of a stage that comes after the guard. -/
def AfterGuard (m : migrator) (ev : Event) : Prop :=
  ∃ st, st ≠ Stage.collect ∧ st ≠ Stage.guard ∧ InStage m st ev

/-- The history `hk` extends, by calls of stages after the guard, a history
at which collection and the guard had succeeded. -/
def PastGuard (env : Env) (m : migrator) (h : Trace) (r : resourcesFrom) (hk : Trace) : Prop :=
  ∃ h2 rest, Guarded env m h r h2 ∧ hk = h2 ++ rest ∧ ∀ ev ∈ rest, AfterGuard m ev

/-- The result `res` and the final history `out` of a run of `Migrate` from
the history `h`: the steps before some step succeeded, that step returned the
error `res` and `out` is the history at its return; or all seven steps
succeeded and `res` is nil. -/
def MigrateOutcome (env : Env) (m : migrator) (h : Trace) (res : Option Error)
    (out : Trace) : Prop :=
  (∃ e, retrieveExistingResources env m h = (.error e, out) ∧ res = some e)
  ∨ (∃ r h1 e, Collected env m h r h1
      ∧ setPVsReclaimPolicy env m.clientFrom r.pvs h1 = (some e, out) ∧ res = some e)
  ∨ (∃ r h2 e, Guarded env m h r h2
      ∧ deleteElasticsearch env m.clientFrom r.elasticsearch h2 = (some e, out) ∧ res = some e)
  ∨ (∃ r h3 e, Deleted env m h r h3
      ∧ recreateResources env m.clientTo r h3 = (some e, out) ∧ res = some e)
  ∨ (∃ r h4 e, Recreated env m h r h4
      ∧ checkPodsRunning env m.clientTo r.pods h4 = (some e, out) ∧ res = some e)
  ∨ (∃ r h5 e, Converged env m h r h5
      ∧ checkNewClusterUUID env m.clientTo r.elasticsearch h5 = (some e, out) ∧ res = some e)
  ∨ (∃ r h6 e, Verified env m h r h6
      ∧ deletePVs env m.clientFrom r.pvs h6 = (some e, out) ∧ res = some e)
  ∨ ∃ r, Cleaned env m h r out ∧ res = none

/-- The stages before the cleanup. -/
def stagesBeforeCleanup : List Stage :=
  [.collect, .guard, .delete, .recreate, .wait, .verify]

/-- The successful Create of the recreation of the snapshot volume `pv`. -/
def createPVCall (c : Client) (pv : PersistentVolume) : Event :=
  ⟨c, .Create (.pv (recreatedPV pv)), .done⟩

/-- A snapshot of the cluster `ns/es1` with two bound volumes. -/
def demoSnapshot : resourcesFrom where
  elasticsearch := mkES "ns" "es1" [(ClusterUUIDAnnotationName, "uuid-123")]
  pods := [mkPod "ns" "es1-es-default-0" "Running", mkPod "ns" "es1-es-default-1" "Running"]
  pvcs := [mkPVC "ns" "data-0" "pv-0", mkPVC "ns" "data-1" "pv-1"]
  pvs := [mkPV "pv-0" "Delete" (some (mkRef "ns" "data-0")),
    mkPV "pv-1" "Retain" (some (mkRef "ns" "data-1"))]

/-- The migrator of the cluster `ns/es1`. -/
def demoMigrator : migrator := ⟨.source, .target, "ns", "es1"⟩

/-- The environment `okEnv` whose source lists two claims, `data-0` bound to
the volume `pv-0` and `data-1` without volume name, and answers NotFound to
every Get of a volume. -/
def lostVolumeEnv : Env :=
  { okEnv with
    listPVCs := fun _ _ _ _ => .ok [mkPVC "ns" "data-0" "pv-0", mkPVC "ns" "data-1" ""]
    getPersistentVolume := fun _ _ _ => .error (.api true "persistentvolumes pv-0 not found") }

/-- A source that holds the cluster `ns/es1` with two pods and two claims
bound to two volumes recorded with policy Delete, and a target on which every
call succeeds, the pods run and the cluster reports the UUID `uuid-123`. -/
def demoEnv : Env :=
  { okEnv with
    getElasticsearch := fun _ _ key =>
      .ok (mkES key.Namespace key.Name [(ClusterUUIDAnnotationName, "uuid-123")])
    listPods := fun _ _ ns _ =>
      .ok [mkPod ns "es1-es-default-0" "Running", mkPod ns "es1-es-default-1" "Running"]
    listPVCs := fun _ _ ns _ => .ok [mkPVC ns "data-0" "pv-0", mkPVC ns "data-1" "pv-1"]
    getPersistentVolume := fun _ _ key =>
      .ok (mkPV key.Name "Delete" (some (mkRef key.Namespace "data"))) }

/-- The environment `okEnv` whose Gets of a pod all answer NotFound. -/
def noPodsEnv : Env :=
  { okEnv with getPod := fun _ _ _ => .error (.api true "pods not found") }

/-- The environment `okEnv` whose source has neither the Elasticsearch
resource (its Get answers NotFound) nor any claim. -/
def emptySourceEnv : Env :=
  { okEnv with
    getElasticsearch := fun _ _ _ => .error (.api true "elasticsearches es1 not found") }

/-- The history after the three first calls of `retrieveExistingResources`
from the history `h`, when they fetched `es`, listed `pods` and listed the
claims `listed`. -/
def afterListPVCs (m : migrator) (h : Trace) (es : Elasticsearch) (pods : List Pod)
    (listed : List PersistentVolumeClaim) : Trace :=
  h ++ [getESCall m (.object (.es es)), listPodsCall m (.pods pods),
    listPVCsCall m (.pvcs listed)]

/-- What the environment answers to the three first calls of
`retrieveExistingResources` from the history `h`: the Get of the
Elasticsearch resource fetches `es`, then the List of pods answers `pods`,
then the List of claims answers `listed`. -/
def Listed (env : Env) (m : migrator) (h : Trace) (es : Elasticsearch) (pods : List Pod)
    (listed : List PersistentVolumeClaim) : Prop :=
  env.getElasticsearch h m.clientFrom ⟨m.namespace_, m.name⟩ = .ok es
  ∧ env.listPods (h ++ [getESCall m (.object (.es es))]) m.clientFrom m.namespace_
      (clusterPods m.name) = .ok pods
  ∧ env.listPVCs (h ++ [getESCall m (.object (.es es)), listPodsCall m (.pods pods)])
      m.clientFrom m.namespace_ (clusterPods m.name) = .ok listed

/-- What the environment answers to the Gets of the volumes of the claims
`pvcs`, issued one after the other on `c` from the history `h`: the Get for
each claim fetches the volume at the same place of `pvs`. -/
def FetchedAll (env : Env) (c : Client) :
    Trace → List PersistentVolumeClaim → List PersistentVolume → Prop
  | _, [], [] => True
  | h, pvc :: pvcs, pv :: pvs =>
    env.getPersistentVolume h c (pvKey pvc) = .ok pv
    ∧ FetchedAll env c (h ++ [fetchPV c pvc pv]) pvcs pvs
  | _, _, _ => False

/-- The Elasticsearch resource `okEnv` answers to a Get of `ns/name`. -/
def blankES (ns name : String) : Elasticsearch :=
  ⟨{ emptyMeta with Name := name, Namespace := ns }, ⟨"", []⟩, ⟨0, "", ""⟩⟩

/-- The volume `okEnv` answers to a Get of the volume `name`. -/
def blankPV (name : String) : PersistentVolume :=
  ⟨{ emptyMeta with Name := name }, ⟨"", "", [], none, "Delete", ""⟩, ⟨"", "", ""⟩⟩

/-- The environment `okEnv` whose source lists two claims, `data-0` bound to
the volume `pv-0` and `data-1` without volume name. -/
def unboundClaimEnv : Env :=
  { okEnv with
    listPVCs := fun _ _ _ _ => .ok [mkPVC "ns" "data-0" "pv-0", mkPVC "ns" "data-1" ""] }

/-! # Theorems -/

/-! ## The reclaim-policy guard -/

theorem notRetained_cons_retain (pv : PersistentVolume) (rest : List PersistentVolume)
    (hp : pv.Spec.PersistentVolumeReclaimPolicy = PersistentVolumeReclaimRetain) :
    notRetained (pv :: rest) = notRetained rest := by
  simp [notRetained, hp]

theorem notRetained_cons_other (pv : PersistentVolume) (rest : List PersistentVolume)
    (hp : pv.Spec.PersistentVolumeReclaimPolicy ≠ PersistentVolumeReclaimRetain) :
    notRetained (pv :: rest) = pv :: notRetained rest := by
  simp [notRetained, hp]

/-- Every run of the guard: either each volume not recorded as Retain got one
successful Update, in order, or the Update of one such volume failed, its
error is returned and nothing follows. -/
theorem setPVsReclaimPolicy_run (env : Env) (c : Client) (pvs : List PersistentVolume) :
    ∀ h : Trace,
      setPVsReclaimPolicy env c pvs h = (none, h ++ (notRetained pvs).map (retainUpdate c))
      ∨ ∃ ps pv rest e, pvs = ps ++ pv :: rest
          ∧ pv.Spec.PersistentVolumeReclaimPolicy ≠ PersistentVolumeReclaimRetain
          ∧ setPVsReclaimPolicy env c pvs h
            = (some e, h ++ ((notRetained ps).map (retainUpdate c)
                ++ [⟨c, .Update (.pv (withRetain pv)), .err e⟩])) := by
  induction pvs with
  | nil => intro h; left; simp [setPVsReclaimPolicy, notRetained]
  | cons pv rest ih =>
    intro h
    by_cases hp : pv.Spec.PersistentVolumeReclaimPolicy = PersistentVolumeReclaimRetain
    · rcases ih h with h1 | ⟨ps, q, rest', e, hpvs, hq, hrun⟩
      · left
        rw [notRetained_cons_retain pv rest hp]
        simpa [setPVsReclaimPolicy, hp] using h1
      · right
        refine ⟨pv :: ps, q, rest', e, by simp [hpvs], hq, ?_⟩
        rw [notRetained_cons_retain pv ps hp]
        simpa [setPVsReclaimPolicy, hp] using hrun
    · cases hu : env.update h c (.pv (withRetain pv)) with
      | some e =>
        right
        refine ⟨[], pv, rest, e, rfl, hp, ?_⟩
        simp [setPVsReclaimPolicy, hp, Update, withRetain, notRetained, respOf] at hu ⊢
        simp [hu, respOf]
      | none =>
        have hstep : setPVsReclaimPolicy env c (pv :: rest) h
            = setPVsReclaimPolicy env c rest (h ++ [retainUpdate c pv]) := by
          simp [setPVsReclaimPolicy, hp, Update, withRetain, retainUpdate, respOf] at hu ⊢
          simp [hu, respOf]
        rcases ih (h ++ [retainUpdate c pv]) with h1 | ⟨ps, q, rest', e, hpvs, hq, hrun⟩
        · left
          rw [hstep, h1, notRetained_cons_other pv rest hp]
          simp
        · right
          refine ⟨pv :: ps, q, rest', e, by simp [hpvs], hq, ?_⟩
          rw [hstep, hrun, notRetained_cons_other pv ps hp]
          simp

/-- On a client whose Updates succeed the guard updates, in order, exactly
the volumes not recorded as Retain. -/
theorem setPVsReclaimPolicy_ok (env : Env) (c : Client)
    (hok : ∀ h1 o, env.update h1 c o = none) (pvs : List PersistentVolume) :
    ∀ h : Trace,
      setPVsReclaimPolicy env c pvs h = (none, h ++ (notRetained pvs).map (retainUpdate c)) := by
  induction pvs with
  | nil => intro h; simp [setPVsReclaimPolicy, notRetained]
  | cons pv rest ih =>
    intro h
    by_cases hp : pv.Spec.PersistentVolumeReclaimPolicy = PersistentVolumeReclaimRetain
    · rw [notRetained_cons_retain pv rest hp]
      simpa [setPVsReclaimPolicy, hp] using ih h
    · rw [notRetained_cons_other pv rest hp]
      simp [setPVsReclaimPolicy, hp, Update, hok, ih, retainUpdate, withRetain, respOf]

/-- C9, counterexample: on a client whose Updates succeed, a second invocation
on the same one-volume list (recorded policy Delete) issues the Update again. -/
theorem C9_second_invocation_updates_again :
    setPVsReclaimPolicy okEnv .source [mkPV "pv-a" "Delete" none] []
        = (none, [retainUpdate .source (mkPV "pv-a" "Delete" none)])
    ∧ setPVsReclaimPolicy okEnv .source [mkPV "pv-a" "Delete" none]
          [retainUpdate .source (mkPV "pv-a" "Delete" none)]
        = (none, [retainUpdate .source (mkPV "pv-a" "Delete" none),
            ⟨.source, .Update (.pv (withRetain (mkPV "pv-a" "Delete" none))), .done⟩]) := by
  decide

/-- C9, amended: on a client whose Updates succeed, an invocation of
`setPVsReclaimPolicy` issues one Update carrying Retain for each volume of the
list whose recorded policy is not Retain, in order, and nothing else; so on a
list whose volumes all record Retain it issues no call; the list is not
changed, so a second invocation on it issues the same Updates again. -/
theorem C9_guard_updates_not_retained (env : Env) (c : Client) (pvs : List PersistentVolume)
    (h : Trace) (hok : ∀ h1 o, env.update h1 c o = none) :
    setPVsReclaimPolicy env c pvs h = (none, h ++ (notRetained pvs).map (retainUpdate c))
    ∧ ((∀ pv ∈ pvs, pv.Spec.PersistentVolumeReclaimPolicy = PersistentVolumeReclaimRetain)
        → setPVsReclaimPolicy env c pvs h = (none, h))
    ∧ setPVsReclaimPolicy env c pvs (setPVsReclaimPolicy env c pvs h).2
        = (none, h ++ (notRetained pvs).map (retainUpdate c)
            ++ (notRetained pvs).map (retainUpdate c)) := by
  have key := setPVsReclaimPolicy_ok env c hok pvs
  refine ⟨key h, ?_, ?_⟩
  · intro hall
    have : notRetained pvs = [] := by
      simp only [notRetained, List.filter_eq_nil_iff]
      intro pv hpv
      simp [hall pv hpv]
    rw [key h, this]
    simp
  · rw [key h, key]

/-- C9, the amended claim on a list of one volume kept and one to update. -/
theorem C9_guard_updates_not_retained_witness :
    (∀ h1 o, okEnv.update h1 .target o = none)
    ∧ setPVsReclaimPolicy okEnv .target [mkPV "a" "Retain" none, mkPV "b" "Delete" none] []
        = (none, [retainUpdate .target (mkPV "b" "Delete" none)]) :=
  ⟨fun _ _ => rfl,
    (C9_guard_updates_not_retained okEnv .target
      [mkPV "a" "Retain" none, mkPV "b" "Delete" none] [] (fun _ _ => rfl)).1⟩

/-! ## The identity verifier -/

theorem pollES_not_absent (c : Client) (es r : Elasticsearch) (hr : uuidOf r ≠ "") :
    ¬ AbsentPoll c es (pollES c es r) := by
  rintro ⟨r1, heq, h1⟩
  simp only [pollES, Event.mk.injEq, Response.object.injEq, Object.es.injEq] at heq
  rw [heq.2.2] at hr
  exact hr h1

theorem absent_cons (c : Client) (es r : Elasticsearch) (hr : uuidOf r = "") (t : Trace)
    (hall : ∀ ev ∈ t, AbsentPoll c es ev) :
    ∀ ev ∈ pollES c es r :: t, AbsentPoll c es ev := by
  intro ev hev
  rcases List.mem_cons.1 hev with rfl | hmem
  · exact ⟨r, rfl, hr⟩
  · exact hall ev hmem

/-- Every run of the verifier loop is a `UUIDRun`. -/
theorem checkNewClusterUUIDLoop_run (env : Env) (c : Client) (es : Elasticsearch)
    (retries : Nat) :
    ∀ (left : Nat) (h : Trace), ∃ t,
      (checkNewClusterUUIDLoop env c es retries left h).2 = h ++ t
      ∧ UUIDRun c es retries left (checkNewClusterUUIDLoop env c es retries left h).1 t := by
  intro left
  induction left with
  | zero =>
    intro h
    exact ⟨[], by simp [checkNewClusterUUIDLoop],
      Or.inl ⟨by simp [checkNewClusterUUIDLoop], rfl, by simp⟩⟩
  | succ n ih =>
    intro h
    cases hg : env.getElasticsearch h c ⟨es.ObjectMeta.Namespace, es.ObjectMeta.Name⟩ with
    | error e =>
      refine ⟨[⟨c, .Get .Elasticsearch (esKey es), .err e⟩], ?_, Or.inr ⟨[], _, rfl, ?_, ?_,
        Or.inl ⟨e, rfl, ?_⟩⟩⟩
      · simp [checkNewClusterUUIDLoop, GetElasticsearch, hg, esKey]
      · simp
      · simp
      · simp [checkNewClusterUUIDLoop, GetElasticsearch, hg]
    | ok r =>
      by_cases h1 : mapGet r.ObjectMeta.Annotations ClusterUUIDAnnotationName = ""
      · obtain ⟨t, ht, hrun⟩ := ih (h ++ [pollES c es r])
        have hstep : checkNewClusterUUIDLoop env c es retries (n + 1) h
            = checkNewClusterUUIDLoop env c es retries n (h ++ [pollES c es r]) := by
          simp [checkNewClusterUUIDLoop, GetElasticsearch, hg, h1, pollES, esKey]
        refine ⟨pollES c es r :: t, by rw [hstep, ht]; simp, ?_⟩
        rw [hstep]
        rcases hrun with ⟨hres, hlen, hall⟩ | ⟨t0, last, ht0, hlt, hall, hcase⟩
        · exact Or.inl ⟨hres, by simp [hlen], absent_cons c es r h1 t hall⟩
        · exact Or.inr ⟨pollES c es r :: t0, last, by simp [ht0], by simpa using hlt,
            absent_cons c es r h1 t0 hall, hcase⟩
      · by_cases h2 : mapGet r.ObjectMeta.Annotations ClusterUUIDAnnotationName
            = mapGet es.ObjectMeta.Annotations ClusterUUIDAnnotationName
        · have h1e : ¬ mapGet es.ObjectMeta.Annotations ClusterUUIDAnnotationName = "" :=
            h2 ▸ h1
          refine ⟨[pollES c es r], ?_, Or.inr ⟨[], _, rfl, ?_, ?_,
            Or.inr (Or.inl ⟨r, rfl, h1, h2, ?_⟩)⟩⟩
          · simp [checkNewClusterUUIDLoop, GetElasticsearch, hg, h1e, h2, pollES, esKey]
          · simp
          · simp
          · simp [checkNewClusterUUIDLoop, GetElasticsearch, hg, h1e, h2]
        · refine ⟨[pollES c es r], ?_, Or.inr ⟨[], _, rfl, ?_, ?_,
            Or.inr (Or.inr ⟨r, rfl, h1, h2, ?_⟩)⟩⟩
          · simp [checkNewClusterUUIDLoop, GetElasticsearch, hg, h1, h2, pollES, esKey]
          · simp
          · simp
          · simp [checkNewClusterUUIDLoop, GetElasticsearch, hg, h1, h2, uuidMismatch, uuidOf]

/-- A list that ends with `l` and is split at an element not among the ones
before `l` is split at `l`. -/
theorem split_at_last {α : Type} (a : List α) (l x : α) (b d : List α)
    (h : a ++ [l] = b ++ x :: d) (hx : x ∉ a) : d = [] ∧ x = l ∧ b = a := by
  rcases List.eq_nil_or_concat d with rfl | ⟨d1, z, rfl⟩
  · have h1 : a ++ [l] = b ++ [x] := h
    have := List.append_inj' h1 rfl
    exact ⟨rfl, (List.cons.inj this.2).1.symm, this.1.symm⟩
  · exfalso
    have h1 : a ++ [l] = (b ++ x :: d1) ++ [z] := by simpa using h
    have := (List.append_inj' h1 rfl).1
    exact hx (by rw [this]; simp)

theorem uuidTimeout_eq : Error.text ("got no UUID after " ++ toString 30 ++ " retries")
    = uuidTimeout := by
  decide

theorem uuidTimeout_ne_mismatch (U V : String) : uuidTimeout ≠ uuidMismatch U V := by
  intro h
  simp only [uuidTimeout, uuidMismatch, Error.text.injEq] at h
  have h1 := congrArg String.data h
  simp only [String.data_append] at h1
  have h2 := congrArg List.head? h1
  revert h2
  simp

/-- Every run of `checkNewClusterUUID`: 30 polls that all saw no annotation
and the timeout error, or fewer than 30 such polls and a last poll that
failed, matched or mismatched. -/
theorem checkNewClusterUUID_run (env : Env) (c : Client) (es : Elasticsearch) (h : Trace) :
    ∃ t, (checkNewClusterUUID env c es h).2 = h ++ t
      ∧ (((checkNewClusterUUID env c es h).1 = some uuidTimeout
            ∧ t.length = 30 ∧ ∀ ev ∈ t, AbsentPoll c es ev)
        ∨ ∃ t0 last, t = t0 ++ [last] ∧ t0.length < 30 ∧ (∀ ev ∈ t0, AbsentPoll c es ev)
            ∧ ((∃ e, last = ⟨c, .Get .Elasticsearch (esKey es), .err e⟩
                  ∧ (checkNewClusterUUID env c es h).1 = some e)
              ∨ (∃ r, last = pollES c es r ∧ uuidOf r ≠ "" ∧ uuidOf r = uuidOf es
                  ∧ (checkNewClusterUUID env c es h).1 = none)
              ∨ (∃ r, last = pollES c es r ∧ uuidOf r ≠ "" ∧ uuidOf r ≠ uuidOf es
                  ∧ (checkNewClusterUUID env c es h).1
                    = some (uuidMismatch (uuidOf es) (uuidOf r))))) := by
  obtain ⟨t, ht, hrun⟩ := checkNewClusterUUIDLoop_run env c es 30 30 h
  refine ⟨t, ht, ?_⟩
  rcases hrun with ⟨hres, hlen, hall⟩ | hrest
  · left
    rw [uuidTimeout_eq] at hres
    exact ⟨hres, hlen, hall⟩
  · exact Or.inr hrest

/-- When every `Get` answers a resource without annotation the verifier polls
30 times and times out. -/
theorem checkNewClusterUUIDLoop_all_absent (env : Env) (c : Client) (es : Elasticsearch)
    (retries : Nat)
    (habs : ∀ h1, ∃ r, env.getElasticsearch h1 c (esKey es) = .ok r ∧ uuidOf r = "") :
    ∀ (left : Nat) (h : Trace),
      (checkNewClusterUUIDLoop env c es retries left h).1
          = some (.text ("got no UUID after " ++ toString retries ++ " retries"))
      ∧ (checkNewClusterUUIDLoop env c es retries left h).2.length = h.length + left := by
  intro left
  induction left with
  | zero => intro h; simp [checkNewClusterUUIDLoop]
  | succ n ih =>
    intro h
    obtain ⟨r, hg, hr⟩ := habs h
    simp only [esKey] at hg
    simp only [uuidOf] at hr
    have hstep : checkNewClusterUUIDLoop env c es retries (n + 1) h
        = checkNewClusterUUIDLoop env c es retries n (h ++ [pollES c es r]) := by
      simp [checkNewClusterUUIDLoop, GetElasticsearch, hg, hr, pollES, esKey]
    rw [hstep]
    refine ⟨(ih _).1, ?_⟩
    rw [(ih _).2]
    simp
    omega

theorem failed_poll_not_absent (c : Client) (es : Elasticsearch) (e : Error) :
    ¬ AbsentPoll c es ⟨c, .Get .Elasticsearch (esKey es), .err e⟩ := by
  rintro ⟨r1, heq, _⟩
  simp [pollES] at heq

theorem pollES_inj (c : Client) (es r r1 : Elasticsearch) (h : pollES c es r = pollES c es r1) :
    r = r1 := by
  simpa [pollES] using h

/-- C5: `checkNewClusterUUID` issues at most 30 polls, all of them Gets of the
previous resource's key on the given client; it returns success only if some
poll fetched a resource whose cluster-UUID annotation is the previous one; a
poll that sees a non-empty annotation different from the previous one is the
last poll and the result is the mismatch error, also when it is the very first
poll; a poll that sees no annotation is followed by another poll as long as
fewer than 30 were made; after 30 polls that all saw no annotation the result
is the timeout error `got no UUID after 30 retries`, which is reached when the
target never reports an annotation and which differs from every mismatch
error. -/
theorem C5_checkNewClusterUUID_outcomes (env : Env) (c : Client) (es : Elasticsearch)
    (h : Trace) :
    ∃ t, (checkNewClusterUUID env c es h).2 = h ++ t
      ∧ t.length ≤ 30
      ∧ (∀ ev ∈ t, ev.client = c ∧ ev.op = .Get .Elasticsearch (esKey es))
      ∧ ((checkNewClusterUUID env c es h).1 = none
          → ∃ r, pollES c es r ∈ t ∧ uuidOf r = uuidOf es)
      ∧ (∀ t0 r t1, t = t0 ++ pollES c es r :: t1 → uuidOf r ≠ "" → uuidOf r ≠ uuidOf es
          → t1 = [] ∧ (checkNewClusterUUID env c es h).1
              = some (uuidMismatch (uuidOf es) (uuidOf r)))
      ∧ (∀ r, env.getElasticsearch h c (esKey es) = .ok r → uuidOf r ≠ ""
          → uuidOf r ≠ uuidOf es
          → checkNewClusterUUID env c es h
              = (some (uuidMismatch (uuidOf es) (uuidOf r)), h ++ [pollES c es r]))
      ∧ (∀ t0 ev t1, t = t0 ++ ev :: t1 → AbsentPoll c es ev → t0.length + 1 < 30 → t1 ≠ [])
      ∧ (t.length = 30 → (∀ ev ∈ t, AbsentPoll c es ev)
          → (checkNewClusterUUID env c es h).1 = some uuidTimeout)
      ∧ ((∀ h1, ∃ r, env.getElasticsearch h1 c (esKey es) = .ok r ∧ uuidOf r = "")
          → (checkNewClusterUUID env c es h).1 = some uuidTimeout ∧ t.length = 30)
      ∧ ∀ U V, uuidTimeout ≠ uuidMismatch U V := by
  obtain ⟨t, ht, hrun⟩ := checkNewClusterUUID_run env c es h
  have hlastNotAbsent : ∀ last : Event,
      ((∃ e, last = ⟨c, .Get .Elasticsearch (esKey es), .err e⟩
            ∧ (checkNewClusterUUID env c es h).1 = some e)
        ∨ (∃ r, last = pollES c es r ∧ uuidOf r ≠ "" ∧ uuidOf r = uuidOf es
            ∧ (checkNewClusterUUID env c es h).1 = none)
        ∨ (∃ r, last = pollES c es r ∧ uuidOf r ≠ "" ∧ uuidOf r ≠ uuidOf es
            ∧ (checkNewClusterUUID env c es h).1
              = some (uuidMismatch (uuidOf es) (uuidOf r))))
      → ¬ AbsentPoll c es last := by
    rintro last (⟨e, rfl, _⟩ | ⟨r, rfl, hr, _, _⟩ | ⟨r, rfl, hr, _, _⟩)
    · exact failed_poll_not_absent c es e
    · exact pollES_not_absent c es r hr
    · exact pollES_not_absent c es r hr
  refine ⟨t, ht, ?_, ?_, ?_, ?_, ?_, ?_, ?_, ?_, uuidTimeout_ne_mismatch⟩
  · rcases hrun with ⟨_, hlen, _⟩ | ⟨t0, last, rfl, hlt, _, _⟩
    · omega
    · simp; omega
  · intro ev hev
    have habs : ∀ ev1, AbsentPoll c es ev1
        → ev1.client = c ∧ ev1.op = .Get .Elasticsearch (esKey es) := by
      rintro ev1 ⟨r, rfl, _⟩
      exact ⟨rfl, rfl⟩
    rcases hrun with ⟨_, _, hall⟩ | ⟨t0, last, rfl, _, hall, hcase⟩
    · exact habs ev (hall ev hev)
    · rcases List.mem_append.1 hev with h0 | h1
      · exact habs ev (hall ev h0)
      · rw [List.mem_singleton] at h1
        subst h1
        rcases hcase with ⟨e, rfl, _⟩ | ⟨r, rfl, _⟩ | ⟨r, rfl, _⟩ <;> exact ⟨rfl, rfl⟩
  · intro hnone
    rcases hrun with ⟨hres, _, _⟩ | ⟨t0, last, rfl, _, _, hcase⟩
    · rw [hnone] at hres; cases hres
    · rcases hcase with ⟨e, _, hres⟩ | ⟨r, rfl, _, hr, _⟩ | ⟨r, _, _, _, hres⟩
      · rw [hnone] at hres; cases hres
      · exact ⟨r, by simp, hr⟩
      · rw [hnone] at hres; cases hres
  · intro t0 r t1 hsplit hr1 hr2
    rcases hrun with ⟨_, _, hall⟩ | ⟨t0a, last, hta, _, hall, hcase⟩
    · exact absurd (hall _ (by rw [hsplit]; simp)) (pollES_not_absent c es r hr1)
    · have hnot : pollES c es r ∉ t0a := fun hm =>
        pollES_not_absent c es r hr1 (hall _ hm)
      obtain ⟨h1, h2, _⟩ := split_at_last t0a last (pollES c es r) t0 t1
        (by rw [← hta, hsplit]) hnot
      refine ⟨h1, ?_⟩
      rcases hcase with ⟨e, hl, _⟩ | ⟨r1, hl, _, hr, _⟩ | ⟨r1, hl, _, _, hres⟩
      · rw [hl] at h2; simp [pollES] at h2
      · rw [hl] at h2
        rw [pollES_inj c es r r1 h2] at hr2
        exact absurd hr hr2
      · rw [hl] at h2
        rw [pollES_inj c es r r1 h2]
        exact hres
  · intro r hg hr1 hr2
    simp only [esKey] at hg
    simp only [uuidOf] at hr1 hr2
    simp [checkNewClusterUUID, checkNewClusterUUIDLoop, GetElasticsearch, hg, hr1, hr2,
      uuidMismatch, uuidOf, pollES, esKey]
  · intro t0 ev t1 hsplit habs hlen
    rcases hrun with ⟨_, hl, _⟩ | ⟨t0a, last, hta, _, hall, hcase⟩
    · intro h1
      rw [hsplit, h1] at hl
      simp at hl
      omega
    · intro h1
      rw [h1] at hsplit
      have := List.append_inj' (hta.symm.trans hsplit) rfl
      have hl : last = ev := (List.cons.inj this.2).1
      exact hlastNotAbsent last hcase (hl ▸ habs)
  · intro _ hall
    rcases hrun with ⟨hres, _, _⟩ | ⟨t0a, last, hta, _, _, hcase⟩
    · exact hres
    · exact absurd (hall last (by rw [hta]; simp)) (hlastNotAbsent last hcase)
  · intro habs
    have hloop := checkNewClusterUUIDLoop_all_absent env c es 30 habs 30 h
    rw [uuidTimeout_eq] at hloop
    refine ⟨hloop.1, ?_⟩
    have hlen := hloop.2
    have ht2 : (checkNewClusterUUIDLoop env c es 30 30 h).2 = h ++ t := ht
    rw [ht2] at hlen
    simpa using hlen

/-- C10: when the previous resource carries no cluster-UUID annotation,
`checkNewClusterUUID` never returns success: its result is the error of a
failed Get, or the mismatch error (expected value empty) of the poll that
first fetched a non-empty annotation, which is then the last poll, or the
timeout error after 30 polls that all saw no annotation. -/
theorem C10_no_previous_uuid_never_succeeds (env : Env) (c : Client) (es : Elasticsearch)
    (h : Trace) (hU : uuidOf es = "") :
    (checkNewClusterUUID env c es h).1 ≠ none
    ∧ ∃ t, (checkNewClusterUUID env c es h).2 = h ++ t
      ∧ ((∃ e, (⟨c, .Get .Elasticsearch (esKey es), .err e⟩ : Event) ∈ t
            ∧ (checkNewClusterUUID env c es h).1 = some e)
        ∨ (∃ r, pollES c es r ∈ t ∧ uuidOf r ≠ ""
            ∧ (checkNewClusterUUID env c es h).1 = some (uuidMismatch "" (uuidOf r)))
        ∨ ((checkNewClusterUUID env c es h).1 = some uuidTimeout ∧ t.length = 30
            ∧ ∀ ev ∈ t, AbsentPoll c es ev))
      ∧ (∀ t0 r t1, t = t0 ++ pollES c es r :: t1 → uuidOf r ≠ ""
          → t1 = [] ∧ (checkNewClusterUUID env c es h).1
              = some (uuidMismatch "" (uuidOf r))) := by
  obtain ⟨t, ht, hrun⟩ := checkNewClusterUUID_run env c es h
  rw [hU] at hrun
  rcases hrun with ⟨hres, hlen, hall⟩ | ⟨t0a, last, hta, _, hall, hcase⟩
  · refine ⟨by rw [hres]; simp, t, ht, Or.inr (Or.inr ⟨hres, hlen, hall⟩), ?_⟩
    intro t0 r t1 hsplit hr
    exact absurd (hall _ (by rw [hsplit]; simp)) (pollES_not_absent c es r hr)
  · have hsplitLast : ∀ t0 r t1, t = t0 ++ pollES c es r :: t1 → uuidOf r ≠ ""
        → t1 = [] ∧ pollES c es r = last := by
      intro t0 r t1 hsplit hr
      have hnot : pollES c es r ∉ t0a := fun hm => pollES_not_absent c es r hr (hall _ hm)
      obtain ⟨h1, h2, _⟩ := split_at_last t0a last (pollES c es r) t0 t1
        (by rw [← hta, hsplit]) hnot
      exact ⟨h1, h2⟩
    rcases hcase with ⟨e, hl, hres⟩ | ⟨r1, _, hr1, hr2, _⟩ | ⟨r1, hl, hr1, _, hres⟩
    · refine ⟨by rw [hres]; simp, t, ht, Or.inl ⟨e, by rw [hta, hl]; simp, hres⟩, ?_⟩
      intro t0 r t1 hsplit hr
      have := (hsplitLast t0 r t1 hsplit hr).2
      rw [hl] at this
      simp [pollES] at this
    · exact absurd hr2 hr1
    · refine ⟨by rw [hres]; simp, t, ht,
        Or.inr (Or.inl ⟨r1, by rw [hta, hl]; simp, hr1, hres⟩), ?_⟩
      intro t0 r t1 hsplit hr
      obtain ⟨h1, h2⟩ := hsplitLast t0 r t1 hsplit hr
      rw [hl] at h2
      rw [pollES_inj c es r r1 h2]
      exact ⟨h1, hres⟩

/-- C10 on a previous resource without annotations and a target that reports
`uuid-123`: the result is an error. -/
theorem C10_no_previous_uuid_never_succeeds_witness :
    uuidOf (mkES "ns" "es1" []) = ""
    ∧ (checkNewClusterUUID (uuidEnv [(ClusterUUIDAnnotationName, "uuid-123")]) .target
        (mkES "ns" "es1" []) []).1 ≠ none :=
  ⟨by decide, (C10_no_previous_uuid_never_succeeds
    (uuidEnv [(ClusterUUIDAnnotationName, "uuid-123")]) .target (mkES "ns" "es1" []) []
    (by decide)).1⟩

/-- The verifier on a target that reports the previous UUID at the first poll. -/
theorem checkNewClusterUUID_same_uuid :
    checkNewClusterUUID (uuidEnv [(ClusterUUIDAnnotationName, "uuid-123")]) .target
        (mkES "ns" "es1" [(ClusterUUIDAnnotationName, "uuid-123")]) []
      = (none, [pollES .target (mkES "ns" "es1" [])
          (mkES "ns" "es1" [(ClusterUUIDAnnotationName, "uuid-123")])]) := by
  decide

/-- The verifier on a target that reports another UUID at the first poll. -/
theorem checkNewClusterUUID_other_uuid :
    (checkNewClusterUUID (uuidEnv [(ClusterUUIDAnnotationName, "uuid-999")]) .target
        (mkES "ns" "es1" [(ClusterUUIDAnnotationName, "uuid-123")]) []).1
      = some (.text "expected UUID uuid-123, got uuid-999") := by
  decide

/-- The verifier on a target that never reports a UUID. -/
theorem checkNewClusterUUID_never_reported :
    (checkNewClusterUUID (uuidEnv []) .target
        (mkES "ns" "es1" [(ClusterUUIDAnnotationName, "uuid-123")]) []).1
      = some (.text "got no UUID after 30 retries") := by
  decide

/-! ## The convergence waiter -/

theorem roundStopped_cons (c : Client) (stop : Pod → Event → Prop) (p : Pod) (pods : List Pod)
    (ev : Event) (round : Trace) (hev : FetchedRunning c p ev)
    (hr : RoundStopped c stop pods round) : RoundStopped c stop (p :: pods) (ev :: round) := by
  obtain ⟨ps, q, rest, r0, ev1, hp, hround, hall, hstop⟩ := hr
  exact ⟨p :: ps, q, rest, ev :: r0, ev1, by simp [hp], by simp [hround],
    List.Forall₂.cons hev hall, hstop⟩

/-- Every round of `allPodsRunning`: all pods fetched Running and `true`, or
stopped at a pod not yet running and `false`, or stopped at a failed Get whose
error is returned. -/
theorem allPodsRunning_run (env : Env) (c : Client) (pods : List Pod) :
    ∀ h : Trace, ∃ round, (allPodsRunning env c pods h).2 = h ++ round
      ∧ (((allPodsRunning env c pods h).1 = (true, none) ∧ RoundOk c pods round)
        ∨ ((allPodsRunning env c pods h).1 = (false, none)
            ∧ RoundStopped c (NotYet c) pods round)
        ∨ ∃ e, (allPodsRunning env c pods h).1 = (false, some e)
            ∧ RoundStopped c (FailedGet c e) pods round) := by
  induction pods with
  | nil =>
    intro h
    exact ⟨[], by simp [allPodsRunning], Or.inl ⟨by simp [allPodsRunning], List.Forall₂.nil⟩⟩
  | cons p rest ih =>
    intro h
    cases hg : env.getPod h c ⟨p.ObjectMeta.Namespace, p.ObjectMeta.Name⟩ with
    | error e =>
      by_cases hnf : IsNotFound (some e) = true
      · refine ⟨[⟨c, .Get .Pod (podKey p), .err e⟩], ?_, Or.inr (Or.inl ⟨?_, ?_⟩)⟩
        · simp [allPodsRunning, GetPod, hg, hnf, podKey]
        · simp [allPodsRunning, GetPod, hg, hnf]
        · exact ⟨[], p, rest, [], _, rfl, rfl, List.Forall₂.nil, Or.inl ⟨e, rfl, hnf⟩⟩
      · refine ⟨[⟨c, .Get .Pod (podKey p), .err e⟩], ?_, Or.inr (Or.inr ⟨e, ?_, ?_⟩)⟩
        · simp [allPodsRunning, GetPod, hg, hnf, podKey]
        · simp [allPodsRunning, GetPod, hg, hnf]
        · exact ⟨[], p, rest, [], _, rfl, rfl, List.Forall₂.nil, rfl, by simpa using hnf⟩
    | ok r =>
      by_cases hph : r.Status.Phase = PodRunning
      · have hstep : allPodsRunning env c (p :: rest) h
            = allPodsRunning env c rest (h ++ [⟨c, .Get .Pod (podKey p), .object (.pod r)⟩]) := by
          simp [allPodsRunning, GetPod, hg, hph, podKey]
        have hev : FetchedRunning c p ⟨c, .Get .Pod (podKey p), .object (.pod r)⟩ :=
          ⟨r, rfl, hph⟩
        obtain ⟨round, hround, hcase⟩ := ih (h ++ [⟨c, .Get .Pod (podKey p), .object (.pod r)⟩])
        refine ⟨⟨c, .Get .Pod (podKey p), .object (.pod r)⟩ :: round,
          by rw [hstep, hround]; simp, ?_⟩
        rw [hstep]
        rcases hcase with ⟨hres, hok⟩ | ⟨hres, hny⟩ | ⟨e, hres, hf⟩
        · exact Or.inl ⟨hres, List.Forall₂.cons hev hok⟩
        · exact Or.inr (Or.inl ⟨hres, roundStopped_cons c _ p rest _ round hev hny⟩)
        · exact Or.inr (Or.inr ⟨e, hres, roundStopped_cons c _ p rest _ round hev hf⟩)
      · refine ⟨[⟨c, .Get .Pod (podKey p), .object (.pod r)⟩], ?_, Or.inr (Or.inl ⟨?_, ?_⟩)⟩
        · simp [allPodsRunning, GetPod, hg, hph, podKey]
        · simp [allPodsRunning, GetPod, hg, hph]
        · exact ⟨[], p, rest, [], _, rfl, rfl, List.Forall₂.nil, Or.inr ⟨r, rfl, hph⟩⟩

/-- Every run of the waiter loop is a `PodsRun`. -/
theorem checkPodsRunningLoop_run (env : Env) (c : Client) (pods : List Pod) :
    ∀ (left : Nat) (h : Trace), ∃ rounds : List Trace,
      (checkPodsRunningLoop env c pods left h).2 = h ++ rounds.flatten
      ∧ PodsRun c pods left (checkPodsRunningLoop env c pods left h).1 rounds := by
  intro left
  induction left with
  | zero =>
    intro h
    exact ⟨[], by simp [checkPodsRunningLoop],
      Or.inl ⟨by simp [checkPodsRunningLoop, podsTimeout], rfl, by simp⟩⟩
  | succ n ih =>
    intro h
    obtain ⟨round, hround, hcase⟩ := allPodsRunning_run env c pods h
    rcases hcase with ⟨hres, hok⟩ | ⟨hres, hny⟩ | ⟨e, hres, hf⟩
    · have hpair : allPodsRunning env c pods h = ((true, none), h ++ round) :=
        Prod.ext hres hround
      refine ⟨[round], by simp [checkPodsRunningLoop, hpair], Or.inr ⟨[], round, rfl, ?_, ?_,
        Or.inl ⟨?_, hok⟩⟩⟩
      · simp
      · simp
      · simp [checkPodsRunningLoop, hpair]
    · have hpair : allPodsRunning env c pods h = ((false, none), h ++ round) :=
        Prod.ext hres hround
      have hstep : checkPodsRunningLoop env c pods (n + 1) h
          = checkPodsRunningLoop env c pods n (h ++ round) := by
        simp [checkPodsRunningLoop, hpair]
      obtain ⟨rounds, hrounds, hrun⟩ := ih (h ++ round)
      refine ⟨round :: rounds, by rw [hstep, hrounds]; simp, ?_⟩
      rw [hstep]
      have hcons : ∀ rs : List Trace, (∀ r ∈ rs, RoundStopped c (NotYet c) pods r)
          → ∀ r ∈ round :: rs, RoundStopped c (NotYet c) pods r := by
        intro rs hall r hr
        rcases List.mem_cons.1 hr with rfl | hm
        · exact hny
        · exact hall r hm
      rcases hrun with ⟨hres1, hlen, hall⟩ | ⟨rs, last, hrs, hlt, hall, hlast⟩
      · exact Or.inl ⟨hres1, by simp [hlen], hcons rounds hall⟩
      · exact Or.inr ⟨round :: rs, last, by simp [hrs], by simpa using hlt, hcons rs hall,
          hlast⟩
    · have hpair : allPodsRunning env c pods h = ((false, some e), h ++ round) :=
        Prod.ext hres hround
      refine ⟨[round], by simp [checkPodsRunningLoop, hpair], Or.inr ⟨[], round, rfl, ?_, ?_,
        Or.inr ⟨e, ?_, hf⟩⟩⟩
      · simp
      · simp
      · simp [checkPodsRunningLoop, hpair]

theorem fetchedRunning_mem (c : Client) (ps : List Pod) (r0 : Trace)
    (hall : List.Forall₂ (FetchedRunning c) ps r0) :
    ∀ ev ∈ r0, ∃ r, ev.resp = .object (.pod r) ∧ r.Status.Phase = PodRunning := by
  induction hall with
  | nil => intro ev hev; cases hev
  | cons hhead _ ih =>
    intro ev hev
    rcases List.mem_cons.1 hev with rfl | hm
    · obtain ⟨r, rfl, hr⟩ := hhead
      exact ⟨r, rfl, hr⟩
    · exact ih ev hm

theorem last_eq_of_stopped {c : Client} {stop : Pod → Event → Prop} {pods : List Pod}
    {round : Trace} (hs : RoundStopped c stop pods round) :
    ∃ p r0 ev, p ∈ pods ∧ round = r0 ++ [ev] ∧ stop p ev := by
  obtain ⟨ps, p, rest, r0, ev, hp, hround, _, hstop⟩ := hs
  exact ⟨p, r0, ev, by rw [hp]; simp, hround, hstop⟩

/-- A round that found every pod running did not stop at a pod not yet running. -/
theorem roundOk_not_notYet (c : Client) (pods : List Pod) (round : Trace)
    (hok : RoundOk c pods round) : ¬ RoundStopped c (NotYet c) pods round := by
  intro hs
  obtain ⟨p, r0, ev, _, hround, hstop⟩ := last_eq_of_stopped hs
  obtain ⟨r, hresp, hr⟩ := fetchedRunning_mem c pods round hok ev (by rw [hround]; simp)
  rcases hstop with ⟨e, rfl, _⟩ | ⟨r1, rfl, hr1⟩
  · cases hresp
  · simp only [Response.object.injEq, Object.pod.injEq] at hresp
    exact hr1 (hresp ▸ hr)

/-- A round that found every pod running did not stop at a failed Get. -/
theorem roundOk_not_failed (c : Client) (pods : List Pod) (round : Trace) (e : Error)
    (hok : RoundOk c pods round) : ¬ RoundStopped c (FailedGet c e) pods round := by
  intro hs
  obtain ⟨p, r0, ev, _, hround, hstop⟩ := last_eq_of_stopped hs
  obtain ⟨r, hresp, _⟩ := fetchedRunning_mem c pods round hok ev (by rw [hround]; simp)
  rw [hstop.1] at hresp
  cases hresp

/-- A round that stopped at a failed Get did not stop at a pod not yet
running, and the error it stopped at is determined by the round. -/
theorem failed_round (c : Client) (pods : List Pod) (round : Trace) (e : Error)
    (hf : RoundStopped c (FailedGet c e) pods round) :
    ¬ RoundStopped c (NotYet c) pods round
    ∧ ∀ e1, RoundStopped c (FailedGet c e1) pods round → e1 = e := by
  obtain ⟨p, r0, ev, _, hround, hev, hnf⟩ := last_eq_of_stopped hf
  constructor
  · intro hs
    obtain ⟨p1, r1, ev1, _, hround1, hstop⟩ := last_eq_of_stopped hs
    have hl := (List.cons.inj (List.append_inj' (hround.symm.trans hround1) rfl).2).1
    rw [hev] at hl
    rcases hstop with ⟨e1, rfl, hnf1⟩ | ⟨r2, rfl, _⟩
    · simp only [Event.mk.injEq, Response.err.injEq] at hl
      rw [hl.2.2] at hnf
      rw [hnf] at hnf1
      cases hnf1
    · simp at hl
  · intro e1 hf1
    obtain ⟨p1, r1, ev1, _, hround1, hev1, _⟩ := last_eq_of_stopped hf1
    have hl := (List.cons.inj (List.append_inj' (hround.symm.trans hround1) rfl).2).1
    rw [hev, hev1] at hl
    simp only [Event.mk.injEq, Response.err.injEq] at hl
    exact hl.2.2.symm

/-- When every Get of a pod answers NotFound the waiter runs out of retries. -/
theorem checkPodsRunningLoop_all_notFound (env : Env) (c : Client) (p : Pod) (pods : List Pod)
    (hnf : ∀ h1 key, ∃ e, env.getPod h1 c key = .error e ∧ IsNotFound (some e) = true) :
    ∀ (left : Nat) (h : Trace),
      (checkPodsRunningLoop env c (p :: pods) left h).1 = some podsTimeout := by
  intro left
  induction left with
  | zero => intro h; simp [checkPodsRunningLoop, podsTimeout]
  | succ n ih =>
    intro h
    obtain ⟨e, hg, he⟩ := hnf h ⟨p.ObjectMeta.Namespace, p.ObjectMeta.Name⟩
    have hround : allPodsRunning env c (p :: pods) h
        = ((false, none), h ++ [⟨c, .Get .Pod (podKey p), .err e⟩]) := by
      simp [allPodsRunning, GetPod, hg, he, podKey]
    simp only [checkPodsRunningLoop, hround]
    exact ih _

/-- C6: on the empty roster `checkPodsRunning` returns success without any
call.  On a roster of at least one pod its calls form at most 30 poll rounds;
every round before the last stopped at a rostered pod that was NotFound or not
Running; it returns success only if one round, the last, fetched every
rostered pod by namespace and name, on the given client, with phase Running;
a round stopped at a pod not yet running is followed by another round while
fewer than 30 were made; a round stopped at any other Get error is the last
round and that error is returned; and after 30 rounds stopped at a pod not
yet running the result is `not all Pods are running`, which is what a target
that answers NotFound throughout leads to. -/
theorem C6_checkPodsRunning_outcomes (env : Env) (c : Client) (pods : List Pod) (h : Trace) :
    (pods = [] → checkPodsRunning env c pods h = (none, h))
    ∧ (pods ≠ [] → ∃ rounds : List Trace,
        (checkPodsRunning env c pods h).2 = h ++ rounds.flatten
        ∧ rounds.length ≤ 30
        ∧ PodsRun c pods 30 (checkPodsRunning env c pods h).1 rounds
        ∧ ((checkPodsRunning env c pods h).1 = none
            → ∃ rs last, rounds = rs ++ [last] ∧ RoundOk c pods last)
        ∧ (∀ rs r rs1, rounds = rs ++ r :: rs1 → RoundStopped c (NotYet c) pods r
            → rs.length + 1 < 30 → rs1 ≠ [])
        ∧ (∀ rs r rs1 e, rounds = rs ++ r :: rs1 → RoundStopped c (FailedGet c e) pods r
            → rs1 = [] ∧ (checkPodsRunning env c pods h).1 = some e)
        ∧ (rounds.length = 30 → (∀ r ∈ rounds, RoundStopped c (NotYet c) pods r)
            → (checkPodsRunning env c pods h).1 = some podsTimeout)
        ∧ ((∀ h1 key, ∃ e, env.getPod h1 c key = .error e ∧ IsNotFound (some e) = true)
            → (checkPodsRunning env c pods h).1 = some podsTimeout)) := by
  constructor
  · intro hp
    simp [checkPodsRunning, hp]
  · intro hp
    have hdef : checkPodsRunning env c pods h = checkPodsRunningLoop env c pods 30 h := by
      cases pods with
      | nil => exact absurd rfl hp
      | cons p rest => simp [checkPodsRunning]
    rw [hdef]
    obtain ⟨rounds, hrounds, hrun⟩ := checkPodsRunningLoop_run env c pods 30 h
    refine ⟨rounds, hrounds, ?_, hrun, ?_, ?_, ?_, ?_, ?_⟩
    · rcases hrun with ⟨_, hlen, _⟩ | ⟨rs, last, rfl, hlt, _, _⟩
      · omega
      · simp; omega
    · intro hnone
      rcases hrun with ⟨hres, _, _⟩ | ⟨rs, last, hrs, _, _, hlast⟩
      · rw [hnone] at hres; cases hres
      · rcases hlast with ⟨_, hok⟩ | ⟨e, hres, _⟩
        · exact ⟨rs, last, hrs, hok⟩
        · rw [hnone] at hres; cases hres
    · intro rs r rs1 hsplit hny hlen
      rcases hrun with ⟨_, hl, _⟩ | ⟨rs0, last, hrs, _, _, hlast⟩
      · intro h1
        rw [hsplit, h1] at hl
        simp at hl
        omega
      · intro h1
        rw [h1] at hsplit
        have hl : last = r :=
          (List.cons.inj (List.append_inj' (hrs.symm.trans hsplit) rfl).2).1
        rcases hlast with ⟨_, hok⟩ | ⟨e, _, hf⟩
        · exact roundOk_not_notYet c pods last hok (hl ▸ hny)
        · exact (failed_round c pods last e hf).1 (hl ▸ hny)
    · intro rs r rs1 e hsplit hf
      rcases hrun with ⟨_, _, hall⟩ | ⟨rs0, last, hrs, _, hall, hlast⟩
      · exact absurd (hall r (by rw [hsplit]; simp)) (failed_round c pods r e hf).1
      · have hnot : r ∉ rs0 := fun hm => (failed_round c pods r e hf).1 (hall r hm)
        obtain ⟨h1, h2, _⟩ := split_at_last rs0 last r rs rs1 (by rw [← hrs, hsplit]) hnot
        refine ⟨h1, ?_⟩
        rcases hlast with ⟨_, hok⟩ | ⟨e1, hres, hf1⟩
        · exact absurd (h2 ▸ hf) (roundOk_not_failed c pods last e hok)
        · rw [(failed_round c pods r e hf).2 e1 (h2 ▸ hf1)] at hres
          exact hres
    · intro _ hall
      rcases hrun with ⟨hres, _, _⟩ | ⟨rs0, last, hrs, _, _, hlast⟩
      · exact hres
      · have hny := hall last (by rw [hrs]; simp)
        rcases hlast with ⟨_, hok⟩ | ⟨e, _, hf⟩
        · exact absurd hny (roundOk_not_notYet c pods last hok)
        · exact absurd hny (failed_round c pods last e hf).1
    · intro hnf
      cases pods with
      | nil => exact absurd rfl hp
      | cons p rest => exact checkPodsRunningLoop_all_notFound env c p rest hnf 30 h

/-! ## The two deletion steps -/

theorem deleteRun_cons (c : Client) (opts : DeleteOptions) (o : Object) (objs : List Object)
    (ev : Event) (res : Option Error) (t : Trace) (hev : ToleratedDelete c opts o ev)
    (hrun : DeleteRun c opts objs res t) : DeleteRun c opts (o :: objs) res (ev :: t) := by
  rcases hrun with ⟨hres, hall⟩ | ⟨os, o1, rest, t0, e, hobjs, ht, hall, hnf, hres⟩
  · exact Or.inl ⟨hres, List.Forall₂.cons hev hall⟩
  · exact Or.inr ⟨o :: os, o1, rest, ev :: t0, e, by simp [hobjs], by simp [ht],
      List.Forall₂.cons hev hall, hnf, hres⟩

/-- One iteration of a deletion loop, by the answer to its Delete. -/
theorem delete_step_cases (env : Env) (c : Client) (o : Object) (opts : DeleteOptions)
    (h : Trace) :
    (∃ ev, ToleratedDelete c opts o ev ∧ (Delete env c o opts h).2 = h ++ [ev]
        ∧ ¬ ((Delete env c o opts h).1 ≠ none ∧ ¬ IsNotFound (Delete env c o opts h).1 = true))
    ∨ ∃ e, IsNotFound (some e) = false ∧ (Delete env c o opts h).1 = some e
        ∧ (Delete env c o opts h).2 = h ++ [⟨c, .Delete o opts, .err e⟩] := by
  cases hd : env.delete h c o opts with
  | none =>
    left
    exact ⟨⟨c, .Delete o opts, .done⟩, ⟨rfl, rfl, Or.inl rfl⟩,
      by simp [Delete, hd, respOf], by simp [Delete, hd]⟩
  | some e =>
    by_cases hnf : IsNotFound (some e) = true
    · left
      exact ⟨⟨c, .Delete o opts, .err e⟩, ⟨rfl, rfl, Or.inr ⟨e, rfl, hnf⟩⟩,
        by simp [Delete, hd, respOf], by simp [Delete, hd, hnf]⟩
    · right
      exact ⟨e, by simpa using hnf, by simp [Delete, hd], by simp [Delete, hd, respOf]⟩

/-- Every run of the pod deletion loop is a `DeleteRun` with grace period 0. -/
theorem deletePods_run (env : Env) (c : Client) (pods : List Pod) :
    ∀ h : Trace, ∃ t, (deletePods env c pods h).2 = h ++ t
      ∧ DeleteRun c ⟨some 0⟩ (pods.map .pod) (deletePods env c pods h).1 t := by
  induction pods with
  | nil =>
    intro h
    exact ⟨[], by simp [deletePods], Or.inl ⟨by simp [deletePods], List.Forall₂.nil⟩⟩
  | cons p rest ih =>
    intro h
    rcases delete_step_cases env c (.pod p) ⟨some 0⟩ h with
      ⟨ev, hev, htr, hcond⟩ | ⟨e, hnf, hres, htr⟩
    · have hstep : deletePods env c (p :: rest) h = deletePods env c rest (h ++ [ev]) := by
        simp only [deletePods]
        rw [if_neg hcond, htr]
      obtain ⟨t, ht, hrun⟩ := ih (h ++ [ev])
      refine ⟨ev :: t, by rw [hstep, ht]; simp, ?_⟩
      rw [hstep]
      exact deleteRun_cons c _ _ _ ev _ t hev hrun
    · have hstep : deletePods env c (p :: rest) h
          = (some e, h ++ [⟨c, .Delete (.pod p) ⟨some 0⟩, .err e⟩]) := by
        simp only [deletePods]
        rw [if_pos (by rw [hres, hnf]; simp), hres, htr]
      refine ⟨[⟨c, .Delete (.pod p) ⟨some 0⟩, .err e⟩], by rw [hstep], ?_⟩
      rw [hstep]
      exact Or.inr ⟨[], .pod p, rest.map .pod, [], e, rfl, rfl, List.Forall₂.nil, hnf, rfl⟩

/-- Every run of `deletePVs` is a `DeleteRun` without delete options. -/
theorem deletePVs_run (env : Env) (c : Client) (pvs : List PersistentVolume) :
    ∀ h : Trace, ∃ t, (deletePVs env c pvs h).2 = h ++ t
      ∧ DeleteRun c ⟨none⟩ (pvs.map .pv) (deletePVs env c pvs h).1 t := by
  induction pvs with
  | nil =>
    intro h
    exact ⟨[], by simp [deletePVs], Or.inl ⟨by simp [deletePVs], List.Forall₂.nil⟩⟩
  | cons p rest ih =>
    intro h
    rcases delete_step_cases env c (.pv p) ⟨none⟩ h with
      ⟨ev, hev, htr, hcond⟩ | ⟨e, hnf, hres, htr⟩
    · have hstep : deletePVs env c (p :: rest) h = deletePVs env c rest (h ++ [ev]) := by
        simp only [deletePVs]
        rw [if_neg hcond, htr]
      obtain ⟨t, ht, hrun⟩ := ih (h ++ [ev])
      refine ⟨ev :: t, by rw [hstep, ht]; simp, ?_⟩
      rw [hstep]
      exact deleteRun_cons c _ _ _ ev _ t hev hrun
    · have hstep : deletePVs env c (p :: rest) h
          = (some e, h ++ [⟨c, .Delete (.pv p) ⟨none⟩, .err e⟩]) := by
        simp only [deletePVs]
        rw [if_pos (by rw [hres, hnf]; simp), hres, htr]
      refine ⟨[⟨c, .Delete (.pv p) ⟨none⟩, .err e⟩], by rw [hstep], ?_⟩
      rw [hstep]
      exact Or.inr ⟨[], .pv p, rest.map .pv, [], e, rfl, rfl, List.Forall₂.nil, hnf, rfl⟩

/-- When every Delete of a pod succeeds or answers NotFound the pod deletion
loop returns no error. -/
theorem deletePods_tolerant (env : Env) (c : Client)
    (htol : ∀ h1 p, IsNotFound (env.delete h1 c (.pod p) ⟨some 0⟩) = true
      ∨ env.delete h1 c (.pod p) ⟨some 0⟩ = none) (pods : List Pod) :
    ∀ h : Trace, (deletePods env c pods h).1 = none := by
  induction pods with
  | nil => intro h; simp [deletePods]
  | cons p rest ih =>
    intro h
    have hcond : ¬ ((Delete env c (.pod p) ⟨some 0⟩ h).1 ≠ none
        ∧ ¬ IsNotFound (Delete env c (.pod p) ⟨some 0⟩ h).1 = true) := by
      rcases htol h p with h1 | h1 <;> simp [Delete, h1]
    simp only [deletePods]
    rw [if_neg hcond]
    exact ih _

/-- When every Delete of a volume succeeds or answers NotFound `deletePVs`
returns no error. -/
theorem deletePVs_tolerant (env : Env) (c : Client)
    (htol : ∀ h1 p, IsNotFound (env.delete h1 c (.pv p) ⟨none⟩) = true
      ∨ env.delete h1 c (.pv p) ⟨none⟩ = none) (pvs : List PersistentVolume) :
    ∀ h : Trace, (deletePVs env c pvs h).1 = none := by
  induction pvs with
  | nil => intro h; simp [deletePVs]
  | cons p rest ih =>
    intro h
    have hcond : ¬ ((Delete env c (.pv p) ⟨none⟩ h).1 ≠ none
        ∧ ¬ IsNotFound (Delete env c (.pv p) ⟨none⟩ h).1 = true) := by
      rcases htol h p with h1 | h1 <;> simp [Delete, h1]
    simp only [deletePVs]
    rw [if_neg hcond]
    exact ih _

/-- Every run of `deleteElasticsearch`: the Delete of the resource failed and
its error is the result; or it succeeded and the List of pods failed; or both
succeeded and the listed pods were deleted by a `DeleteRun` with grace
period 0. -/
theorem deleteElasticsearch_run (env : Env) (c : Client) (es : Elasticsearch) (h : Trace) :
    (∃ e, env.delete h c (.es es) ⟨none⟩ = some e
      ∧ deleteElasticsearch env c es h = (some e, h ++ [⟨c, .Delete (.es es) ⟨none⟩, .err e⟩]))
    ∨ (∃ e, env.delete h c (.es es) ⟨none⟩ = none
      ∧ env.listPods (h ++ [⟨c, .Delete (.es es) ⟨none⟩, .done⟩]) c es.ObjectMeta.Namespace
          (clusterPods es.ObjectMeta.Name) = .error e
      ∧ deleteElasticsearch env c es h = (some e, h ++ [⟨c, .Delete (.es es) ⟨none⟩, .done⟩,
          ⟨c, .List .Pod es.ObjectMeta.Namespace (clusterPods es.ObjectMeta.Name), .err e⟩]))
    ∨ ∃ pods t, env.delete h c (.es es) ⟨none⟩ = none
      ∧ env.listPods (h ++ [⟨c, .Delete (.es es) ⟨none⟩, .done⟩]) c es.ObjectMeta.Namespace
          (clusterPods es.ObjectMeta.Name) = .ok pods
      ∧ (deleteElasticsearch env c es h).2 = h ++ (⟨c, .Delete (.es es) ⟨none⟩, .done⟩
          :: ⟨c, .List .Pod es.ObjectMeta.Namespace (clusterPods es.ObjectMeta.Name), .pods pods⟩
          :: t)
      ∧ DeleteRun c ⟨some 0⟩ (pods.map .pod) (deleteElasticsearch env c es h).1 t
      ∧ (deleteElasticsearch env c es h).1
          = (deletePods env c pods (h ++ [⟨c, .Delete (.es es) ⟨none⟩, .done⟩,
              ⟨c, .List .Pod es.ObjectMeta.Namespace (clusterPods es.ObjectMeta.Name),
                .pods pods⟩])).1 := by
  cases hd : env.delete h c (.es es) ⟨none⟩ with
  | some e =>
    left
    exact ⟨e, rfl, by simp [deleteElasticsearch, Delete, hd, respOf]⟩
  | none =>
    right
    cases hl : env.listPods (h ++ [⟨c, .Delete (.es es) ⟨none⟩, .done⟩]) c
        es.ObjectMeta.Namespace [(clusterNameLabel, es.ObjectMeta.Name)] with
    | error e =>
      left
      exact ⟨e, rfl, hl,
        by simp [deleteElasticsearch, Delete, hd, respOf, ListPods, hl, clusterPods]⟩
    | ok pods =>
      right
      have hstep : deleteElasticsearch env c es h
          = deletePods env c pods (h ++ [⟨c, .Delete (.es es) ⟨none⟩, .done⟩,
              ⟨c, .List .Pod es.ObjectMeta.Namespace (clusterPods es.ObjectMeta.Name),
                .pods pods⟩]) := by
        simp [deleteElasticsearch, Delete, hd, respOf, ListPods, hl, clusterPods]
      obtain ⟨t, ht, hrun⟩ := deletePods_run env c pods (h ++ [⟨c, .Delete (.es es) ⟨none⟩, .done⟩,
              ⟨c, .List .Pod es.ObjectMeta.Namespace (clusterPods es.ObjectMeta.Name),
                .pods pods⟩])
      refine ⟨pods, t, rfl, hl, ?_, ?_, ?_⟩
      · rw [hstep, ht]; simp
      · rw [hstep]; exact hrun
      · rw [hstep]

/-- C8: `deletePVs` issues, in order, one Delete per volume and passes over
every answer that is a success or a NotFound; it returns nil when all answers
are such, and the first other error, issuing nothing after it; when every
Delete answers NotFound it returns nil.  `deleteElasticsearch` returns the
error of the Delete of the resource, NotFound included, without any further
call; otherwise it Lists the pods after that Delete and deletes the listed
pods, each with grace period 0, passing over NotFound in the same way. -/
theorem C8_deletion_tolerates_notFound (env : Env) (c : Client) (pvs : List PersistentVolume)
    (es : Elasticsearch) (h : Trace) :
    (∃ t, (deletePVs env c pvs h).2 = h ++ t
      ∧ DeleteRun c ⟨none⟩ (pvs.map .pv) (deletePVs env c pvs h).1 t)
    ∧ ((∀ h1 p, IsNotFound (env.delete h1 c (.pv p) ⟨none⟩) = true
          ∨ env.delete h1 c (.pv p) ⟨none⟩ = none)
        → (deletePVs env c pvs h).1 = none)
    ∧ (∀ e, env.delete h c (.es es) ⟨none⟩ = some e
        → deleteElasticsearch env c es h
            = (some e, h ++ [⟨c, .Delete (.es es) ⟨none⟩, .err e⟩]))
    ∧ (env.delete h c (.es es) ⟨none⟩ = none
        → (∀ e, env.listPods (h ++ [⟨c, .Delete (.es es) ⟨none⟩, .done⟩]) c
              es.ObjectMeta.Namespace (clusterPods es.ObjectMeta.Name) = .error e
            → deleteElasticsearch env c es h
              = (some e, h ++ [⟨c, .Delete (.es es) ⟨none⟩, .done⟩,
                  ⟨c, .List .Pod es.ObjectMeta.Namespace (clusterPods es.ObjectMeta.Name),
                    .err e⟩]))
          ∧ (∀ pods, env.listPods (h ++ [⟨c, .Delete (.es es) ⟨none⟩, .done⟩]) c
              es.ObjectMeta.Namespace (clusterPods es.ObjectMeta.Name) = .ok pods
            → (∃ t, (deleteElasticsearch env c es h).2
                  = h ++ (⟨c, .Delete (.es es) ⟨none⟩, .done⟩
                    :: ⟨c, .List .Pod es.ObjectMeta.Namespace (clusterPods es.ObjectMeta.Name),
                        .pods pods⟩ :: t)
                ∧ DeleteRun c ⟨some 0⟩ (pods.map .pod) (deleteElasticsearch env c es h).1 t)
              ∧ ((∀ h1 p, IsNotFound (env.delete h1 c (.pod p) ⟨some 0⟩) = true
                    ∨ env.delete h1 c (.pod p) ⟨some 0⟩ = none)
                  → (deleteElasticsearch env c es h).1 = none))) := by
  refine ⟨deletePVs_run env c pvs h, fun htol => deletePVs_tolerant env c htol pvs h, ?_, ?_⟩
  · intro e he
    rcases deleteElasticsearch_run env c es h with ⟨e1, hd, hrun⟩ | ⟨e1, hd, _⟩
      | ⟨pods, t, hd, _⟩
    · rw [he] at hd
      cases hd
      exact hrun
    · rw [he] at hd; cases hd
    · rw [he] at hd; cases hd
  · intro hnone
    rcases deleteElasticsearch_run env c es h with ⟨e1, hd, _⟩ | ⟨e1, _, hl, hrun⟩
      | ⟨pods, t, _, hl, htr, hrun, hres⟩
    · rw [hnone] at hd; cases hd
    · constructor
      · intro e he
        rw [hl] at he
        cases he
        exact hrun
      · intro pods hp
        rw [hl] at hp
        cases hp
    · constructor
      · intro e he
        rw [hl] at he
        cases he
      · intro pods1 hp
        rw [hl] at hp
        cases hp
        exact ⟨⟨t, htr, hrun⟩, fun htol => by rw [hres]; exact deletePods_tolerant env c htol _ _⟩

/-! ## The recreator -/

theorem recreatePVsRun_cons (c : Client) (pv : PersistentVolume) (pvs : List PersistentVolume)
    (ev : Event) (res : Option Error) (t : Trace) (hev : CreatedPV c pv ev)
    (hrun : RecreatePVsRun c pvs res t) : RecreatePVsRun c (pv :: pvs) res (ev :: t) := by
  rcases hrun with ⟨hres, hall⟩ | ⟨ps, q, rest, t0, hpvs, hall, hcase⟩
  · exact Or.inl ⟨hres, List.Forall₂.cons hev hall⟩
  · refine Or.inr ⟨pv :: ps, q, rest, ev :: t0, by simp [hpvs], List.Forall₂.cons hev hall, ?_⟩
    rcases hcase with ⟨hq, ht, hres⟩ | ⟨e, hq, ht, hres⟩
    · exact Or.inl ⟨hq, by simp [ht], hres⟩
    · exact Or.inr ⟨e, hq, by simp [ht], hres⟩

/-- Every run of the volume loop of `recreateResources` is a `RecreatePVsRun`. -/
theorem recreatePVs_run (env : Env) (c : Client) (pvs : List PersistentVolume) :
    ∀ h : Trace, ∃ t, (recreatePVs env c pvs h).2 = h ++ t
      ∧ RecreatePVsRun c pvs (recreatePVs env c pvs h).1 t := by
  induction pvs with
  | nil =>
    intro h
    exact ⟨[], by simp [recreatePVs], Or.inl ⟨by simp [recreatePVs], List.Forall₂.nil⟩⟩
  | cons pv rest ih =>
    intro h
    cases hcr : pv.Spec.ClaimRef with
    | none =>
      have hstep : recreatePVs env c (pv :: rest) h = (some (claimRefNil pv), h) := by
        simp [recreatePVs, PersistentVolume.DeepCopy, hcr, claimRefNil]
      refine ⟨[], by rw [hstep]; simp, ?_⟩
      rw [hstep]
      exact Or.inr ⟨[], pv, rest, [], rfl, List.Forall₂.nil, Or.inl ⟨hcr, rfl, rfl⟩⟩
    | some ref =>
      have hne : pv.Spec.ClaimRef ≠ none := by rw [hcr]; simp
      have hobj : ({ pv with
          ObjectMeta := { pv.ObjectMeta with
            CreationTimestamp := Time.zero, ResourceVersion := "", UID := "" },
          Spec := { pv.Spec with
            ClaimRef := some { ref with UID := "", ResourceVersion := "" } },
          Status := PersistentVolumeStatus.zero } : PersistentVolume) = recreatedPV pv := by
        simp [recreatedPV, hcr, clearedRef, Time.zero, PersistentVolumeStatus.zero]
      cases hc : env.create h c (.pv (recreatedPV pv)) with
      | some e =>
        have hstep : recreatePVs env c (pv :: rest) h
            = (some e, h ++ [⟨c, .Create (.pv (recreatedPV pv)), .err e⟩]) := by
          simp only [recreatePVs, PersistentVolume.DeepCopy, hcr, Create, hobj]
          simp [hc, respOf]
        refine ⟨[⟨c, .Create (.pv (recreatedPV pv)), .err e⟩], by rw [hstep], ?_⟩
        rw [hstep]
        exact Or.inr ⟨[], pv, rest, [], rfl, List.Forall₂.nil, Or.inr ⟨e, hne, rfl, rfl⟩⟩
      | none =>
        have hstep : recreatePVs env c (pv :: rest) h
            = recreatePVs env c rest (h ++ [⟨c, .Create (.pv (recreatedPV pv)), .done⟩]) := by
          simp only [recreatePVs, PersistentVolume.DeepCopy, hcr, Create, hobj]
          simp [hc, respOf]
        obtain ⟨t, ht, hrun⟩ := ih (h ++ [⟨c, .Create (.pv (recreatedPV pv)), .done⟩])
        refine ⟨⟨c, .Create (.pv (recreatedPV pv)), .done⟩ :: t, by rw [hstep, ht]; simp, ?_⟩
        rw [hstep]
        exact recreatePVsRun_cons c pv rest _ _ t ⟨hne, rfl⟩ hrun

theorem createdPV_events (c : Client) (ps : List PersistentVolume) (t0 : Trace)
    (hall : List.Forall₂ (CreatedPV c) ps t0) :
    (∀ ev ∈ t0, ∃ pv ∈ ps, ev = ⟨c, .Create (.pv (recreatedPV pv)), .done⟩)
    ∧ (∀ pv ∈ ps, pv.Spec.ClaimRef ≠ none) ∧ t0.length = ps.length := by
  induction hall with
  | nil => simp
  | cons hhead _ ih =>
    refine ⟨?_, ?_, by simp [ih.2.2]⟩
    · intro ev hev
      rcases List.mem_cons.1 hev with rfl | hm
      · exact ⟨_, by simp, hhead.2⟩
      · obtain ⟨pv, hpv, hev1⟩ := ih.1 ev hm
        exact ⟨pv, by simp [hpv], hev1⟩
    · intro pv hpv
      rcases List.mem_cons.1 hpv with rfl | hm
      · exact hhead.1
      · exact ih.2.1 pv hm

/-- Every run of `recreateResources`: the volume loop failed and its error is
the result; or every volume was created and then the Create of the recreated
Elasticsearch resource was issued, whose answer is the result. -/
theorem recreateResources_run (env : Env) (c : Client) (r : resourcesFrom) (h : Trace) :
    ∃ t, (recreateResources env c r h).2 = h ++ t
      ∧ ((∃ e, (recreateResources env c r h).1 = some e
            ∧ RecreatePVsRun c r.pvs (some e) t)
        ∨ ∃ t0, List.Forall₂ (CreatedPV c) r.pvs t0
            ∧ t = t0 ++ [⟨c, .Create (.es (recreatedES r.elasticsearch)),
                respOf (recreateResources env c r h).1⟩]
            ∧ (recreateResources env c r h).1
                = env.create (h ++ t0) c (.es (recreatedES r.elasticsearch))) := by
  obtain ⟨t, ht, hrun⟩ := recreatePVs_run env c r.pvs h
  cases hres : (recreatePVs env c r.pvs h).1 with
  | some e =>
    have hpair : recreatePVs env c r.pvs h = (some e, h ++ t) := Prod.ext hres ht
    have hstep : recreateResources env c r h = (some e, h ++ t) := by
      simp [recreateResources, hpair]
    rw [hres] at hrun
    exact ⟨t, by rw [hstep], Or.inl ⟨e, by rw [hstep], hrun⟩⟩
  | none =>
    have hpair : recreatePVs env c r.pvs h = (none, h ++ t) := Prod.ext hres ht
    have hobj : ({ r.elasticsearch with
        ObjectMeta := { r.elasticsearch.ObjectMeta with
          CreationTimestamp := Time.zero, ResourceVersion := "", UID := "",
          OwnerReferences := [], Annotations := [] },
        Status := ElasticsearchStatus.zero } : Elasticsearch)
        = recreatedES r.elasticsearch := by
      simp [recreatedES, Time.zero, ElasticsearchStatus.zero]
    have hstep : recreateResources env c r h
        = Create env c (.es (recreatedES r.elasticsearch)) (h ++ t) := by
      simp only [recreateResources, hpair, Elasticsearch.DeepCopy, hobj]
    rw [hres] at hrun
    rcases hrun with ⟨_, hall⟩ | ⟨ps, pv, rest, t0, _, _, hcase⟩
    · refine ⟨t ++ [⟨c, .Create (.es (recreatedES r.elasticsearch)),
          respOf (recreateResources env c r h).1⟩], ?_, Or.inr ⟨t, hall, rfl, ?_⟩⟩
      · rw [hstep]; simp [Create]
      · rw [hstep]; simp [Create]
    · rcases hcase with ⟨_, _, hbad⟩ | ⟨e, _, _, hbad⟩ <;> cases hbad

/-- C4: when some snapshot volume has a nil claimRef, `recreateResources`
returns an error and issues no Create of an Elasticsearch resource; when the
Create of a volume fails, it returns that error and issues no Create of an
Elasticsearch resource; and a Create of an Elasticsearch resource, when one
is issued, is the last call, on the given client, of the recreated snapshot
resource, and comes after one successful Create per snapshot volume, in
snapshot order. -/
theorem C4_recreate_volumes_before_elasticsearch (env : Env) (c : Client) (r : resourcesFrom)
    (h : Trace) :
    ∃ t, (recreateResources env c r h).2 = h ++ t
      ∧ ((∃ pv ∈ r.pvs, pv.Spec.ClaimRef = none)
          → (recreateResources env c r h).1 ≠ none
            ∧ ∀ ev ∈ t, ∀ o, ev.op ≠ .Create (.es o))
      ∧ (∀ ev ∈ t, ∀ pv e, ev.op = .Create (.pv pv) → ev.resp = .err e
          → (recreateResources env c r h).1 = some e
            ∧ ∀ ev1 ∈ t, ∀ o, ev1.op ≠ .Create (.es o))
      ∧ (∀ t0 ev t1 o, t = t0 ++ ev :: t1 → ev.op = .Create (.es o)
          → t1 = [] ∧ ev.client = c ∧ o = recreatedES r.elasticsearch
            ∧ List.Forall₂ (CreatedPV c) r.pvs t0) := by
  obtain ⟨t, ht, hrun⟩ := recreateResources_run env c r h
  refine ⟨t, ht, ?_⟩
  have hnoES : ∀ (ps : List PersistentVolume) (t0 : Trace),
      List.Forall₂ (CreatedPV c) ps t0 → ∀ ev ∈ t0, ∀ o, ev.op ≠ .Create (.es o) := by
    intro ps t0 hall ev hev o
    obtain ⟨pv, _, rfl⟩ := (createdPV_events c ps t0 hall).1 ev hev
    simp
  have hdone : ∀ (ps : List PersistentVolume) (t0 : Trace),
      List.Forall₂ (CreatedPV c) ps t0 → ∀ ev ∈ t0, ev.resp = .done := by
    intro ps t0 hall ev hev
    obtain ⟨pv, _, rfl⟩ := (createdPV_events c ps t0 hall).1 ev hev
    rfl
  rcases hrun with ⟨e, hres, hpv⟩ | ⟨t0, hall, htr, hres⟩
  · rcases hpv with ⟨hbad, _⟩ | ⟨ps, pv, rest, t0, hpvs, hall, hcase⟩
    · cases hbad
    · have hno : ∀ ev ∈ t, ∀ o, ev.op ≠ .Create (.es o) := by
        intro ev hev o
        rcases hcase with ⟨_, htr, _⟩ | ⟨e1, _, htr, _⟩
        · rw [htr] at hev
          exact hnoES ps t0 hall ev hev o
        · rw [htr] at hev
          rcases List.mem_append.1 hev with h0 | h1
          · exact hnoES ps t0 hall ev h0 o
          · rw [List.mem_singleton] at h1
            subst h1
            simp
      refine ⟨fun _ => ⟨by rw [hres]; simp, hno⟩, ?_, ?_⟩
      · intro ev hev pv1 e1 hop hresp
        refine ⟨?_, hno⟩
        rcases hcase with ⟨_, htr, _⟩ | ⟨e2, _, htr, he2⟩
        · rw [htr] at hev
          rw [hdone ps t0 hall ev hev] at hresp
          cases hresp
        · rw [htr] at hev
          rcases List.mem_append.1 hev with h0 | h1
          · rw [hdone ps t0 hall ev h0] at hresp
            cases hresp
          · rw [List.mem_singleton] at h1
            subst h1
            simp only [Response.err.injEq] at hresp
            rw [hres, ← hresp]
            exact he2.symm ▸ rfl
      · intro t0a ev t1 o hsplit hop
        exact absurd hop (hno ev (by rw [hsplit]; simp) o)
  · refine ⟨?_, ?_, ?_⟩
    · rintro ⟨pv, hpv, hnil⟩
      exact absurd hnil ((createdPV_events c r.pvs t0 hall).2.1 pv hpv)
    · intro ev hev pv1 e1 hop hresp
      rw [htr] at hev
      rcases List.mem_append.1 hev with h0 | h1
      · rw [hdone r.pvs t0 hall ev h0] at hresp
        cases hresp
      · rw [List.mem_singleton] at h1
        subst h1
        simp at hop
    · intro t0a ev t1 o hsplit hop
      have hnot : ev ∉ t0 := fun hm => hnoES r.pvs t0 hall ev hm o hop
      obtain ⟨h1, h2, h3⟩ := split_at_last t0 _ ev t0a t1 (by rw [← htr, hsplit]) hnot
      subst h2
      simp only [Op.Create.injEq, Object.es.injEq] at hop
      exact ⟨h1, rfl, hop.symm, h3 ▸ hall⟩

/-! ## The collector -/

/-- Every run of the claim loop of `retrieveExistingResources` is a
`RetrievePVsRun`. -/
theorem retrievePVs_run (env : Env) (c : Client) (pvcs : List PersistentVolumeClaim) :
    ∀ (acc : List PersistentVolume) (h : Trace), ∃ t,
      (retrievePVs env c pvcs acc h).2 = h ++ t
      ∧ RetrievePVsRun c pvcs acc (retrievePVs env c pvcs acc h).1 t := by
  induction pvcs with
  | nil =>
    intro acc h
    exact ⟨[], by simp [retrievePVs], Or.inl ⟨[], by simp [retrievePVs], rfl, rfl, by simp⟩⟩
  | cons pvc rest ih =>
    intro acc h
    by_cases hv : pvc.Spec.VolumeName = ""
    · have hstep : retrievePVs env c (pvc :: rest) acc h = (.error (noVolumeName pvc), h) := by
        simp [retrievePVs, hv, noVolumeName]
      refine ⟨[], by rw [hstep]; simp, ?_⟩
      rw [hstep]
      exact Or.inr ⟨[], pvc, rest, [], rfl, rfl, by simp, Or.inl ⟨hv, rfl, rfl⟩⟩
    · cases hg : env.getPersistentVolume h c ⟨pvc.ObjectMeta.Namespace, pvc.Spec.VolumeName⟩ with
      | error e =>
        have hstep : retrievePVs env c (pvc :: rest) acc h
            = (.error e, h ++ [⟨c, .Get .PersistentVolume (pvKey pvc), .err e⟩]) := by
          simp [retrievePVs, hv, GetPersistentVolume, hg, pvKey]
        refine ⟨[⟨c, .Get .PersistentVolume (pvKey pvc), .err e⟩], by rw [hstep], ?_⟩
        rw [hstep]
        exact Or.inr ⟨[], pvc, rest, [], rfl, rfl, by simp, Or.inr ⟨e, hv, rfl, rfl⟩⟩
      | ok pv =>
        have hstep : retrievePVs env c (pvc :: rest) acc h
            = retrievePVs env c rest (acc ++ [pv]) (h ++ [fetchPV c pvc pv]) := by
          simp [retrievePVs, hv, GetPersistentVolume, hg, pvKey, fetchPV]
        obtain ⟨t, ht, hrun⟩ := ih (acc ++ [pv]) (h ++ [fetchPV c pvc pv])
        refine ⟨fetchPV c pvc pv :: t, by rw [hstep, ht]; simp, ?_⟩
        rw [hstep]
        rcases hrun with ⟨pvs, hres, hlen, htr, hall⟩
          | ⟨ps, q, rest1, pvs, hpvcs, hlen, hall, hcase⟩
        · refine Or.inl ⟨pv :: pvs, by rw [hres]; simp, by simp [hlen], by simp [htr], ?_⟩
          intro p hp
          rcases List.mem_cons.1 hp with rfl | hm
          · exact hv
          · exact hall p hm
        · refine Or.inr ⟨pvc :: ps, q, rest1, pv :: pvs, by simp [hpvcs], by simp [hlen], ?_, ?_⟩
          · intro p hp
            rcases List.mem_cons.1 hp with rfl | hm
            · exact hv
            · exact hall p hm
          · rcases hcase with ⟨hq, htr, hres⟩ | ⟨e, hq, htr, hres⟩
            · exact Or.inl ⟨hq, by simp [htr], hres⟩
            · exact Or.inr ⟨e, hq, by simp [htr], hres⟩

/-- Every run of `retrieveExistingResources` is a `RetrieveRun`. -/
theorem retrieveExistingResources_run (env : Env) (m : migrator) (h : Trace) :
    ∃ t, (retrieveExistingResources env m h).2 = h ++ t
      ∧ RetrieveRun m (retrieveExistingResources env m h).1 t := by
  cases hes : env.getElasticsearch h m.clientFrom ⟨m.namespace_, m.name⟩ with
  | error e =>
    have hstep : retrieveExistingResources env m h = (.error e, h ++ [getESCall m (.err e)]) := by
      simp [retrieveExistingResources, GetElasticsearch, hes, getESCall]
    exact ⟨_, by rw [hstep], by rw [hstep]; exact Or.inl ⟨e, rfl, rfl⟩⟩
  | ok es =>
    cases hpods : env.listPods (h ++ [getESCall m (.object (.es es))]) m.clientFrom m.namespace_
        [(clusterNameLabel, m.name)] with
    | error e =>
      have hstep : retrieveExistingResources env m h
          = (.error e, h ++ [getESCall m (.object (.es es)), listPodsCall m (.err e)]) := by
        simp only [getESCall] at hpods
        simp [retrieveExistingResources, GetElasticsearch, hes, getESCall, ListPods, hpods,
          listPodsCall, clusterPods]
      exact ⟨_, by rw [hstep], by rw [hstep]; exact Or.inr (Or.inl ⟨es, e, rfl, rfl⟩)⟩
    | ok pods =>
      cases hpvcs : env.listPVCs (h ++ [getESCall m (.object (.es es)),
          listPodsCall m (.pods pods)]) m.clientFrom m.namespace_
          [(clusterNameLabel, m.name)] with
      | error e =>
        have hstep : retrieveExistingResources env m h
            = (.error e, h ++ [getESCall m (.object (.es es)), listPodsCall m (.pods pods),
                listPVCsCall m (.err e)]) := by
          simp only [getESCall, listPodsCall, clusterPods] at hpods hpvcs
          simp [retrieveExistingResources, GetElasticsearch, hes, getESCall, ListPods, hpods,
            listPodsCall, clusterPods, ListPVCs, hpvcs, listPVCsCall]
        exact ⟨_, by rw [hstep],
          by rw [hstep]; exact Or.inr (Or.inr (Or.inl ⟨es, pods, e, rfl, rfl⟩))⟩
      | ok pvcs =>
        have hunf :
            (match GetElasticsearch env m.clientFrom ⟨m.namespace_, m.name⟩ h with
              | (.error e, h1) => ((.error e, h1) : Except Error resourcesFrom × Trace)
              | (.ok es, h1) =>
                match ListPods env m.clientFrom m.namespace_ [(clusterNameLabel, m.name)] h1 with
                | (.error e, h2) => (.error e, h2)
                | (.ok pods, h2) =>
                  match ListPVCs env m.clientFrom m.namespace_
                      [(clusterNameLabel, m.name)] h2 with
                  | (.error e, h3) => (.error e, h3)
                  | (.ok pvcs, h3) =>
                    if pvcs.length = 0 then (.error (.text "no PVC found"), h3)
                    else
                      match retrievePVs env m.clientFrom pvcs [] h3 with
                      | (.error e, h4) => (.error e, h4)
                      | (.ok pvs, h4) => (.ok ⟨es, pods, pvcs, pvs⟩, h4))
            = (if pvcs.length = 0 then (.error (.text "no PVC found"),
                  h ++ [getESCall m (.object (.es es)), listPodsCall m (.pods pods),
                    listPVCsCall m (.pvcs pvcs)])
                else
                  match retrievePVs env m.clientFrom pvcs []
                      (h ++ [getESCall m (.object (.es es)), listPodsCall m (.pods pods),
                        listPVCsCall m (.pvcs pvcs)]) with
                  | (.error e, h4) => (.error e, h4)
                  | (.ok pvs, h4) => (.ok ⟨es, pods, pvcs, pvs⟩, h4)) := by
          simp only [getESCall, listPodsCall, clusterPods] at hpods hpvcs
          simp [GetElasticsearch, hes, getESCall, ListPods, hpods,
            listPodsCall, clusterPods, ListPVCs, hpvcs, listPVCsCall]
        by_cases hlen : pvcs.length = 0
        · have hnil : pvcs = [] := List.length_eq_zero.1 hlen
          have hstep : retrieveExistingResources env m h
              = (.error noPVCFound, h ++ [getESCall m (.object (.es es)),
                  listPodsCall m (.pods pods), listPVCsCall m (.pvcs [])]) := by
            unfold retrieveExistingResources
            rw [hunf, if_pos hlen, hnil]
            rfl
          exact ⟨_, by rw [hstep],
            by rw [hstep]; exact Or.inr (Or.inr (Or.inr (Or.inl ⟨es, pods, rfl, rfl⟩)))⟩
        · have hne : pvcs ≠ [] := fun hn => hlen (by rw [hn]; rfl)
          obtain ⟨t1, ht1, hrun⟩ := retrievePVs_run env m.clientFrom pvcs []
            (h ++ [getESCall m (.object (.es es)), listPodsCall m (.pods pods),
              listPVCsCall m (.pvcs pvcs)])
          cases hres : (retrievePVs env m.clientFrom pvcs []
              (h ++ [getESCall m (.object (.es es)), listPodsCall m (.pods pods),
                listPVCsCall m (.pvcs pvcs)])).1 with
          | error e =>
            have hstep : retrieveExistingResources env m h
                = (.error e, h ++ ([getESCall m (.object (.es es)),
                    listPodsCall m (.pods pods), listPVCsCall m (.pvcs pvcs)] ++ t1)) := by
              have hpair : retrievePVs env m.clientFrom pvcs []
                  (h ++ [getESCall m (.object (.es es)), listPodsCall m (.pods pods),
                    listPVCsCall m (.pvcs pvcs)])
                  = (.error e, h ++ [getESCall m (.object (.es es)),
                      listPodsCall m (.pods pods), listPVCsCall m (.pvcs pvcs)] ++ t1) :=
                Prod.ext hres ht1
              unfold retrieveExistingResources
              rw [hunf, if_neg hlen, hpair]
              simp
            rw [hres] at hrun
            exact ⟨_, by rw [hstep], by
              rw [hstep]
              exact Or.inr (Or.inr (Or.inr (Or.inr ⟨es, pods, pvcs, t1, hne, rfl,
                Or.inr ⟨e, rfl, hrun⟩⟩)))⟩
          | ok pvs =>
            have hstep : retrieveExistingResources env m h
                = (.ok ⟨es, pods, pvcs, pvs⟩, h ++ ([getESCall m (.object (.es es)),
                    listPodsCall m (.pods pods), listPVCsCall m (.pvcs pvcs)] ++ t1)) := by
              have hpair : retrievePVs env m.clientFrom pvcs []
                  (h ++ [getESCall m (.object (.es es)), listPodsCall m (.pods pods),
                    listPVCsCall m (.pvcs pvcs)])
                  = (.ok pvs, h ++ [getESCall m (.object (.es es)),
                      listPodsCall m (.pods pods), listPVCsCall m (.pvcs pvcs)] ++ t1) :=
                Prod.ext hres ht1
              unfold retrieveExistingResources
              rw [hunf, if_neg hlen, hpair]
              simp
            rw [hres] at hrun
            exact ⟨_, by rw [hstep], by
              rw [hstep]
              exact Or.inr (Or.inr (Or.inr (Or.inr ⟨es, pods, pvcs, t1, hne, rfl,
                Or.inl ⟨pvs, rfl, hrun⟩⟩)))⟩

/-! ## The calls of each step -/

theorem mem_zipWith_fetchPV (c : Client) (ps : List PersistentVolumeClaim) :
    ∀ (pvs : List PersistentVolume) (ev : Event), ev ∈ List.zipWith (fetchPV c) ps pvs
      → ∃ p ∈ ps, ∃ pv ∈ pvs, ev = fetchPV c p pv := by
  induction ps with
  | nil => intro pvs ev hev; simp at hev
  | cons p rest ih =>
    intro pvs ev hev
    cases pvs with
    | nil => simp at hev
    | cons pv pvs1 =>
      simp only [List.zipWith_cons_cons, List.mem_cons] at hev
      rcases hev with rfl | hm
      · exact ⟨p, by simp, pv, by simp, rfl⟩
      · obtain ⟨p1, hp1, pv1, hpv1, hev1⟩ := ih pvs1 ev hm
        exact ⟨p1, by simp [hp1], pv1, by simp [hpv1], hev1⟩

theorem retrievePVsRun_events (c : Client) (pvcs : List PersistentVolumeClaim)
    (acc : List PersistentVolume) (res : Except Error (List PersistentVolume)) (t : Trace)
    (hrun : RetrievePVsRun c pvcs acc res t) :
    ∀ ev ∈ t, ev.client = c ∧ isRead ev.op = true := by
  have hz : ∀ (ps : List PersistentVolumeClaim) (pvs : List PersistentVolume),
      ∀ ev ∈ List.zipWith (fetchPV c) ps pvs, ev.client = c ∧ isRead ev.op = true := by
    intro ps pvs ev hev
    obtain ⟨p, _, pv, _, rfl⟩ := mem_zipWith_fetchPV c ps pvs ev hev
    exact ⟨rfl, rfl⟩
  intro ev hev
  rcases hrun with ⟨pvs, _, _, htr, _⟩ | ⟨ps, pvc, rest, pvs, _, _, _, hcase⟩
  · rw [htr] at hev
    exact hz _ _ ev hev
  · rcases hcase with ⟨_, htr, _⟩ | ⟨e, _, htr, _⟩
    · rw [htr] at hev
      exact hz _ _ ev hev
    · rw [htr] at hev
      rcases List.mem_append.1 hev with h0 | h1
      · exact hz _ _ ev h0
      · rw [List.mem_singleton] at h1
        subst h1
        exact ⟨rfl, rfl⟩

/-- The collector only reads, on the source client. -/
theorem retrieveRun_events (m : migrator) (res : Except Error resourcesFrom) (t : Trace)
    (hrun : RetrieveRun m res t) : ∀ ev ∈ t, InStage m .collect ev := by
  intro ev hev
  rcases hrun with ⟨e, rfl, _⟩ | ⟨es, e, rfl, _⟩ | ⟨es, pods, e, rfl, _⟩ | ⟨es, pods, rfl, _⟩
    | ⟨es, pods, pvcs, t1, _, rfl, hcase⟩
  · simp only [List.mem_singleton] at hev
    subst hev
    exact ⟨rfl, rfl⟩
  · simp only [List.mem_cons, List.mem_singleton, List.not_mem_nil, or_false] at hev
    rcases hev with rfl | rfl <;> exact ⟨rfl, rfl⟩
  · simp only [List.mem_cons, List.mem_singleton, List.not_mem_nil, or_false] at hev
    rcases hev with rfl | rfl | rfl <;> exact ⟨rfl, rfl⟩
  · simp only [List.mem_cons, List.mem_singleton, List.not_mem_nil, or_false] at hev
    rcases hev with rfl | rfl | rfl <;> exact ⟨rfl, rfl⟩
  · rcases List.mem_append.1 hev with h0 | h1
    · simp only [List.mem_cons, List.mem_singleton, List.not_mem_nil, or_false] at h0
      rcases h0 with rfl | rfl | rfl <;> exact ⟨rfl, rfl⟩
    · rcases hcase with ⟨pvs, _, hpv⟩ | ⟨e, _, hpv⟩
      · exact retrievePVsRun_events _ _ _ _ _ hpv ev h1
      · exact retrievePVsRun_events _ _ _ _ _ hpv ev h1

theorem retrieve_events (env : Env) (m : migrator) (h : Trace) :
    ∃ t, (retrieveExistingResources env m h).2 = h ++ t ∧ ∀ ev ∈ t, InStage m .collect ev := by
  obtain ⟨t, ht, hrun⟩ := retrieveExistingResources_run env m h
  exact ⟨t, ht, retrieveRun_events m _ t hrun⟩

/-- The guard only issues Updates of volumes, on the source client. -/
theorem guard_events (env : Env) (m : migrator) (pvs : List PersistentVolume) (h : Trace) :
    ∃ t, (setPVsReclaimPolicy env m.clientFrom pvs h).2 = h ++ t
      ∧ ∀ ev ∈ t, InStage m .guard ev := by
  have hmap : ∀ ps : List PersistentVolume,
      ∀ ev ∈ (notRetained ps).map (retainUpdate m.clientFrom), InStage m .guard ev := by
    intro ps ev hev
    obtain ⟨pv, _, rfl⟩ := List.mem_map.1 hev
    exact ⟨rfl, _, rfl⟩
  rcases setPVsReclaimPolicy_run env m.clientFrom pvs h with h1 | ⟨ps, pv, rest, e, _, _, hrun⟩
  · exact ⟨_, by rw [h1], hmap pvs⟩
  · refine ⟨_, by rw [hrun], ?_⟩
    intro ev hev
    rcases List.mem_append.1 hev with h0 | h1
    · exact hmap ps ev h0
    · rw [List.mem_singleton] at h1
      subst h1
      exact ⟨rfl, _, rfl⟩

theorem toleratedDelete_events (c : Client) (opts : DeleteOptions) (objs : List Object)
    (t : Trace) (hall : List.Forall₂ (ToleratedDelete c opts) objs t) :
    ∀ ev ∈ t, ev.client = c ∧ ∃ o ∈ objs, ev.op = .Delete o opts := by
  induction hall with
  | nil => intro ev hev; cases hev
  | cons hhead _ ih =>
    intro ev hev
    rcases List.mem_cons.1 hev with rfl | hm
    · exact ⟨hhead.1, _, by simp, hhead.2.1⟩
    · obtain ⟨hc, o, ho, hop⟩ := ih ev hm
      exact ⟨hc, o, by simp [ho], hop⟩

theorem deleteRun_events (c : Client) (opts : DeleteOptions) (objs : List Object)
    (res : Option Error) (t : Trace) (hrun : DeleteRun c opts objs res t) :
    ∀ ev ∈ t, ev.client = c ∧ ∃ o ∈ objs, ev.op = .Delete o opts := by
  intro ev hev
  rcases hrun with ⟨_, hall⟩ | ⟨os, o, rest, t0, e, hobjs, ht, hall, _, _⟩
  · exact toleratedDelete_events c opts objs t hall ev hev
  · rw [ht] at hev
    rcases List.mem_append.1 hev with h0 | h1
    · obtain ⟨hc, o1, ho1, hop⟩ := toleratedDelete_events c opts os t0 hall ev h0
      exact ⟨hc, o1, by rw [hobjs]; simp [ho1], hop⟩
    · rw [List.mem_singleton] at h1
      subst h1
      exact ⟨rfl, o, by rw [hobjs]; simp, rfl⟩

/-- The deletion step only deletes the resource, lists pods and deletes pods
with grace period 0, on the source client. -/
theorem delete_events (env : Env) (m : migrator) (es : Elasticsearch) (h : Trace) :
    ∃ t, (deleteElasticsearch env m.clientFrom es h).2 = h ++ t
      ∧ ∀ ev ∈ t, InStage m .delete ev := by
  rcases deleteElasticsearch_run env m.clientFrom es h with ⟨e, _, hrun⟩ | ⟨e, _, _, hrun⟩
    | ⟨pods, t, _, _, htr, hdel, _⟩
  · refine ⟨_, by rw [hrun], ?_⟩
    intro ev hev
    rw [List.mem_singleton] at hev
    subst hev
    exact ⟨rfl, Or.inl ⟨es, rfl⟩⟩
  · refine ⟨_, by rw [hrun], ?_⟩
    intro ev hev
    simp only [List.mem_cons, List.mem_singleton, List.not_mem_nil, or_false] at hev
    rcases hev with rfl | rfl
    · exact ⟨rfl, Or.inl ⟨es, rfl⟩⟩
    · exact ⟨rfl, Or.inr (Or.inl ⟨_, _, rfl⟩)⟩
  · refine ⟨_, htr, ?_⟩
    intro ev hev
    rcases List.mem_cons.1 hev with rfl | hm
    · exact ⟨rfl, Or.inl ⟨es, rfl⟩⟩
    · rcases List.mem_cons.1 hm with rfl | hm1
      · exact ⟨rfl, Or.inr (Or.inl ⟨_, _, rfl⟩)⟩
      · obtain ⟨hc, o, ho, hop⟩ := deleteRun_events _ _ _ _ _ hdel ev hm1
        obtain ⟨p, _, rfl⟩ := List.mem_map.1 ho
        exact ⟨hc, Or.inr (Or.inr ⟨p, hop⟩)⟩

/-- The cleanup only deletes volumes of its list, on the source client. -/
theorem cleanup_events (env : Env) (m : migrator) (pvs : List PersistentVolume) (h : Trace) :
    ∃ t, (deletePVs env m.clientFrom pvs h).2 = h ++ t
      ∧ ∀ ev ∈ t, ev.client = m.clientFrom ∧ ∃ pv ∈ pvs, ev.op = .Delete (.pv pv) ⟨none⟩ := by
  obtain ⟨t, ht, hrun⟩ := deletePVs_run env m.clientFrom pvs h
  refine ⟨t, ht, ?_⟩
  intro ev hev
  obtain ⟨hc, o, ho, hop⟩ := deleteRun_events _ _ _ _ _ hrun ev hev
  obtain ⟨pv, hpv, rfl⟩ := List.mem_map.1 ho
  exact ⟨hc, pv, hpv, hop⟩

/-- The recreator only issues Creates, on the target client. -/
theorem recreate_events (env : Env) (m : migrator) (r : resourcesFrom) (h : Trace) :
    ∃ t, (recreateResources env m.clientTo r h).2 = h ++ t
      ∧ ∀ ev ∈ t, InStage m .recreate ev := by
  obtain ⟨t, ht, hrun⟩ := recreateResources_run env m.clientTo r h
  refine ⟨t, ht, ?_⟩
  have hcreated : ∀ (ps : List PersistentVolume) (t0 : Trace),
      List.Forall₂ (CreatedPV m.clientTo) ps t0 → ∀ ev ∈ t0, InStage m .recreate ev := by
    intro ps t0 hall ev hev
    obtain ⟨pv, _, rfl⟩ := (createdPV_events _ ps t0 hall).1 ev hev
    exact ⟨rfl, _, rfl⟩
  intro ev hev
  rcases hrun with ⟨e, _, hpv⟩ | ⟨t0, hall, htr, _⟩
  · rcases hpv with ⟨hbad, _⟩ | ⟨ps, pv, rest, t0, _, hall, hcase⟩
    · cases hbad
    · rcases hcase with ⟨_, htr, _⟩ | ⟨e1, _, htr, _⟩
      · rw [htr] at hev
        exact hcreated ps t0 hall ev hev
      · rw [htr] at hev
        rcases List.mem_append.1 hev with h0 | h1
        · exact hcreated ps t0 hall ev h0
        · rw [List.mem_singleton] at h1
          subst h1
          exact ⟨rfl, _, rfl⟩
  · rw [htr] at hev
    rcases List.mem_append.1 hev with h0 | h1
    · exact hcreated r.pvs t0 hall ev h0
    · rw [List.mem_singleton] at h1
      subst h1
      exact ⟨rfl, _, rfl⟩

theorem allPodsRunning_events (env : Env) (c : Client) (pods : List Pod) :
    ∀ h : Trace, ∃ t, (allPodsRunning env c pods h).2 = h ++ t
      ∧ ∀ ev ∈ t, ev.client = c ∧ ∃ key, ev.op = .Get .Pod key := by
  intro h
  obtain ⟨t, ht, hrun⟩ := allPodsRunning_run env c pods h
  refine ⟨t, ht, ?_⟩
  have hfetched : ∀ (ps : List Pod) (t0 : Trace), List.Forall₂ (FetchedRunning c) ps t0
      → ∀ ev ∈ t0, ev.client = c ∧ ∃ key, ev.op = .Get .Pod key := by
    intro ps t0 hall
    induction hall with
    | nil => intro ev hev; cases hev
    | cons hhead _ ih =>
      intro ev hev
      rcases List.mem_cons.1 hev with rfl | hm
      · obtain ⟨r, rfl, _⟩ := hhead
        exact ⟨rfl, _, rfl⟩
      · exact ih ev hm
  have hstopped : ∀ stop : Pod → Event → Prop,
      (∀ p ev, stop p ev → ev.client = c ∧ ∃ key, ev.op = .Get .Pod key)
      → RoundStopped c stop pods t → ∀ ev ∈ t, ev.client = c ∧ ∃ key, ev.op = .Get .Pod key := by
    intro stop hstop hs ev hev
    obtain ⟨ps, p, rest, r0, ev1, _, hround, hall, hlast⟩ := hs
    rw [hround] at hev
    rcases List.mem_append.1 hev with h0 | h1
    · exact hfetched ps r0 hall ev h0
    · rw [List.mem_singleton] at h1
      subst h1
      exact hstop p ev hlast
  rcases hrun with ⟨_, hok⟩ | ⟨_, hny⟩ | ⟨e, _, hf⟩
  · exact hfetched pods t hok
  · refine hstopped (NotYet c) ?_ hny
    rintro p ev (⟨e, rfl, _⟩ | ⟨r, rfl, _⟩) <;> exact ⟨rfl, _, rfl⟩
  · refine hstopped (FailedGet c e) ?_ hf
    rintro p ev ⟨rfl, _⟩
    exact ⟨rfl, _, rfl⟩

theorem checkPodsRunningLoop_events (env : Env) (c : Client) (pods : List Pod) :
    ∀ (left : Nat) (h : Trace), ∃ t, (checkPodsRunningLoop env c pods left h).2 = h ++ t
      ∧ ∀ ev ∈ t, ev.client = c ∧ ∃ key, ev.op = .Get .Pod key := by
  intro left
  induction left with
  | zero => intro h; exact ⟨[], by simp [checkPodsRunningLoop], by simp⟩
  | succ n ih =>
    intro h
    obtain ⟨t, ht, hev⟩ := allPodsRunning_events env c pods h
    cases hres : (allPodsRunning env c pods h).1 with
    | mk ok err =>
      have hpair : allPodsRunning env c pods h = ((ok, err), h ++ t) := Prod.ext hres ht
      cases err with
      | some e => exact ⟨t, by simp [checkPodsRunningLoop, hpair], hev⟩
      | none =>
        cases ok with
        | true => exact ⟨t, by simp [checkPodsRunningLoop, hpair], hev⟩
        | false =>
          obtain ⟨t1, ht1, hev1⟩ := ih (h ++ t)
          refine ⟨t ++ t1, by simp [checkPodsRunningLoop, hpair, ht1], ?_⟩
          intro ev hmem
          rcases List.mem_append.1 hmem with h0 | h1
          · exact hev ev h0
          · exact hev1 ev h1

/-- The waiter only issues Gets of pods, on the target client. -/
theorem wait_events (env : Env) (m : migrator) (pods : List Pod) (h : Trace) :
    ∃ t, (checkPodsRunning env m.clientTo pods h).2 = h ++ t
      ∧ ∀ ev ∈ t, InStage m .wait ev := by
  by_cases hp : pods.length = 0
  · exact ⟨[], by simp [checkPodsRunning, hp], by simp⟩
  · obtain ⟨t, ht, hev⟩ := checkPodsRunningLoop_events env m.clientTo pods 30 h
    exact ⟨t, by simp [checkPodsRunning, hp, ht], hev⟩

/-- The verifier only issues Gets of the Elasticsearch resource, on the
target client. -/
theorem verify_events (env : Env) (m : migrator) (es : Elasticsearch) (h : Trace) :
    ∃ t, (checkNewClusterUUID env m.clientTo es h).2 = h ++ t
      ∧ ∀ ev ∈ t, InStage m .verify ev := by
  obtain ⟨t, ht, hrun⟩ := checkNewClusterUUID_run env m.clientTo es h
  refine ⟨t, ht, ?_⟩
  have habs : ∀ ev, AbsentPoll m.clientTo es ev → InStage m .verify ev := by
    rintro ev ⟨r, rfl, _⟩
    exact ⟨rfl, _, rfl⟩
  intro ev hev
  rcases hrun with ⟨_, _, hall⟩ | ⟨t0, last, rfl, _, hall, hcase⟩
  · exact habs ev (hall ev hev)
  · rcases List.mem_append.1 hev with h0 | h1
    · exact habs ev (hall ev h0)
    · rw [List.mem_singleton] at h1
      subst h1
      rcases hcase with ⟨e, rfl, _⟩ | ⟨r, rfl, _⟩ | ⟨r, rfl, _⟩ <;> exact ⟨rfl, _, rfl⟩

/-! ## The pipeline -/

theorem inOrder_nil (m : migrator) (sts : List Stage) : InOrder m sts [] := by
  induction sts with
  | nil => rfl
  | cons st rest ih => exact ⟨[], [], rfl, by simp, ih⟩

theorem inOrder_snoc (m : migrator) (st : Stage) (t1 : Trace)
    (h1 : ∀ ev ∈ t1, InStage m st ev) :
    ∀ (sts : List Stage) (t : Trace), InOrder m sts t → InOrder m (sts ++ [st]) (t ++ t1) := by
  intro sts
  induction sts with
  | nil =>
    intro t ht
    have : t = [] := ht
    subst this
    exact ⟨t1, [], by simp, h1, rfl⟩
  | cons s rest ih =>
    rintro t ⟨a, b, rfl, ha, hb⟩
    exact ⟨a, b ++ t1, by simp, ha, ih b hb⟩

theorem inOrder_pad (m : migrator) (more : List Stage) :
    ∀ (sts : List Stage) (t : Trace), InOrder m sts t → InOrder m (sts ++ more) t := by
  intro sts
  induction sts with
  | nil =>
    intro t ht
    have : t = [] := ht
    subst this
    exact inOrder_nil m _
  | cons s rest ih =>
    rintro t ⟨a, b, rfl, ha, hb⟩
    exact ⟨a, b, rfl, ha, ih b hb⟩

theorem inOrder_mem (m : migrator) :
    ∀ (sts : List Stage) (t : Trace), InOrder m sts t
      → ∀ ev ∈ t, ∃ st ∈ sts, InStage m st ev := by
  intro sts
  induction sts with
  | nil =>
    intro t ht ev hev
    have : t = [] := ht
    subst this
    cases hev
  | cons s rest ih =>
    rintro t ⟨a, b, rfl, ha, hb⟩ ev hev
    rcases List.mem_append.1 hev with h0 | h1
    · exact ⟨s, by simp, ha ev h0⟩
    · obtain ⟨st, hst, hin⟩ := ih b hb ev h1
      exact ⟨st, by simp [hst], hin⟩

theorem progress_step (m : migrator) (h hk out : Trace) (sts : List Stage) (st : Stage)
    (hp : Progress m h sts hk)
    (hs : ∃ t1, out = hk ++ t1 ∧ ∀ ev ∈ t1, InStage m st ev) :
    Progress m h (sts ++ [st]) out := by
  obtain ⟨t, rfl, hord⟩ := hp
  obtain ⟨t1, rfl, h1⟩ := hs
  exact ⟨t ++ t1, by simp, inOrder_snoc m st t1 h1 sts t hord⟩

theorem progress_all (m : migrator) (h hk : Trace) (sts more : List Stage)
    (hp : Progress m h sts hk) (hall : sts ++ more = allStages) :
    ∃ t, hk = h ++ t ∧ InOrder m allStages t := by
  obtain ⟨t, rfl, hord⟩ := hp
  exact ⟨t, rfl, hall ▸ inOrder_pad m more sts t hord⟩

theorem pastGuard_step (env : Env) (m : migrator) (h : Trace) (r : resourcesFrom)
    (hk out : Trace) (st : Stage) (hst : st ≠ Stage.collect ∧ st ≠ Stage.guard)
    (hp : PastGuard env m h r hk)
    (hs : ∃ t1, out = hk ++ t1 ∧ ∀ ev ∈ t1, InStage m st ev) : PastGuard env m h r out := by
  obtain ⟨h2, rest, hg, rfl, hrest⟩ := hp
  obtain ⟨t1, rfl, h1⟩ := hs
  refine ⟨h2, rest ++ t1, hg, by simp, ?_⟩
  intro ev hev
  rcases List.mem_append.1 hev with h0 | h3
  · exact hrest ev h0
  · exact ⟨st, hst.1, hst.2, h1 ev h3⟩

theorem guarded_pastGuard {env : Env} {m : migrator} {h : Trace} {r : resourcesFrom}
    {h2 : Trace} (hg : Guarded env m h r h2) : PastGuard env m h r h2 :=
  ⟨h2, [], hg, by simp, by simp⟩

theorem step_events_of_eq {α : Type} {P : Event → Prop} {f : α × Trace} {a : α} {h out : Trace}
    (hev : ∃ t, f.2 = h ++ t ∧ ∀ ev ∈ t, P ev) (heq : f = (a, out)) :
    ∃ t, out = h ++ t ∧ ∀ ev ∈ t, P ev := by
  rw [heq] at hev
  exact hev

theorem collected_progress {env : Env} {m : migrator} {h : Trace} {r : resourcesFrom}
    {h1 : Trace} (hc : Collected env m h r h1) : Progress m h [.collect] h1 :=
  progress_step m h h h1 [] .collect ⟨[], by simp, rfl⟩
    (step_events_of_eq (retrieve_events env m h) hc)

theorem guarded_progress {env : Env} {m : migrator} {h : Trace} {r : resourcesFrom}
    {h2 : Trace} (hg : Guarded env m h r h2) : Progress m h [.collect, .guard] h2 := by
  obtain ⟨h1, hc, hstep⟩ := hg
  exact progress_step m h h1 h2 _ .guard (collected_progress hc)
    (step_events_of_eq (guard_events env m r.pvs h1) hstep)

theorem deleted_progress {env : Env} {m : migrator} {h : Trace} {r : resourcesFrom}
    {h3 : Trace} (hd : Deleted env m h r h3) :
    Progress m h [.collect, .guard, .delete] h3 ∧ PastGuard env m h r h3 := by
  obtain ⟨h2, hg, hstep⟩ := hd
  have hev := step_events_of_eq (delete_events env m r.elasticsearch h2) hstep
  exact ⟨progress_step m h h2 h3 _ .delete (guarded_progress hg) hev,
    pastGuard_step env m h r h2 h3 .delete (by decide) (guarded_pastGuard hg) hev⟩

theorem recreated_progress {env : Env} {m : migrator} {h : Trace} {r : resourcesFrom}
    {h4 : Trace} (hd : Recreated env m h r h4) :
    Progress m h [.collect, .guard, .delete, .recreate] h4 ∧ PastGuard env m h r h4 := by
  obtain ⟨h3, hp, hstep⟩ := hd
  have hev := step_events_of_eq (recreate_events env m r h3) hstep
  exact ⟨progress_step m h h3 h4 _ .recreate (deleted_progress hp).1 hev,
    pastGuard_step env m h r h3 h4 .recreate (by decide) (deleted_progress hp).2 hev⟩

theorem converged_progress {env : Env} {m : migrator} {h : Trace} {r : resourcesFrom}
    {h5 : Trace} (hd : Converged env m h r h5) :
    Progress m h [.collect, .guard, .delete, .recreate, .wait] h5
    ∧ PastGuard env m h r h5 := by
  obtain ⟨h4, hp, hstep⟩ := hd
  have hev := step_events_of_eq (wait_events env m r.pods h4) hstep
  exact ⟨progress_step m h h4 h5 _ .wait (recreated_progress hp).1 hev,
    pastGuard_step env m h r h4 h5 .wait (by decide) (recreated_progress hp).2 hev⟩

theorem verified_progress {env : Env} {m : migrator} {h : Trace} {r : resourcesFrom}
    {h6 : Trace} (hd : Verified env m h r h6) :
    Progress m h [.collect, .guard, .delete, .recreate, .wait, .verify] h6
    ∧ PastGuard env m h r h6 := by
  obtain ⟨h5, hp, hstep⟩ := hd
  have hev := step_events_of_eq (verify_events env m r.elasticsearch h5) hstep
  exact ⟨progress_step m h h5 h6 _ .verify (converged_progress hp).1 hev,
    pastGuard_step env m h r h5 h6 .verify (by decide) (converged_progress hp).2 hev⟩

theorem cleanup_stage (m : migrator) (pvs : List PersistentVolume) (t : Trace)
    (hev : ∀ ev ∈ t, ev.client = m.clientFrom ∧ ∃ pv ∈ pvs, ev.op = .Delete (.pv pv) ⟨none⟩) :
    ∀ ev ∈ t, InStage m .cleanup ev := by
  intro ev hmem
  obtain ⟨hc, pv, _, hop⟩ := hev ev hmem
  exact ⟨hc, pv, hop⟩

/-- Every run of `Migrate` is a `MigrateOutcome`. -/
theorem Migrate_outcome (env : Env) (m : migrator) (h : Trace) :
    MigrateOutcome env m h (Migrate env m h).1 (Migrate env m h).2 := by
  rcases hc : retrieveExistingResources env m h with ⟨e | r, h1⟩
  · exact Or.inl ⟨e, by simp [Migrate, hc], by simp [Migrate, hc]⟩
  right
  rcases hg : setPVsReclaimPolicy env m.clientFrom r.pvs h1 with ⟨_ | e, h2⟩
  swap
  · exact Or.inl ⟨r, h1, e, hc, by simp [Migrate, hc, hg], by simp [Migrate, hc, hg]⟩
  right
  have hG : Guarded env m h r h2 := ⟨h1, hc, hg⟩
  rcases hd : deleteElasticsearch env m.clientFrom r.elasticsearch h2 with ⟨_ | e, h3⟩
  swap
  · exact Or.inl ⟨r, h2, e, hG, by simp [Migrate, hc, hg, hd], by simp [Migrate, hc, hg, hd]⟩
  right
  have hD : Deleted env m h r h3 := ⟨h2, hG, hd⟩
  rcases hr : recreateResources env m.clientTo r h3 with ⟨_ | e, h4⟩
  swap
  · exact Or.inl ⟨r, h3, e, hD, by simp [Migrate, hc, hg, hd, hr],
      by simp [Migrate, hc, hg, hd, hr]⟩
  right
  have hR : Recreated env m h r h4 := ⟨h3, hD, hr⟩
  rcases hw : checkPodsRunning env m.clientTo r.pods h4 with ⟨_ | e, h5⟩
  swap
  · exact Or.inl ⟨r, h4, e, hR, by simp [Migrate, hc, hg, hd, hr, hw],
      by simp [Migrate, hc, hg, hd, hr, hw]⟩
  right
  have hW : Converged env m h r h5 := ⟨h4, hR, hw⟩
  rcases hv : checkNewClusterUUID env m.clientTo r.elasticsearch h5 with ⟨_ | e, h6⟩
  swap
  · exact Or.inl ⟨r, h5, e, hW, by simp [Migrate, hc, hg, hd, hr, hw, hv],
      by simp [Migrate, hc, hg, hd, hr, hw, hv]⟩
  right
  have hV : Verified env m h r h6 := ⟨h5, hW, hv⟩
  rcases hp : deletePVs env m.clientFrom r.pvs h6 with ⟨_ | e, h7⟩
  swap
  · exact Or.inl ⟨r, h6, e, hV, by simp [Migrate, hc, hg, hd, hr, hw, hv, hp],
      by simp [Migrate, hc, hg, hd, hr, hw, hv, hp]⟩
  right
  exact ⟨r, ⟨h6, hV, by simp [Migrate, hc, hg, hd, hr, hw, hv, hp]⟩,
    by simp [Migrate, hc, hg, hd, hr, hw, hv, hp]⟩

theorem progress_pad (m : migrator) (h hk : Trace) (sts more : List Stage)
    (hp : Progress m h sts hk) : Progress m h (sts ++ more) hk := by
  obtain ⟨t, rfl, hord⟩ := hp
  exact ⟨t, rfl, inOrder_pad m more sts t hord⟩

/-- The stages that issued the calls of a run of `Migrate`, by the step at
which it stopped: the run stopped before the cleanup and its calls are of
the stages before the cleanup, in order; or every step before the cleanup
succeeded and the calls after them are Deletes of snapshot volumes on the
source client. -/
theorem outcome_cleanup_split (env : Env) (m : migrator) (h : Trace) (res : Option Error)
    (out : Trace) (ho : MigrateOutcome env m h res out) :
    (Progress m h stagesBeforeCleanup out ∧ res ≠ none)
    ∨ ∃ r h6 t7, Verified env m h r h6 ∧ out = h6 ++ t7
        ∧ (deletePVs env m.clientFrom r.pvs h6 = (res, out))
        ∧ ∀ ev ∈ t7, ev.client = m.clientFrom ∧ ∃ pv ∈ r.pvs, ev.op = .Delete (.pv pv) ⟨none⟩ := by
  rcases ho with ⟨e, hc, hres⟩ | ⟨r, h1, e, hc, hs, hres⟩ | ⟨r, h2, e, hg, hs, hres⟩
    | ⟨r, h3, e, hd, hs, hres⟩ | ⟨r, h4, e, hr, hs, hres⟩ | ⟨r, h5, e, hw, hs, hres⟩
    | ⟨r, h6, e, hv, hs, hres⟩ | ⟨r, ⟨h6, hv, hs⟩, hres⟩
  · left
    refine ⟨?_, by rw [hres]; simp⟩
    exact progress_pad m h out [.collect] [.guard, .delete, .recreate, .wait, .verify]
      (progress_step m h h out [] .collect ⟨[], by simp, rfl⟩
        (step_events_of_eq (retrieve_events env m h) hc))
  · left
    refine ⟨?_, by rw [hres]; simp⟩
    exact progress_pad m h out [.collect, .guard] [.delete, .recreate, .wait, .verify]
      (progress_step m h h1 out _ .guard (collected_progress hc)
        (step_events_of_eq (guard_events env m r.pvs h1) hs))
  · left
    refine ⟨?_, by rw [hres]; simp⟩
    exact progress_pad m h out [.collect, .guard, .delete] [.recreate, .wait, .verify]
      (progress_step m h h2 out _ .delete (guarded_progress hg)
        (step_events_of_eq (delete_events env m r.elasticsearch h2) hs))
  · left
    refine ⟨?_, by rw [hres]; simp⟩
    exact progress_pad m h out [.collect, .guard, .delete, .recreate] [.wait, .verify]
      (progress_step m h h3 out _ .recreate (deleted_progress hd).1
        (step_events_of_eq (recreate_events env m r h3) hs))
  · left
    refine ⟨?_, by rw [hres]; simp⟩
    exact progress_pad m h out [.collect, .guard, .delete, .recreate, .wait] [.verify]
      (progress_step m h h4 out _ .wait (recreated_progress hr).1
        (step_events_of_eq (wait_events env m r.pods h4) hs))
  · left
    refine ⟨?_, by rw [hres]; simp⟩
    exact progress_step m h h5 out _ .verify (converged_progress hw).1
      (step_events_of_eq (verify_events env m r.elasticsearch h5) hs)
  · right
    obtain ⟨t7, ht7, hev⟩ := step_events_of_eq (cleanup_events env m r.pvs h6) hs
    exact ⟨r, h6, t7, hv, ht7, by rw [hs, hres], hev⟩
  · right
    obtain ⟨t7, ht7, hev⟩ := step_events_of_eq (cleanup_events env m r.pvs h6) hs
    exact ⟨r, h6, t7, hv, ht7, by rw [hs, hres], hev⟩

/-- The calls of every run of `Migrate` are made by the seven stages in
their order. -/
theorem outcome_inOrder (env : Env) (m : migrator) (h : Trace) (res : Option Error)
    (out : Trace) (ho : MigrateOutcome env m h res out) :
    ∃ t, out = h ++ t ∧ InOrder m allStages t := by
  rcases outcome_cleanup_split env m h res out ho with ⟨hp, _⟩ | ⟨r, h6, t7, hv, ht7, _, hev⟩
  · exact progress_all m h out stagesBeforeCleanup [.cleanup] hp rfl
  · exact progress_all m h out allStages []
      (progress_step m h h6 out stagesBeforeCleanup .cleanup (verified_progress hv).1
        ⟨t7, ht7, cleanup_stage m r.pvs t7 hev⟩) rfl

/-- A run of `Migrate` stopped at the collection or at the guard, or went
past a successful guard. -/
theorem outcome_guard_split (env : Env) (m : migrator) (h : Trace) (res : Option Error)
    (out : Trace) (ho : MigrateOutcome env m h res out) :
    (∃ e, retrieveExistingResources env m h = (.error e, out) ∧ res = some e)
    ∨ (∃ r h1 e, Collected env m h r h1
        ∧ setPVsReclaimPolicy env m.clientFrom r.pvs h1 = (some e, out) ∧ res = some e)
    ∨ ∃ r, PastGuard env m h r out := by
  rcases ho with ⟨e, hc, hres⟩ | ⟨r, h1, e, hc, hs, hres⟩ | ⟨r, h2, e, hg, hs, hres⟩
    | ⟨r, h3, e, hd, hs, hres⟩ | ⟨r, h4, e, hr, hs, hres⟩ | ⟨r, h5, e, hw, hs, hres⟩
    | ⟨r, h6, e, hv, hs, hres⟩ | ⟨r, ⟨h6, hv, hs⟩, hres⟩
  · exact Or.inl ⟨e, hc, hres⟩
  · exact Or.inr (Or.inl ⟨r, h1, e, hc, hs, hres⟩)
  · exact Or.inr (Or.inr ⟨r, pastGuard_step env m h r h2 out .delete (by decide)
      (guarded_pastGuard hg) (step_events_of_eq (delete_events env m r.elasticsearch h2) hs)⟩)
  · exact Or.inr (Or.inr ⟨r, pastGuard_step env m h r h3 out .recreate (by decide)
      (deleted_progress hd).2 (step_events_of_eq (recreate_events env m r h3) hs)⟩)
  · exact Or.inr (Or.inr ⟨r, pastGuard_step env m h r h4 out .wait (by decide)
      (recreated_progress hr).2 (step_events_of_eq (wait_events env m r.pods h4) hs)⟩)
  · exact Or.inr (Or.inr ⟨r, pastGuard_step env m h r h5 out .verify (by decide)
      (converged_progress hw).2
      (step_events_of_eq (verify_events env m r.elasticsearch h5) hs)⟩)
  · obtain ⟨t7, ht7, hev⟩ := step_events_of_eq (cleanup_events env m r.pvs h6) hs
    exact Or.inr (Or.inr ⟨r, pastGuard_step env m h r h6 out .cleanup (by decide)
      (verified_progress hv).2 ⟨t7, ht7, cleanup_stage m r.pvs t7 hev⟩⟩)
  · obtain ⟨t7, ht7, hev⟩ := step_events_of_eq (cleanup_events env m r.pvs h6) hs
    exact Or.inr (Or.inr ⟨r, pastGuard_step env m h r h6 out .cleanup (by decide)
      (verified_progress hv).2 ⟨t7, ht7, cleanup_stage m r.pvs t7 hev⟩⟩)

theorem not_delete_before_cleanup (m : migrator) (st : Stage) (ev : Event)
    (hst : st ∈ stagesBeforeCleanup) (hin : InStage m st ev) :
    ∀ pv opts, ev.op ≠ .Delete (.pv pv) opts := by
  intro pv opts hop
  simp only [stagesBeforeCleanup, List.mem_cons, List.mem_singleton, List.not_mem_nil,
    or_false] at hst
  rcases hst with rfl | rfl | rfl | rfl | rfl | rfl
  · have := hin.2
    rw [hop] at this
    simp [isRead] at this
  · obtain ⟨_, pv1, h1⟩ := hin
    rw [hop] at h1
    cases h1
  · obtain ⟨_, ⟨es, h1⟩ | ⟨ns, labels, h1⟩ | ⟨p, h1⟩⟩ := hin <;> rw [hop] at h1 <;> cases h1
  · obtain ⟨_, o, h1⟩ := hin
    rw [hop] at h1
    cases h1
  · obtain ⟨_, key, h1⟩ := hin
    rw [hop] at h1
    cases h1
  · obtain ⟨_, key, h1⟩ := hin
    rw [hop] at h1
    cases h1

/-- C2: every run of `Migrate` is fail-fast over its seven steps in the
order collect, guard, delete, recreate, wait, verify, cleanup: the steps
before some step succeeded, that step returned an error, `Migrate` returns
exactly that error and the history ends at that step's return; or all seven
succeeded and `Migrate` returns nil.  The calls are made of consecutive
segments of the seven stages in that order.  A Delete of a volume is issued
only in runs in which `checkPodsRunning` and `checkNewClusterUUID` have both
returned nil, and `Migrate` returns nil only if all seven steps did. -/
theorem C2_migrate_fail_fast (env : Env) (m : migrator) (h : Trace) :
    MigrateOutcome env m h (Migrate env m h).1 (Migrate env m h).2
    ∧ ∃ t, (Migrate env m h).2 = h ++ t ∧ InOrder m allStages t
      ∧ (∀ ev ∈ t, ∀ pv opts, ev.op = .Delete (.pv pv) opts
          → ∃ r h4 h5 h6, Recreated env m h r h4
              ∧ checkPodsRunning env m.clientTo r.pods h4 = (none, h5)
              ∧ checkNewClusterUUID env m.clientTo r.elasticsearch h5 = (none, h6))
      ∧ ((Migrate env m h).1 = none → ∃ r, Cleaned env m h r (Migrate env m h).2) := by
  have ho := Migrate_outcome env m h
  refine ⟨ho, ?_⟩
  obtain ⟨t, ht, hord⟩ := outcome_inOrder env m h _ _ ho
  refine ⟨t, ht, hord, ?_, ?_⟩
  · intro ev hev pv opts hop
    rcases outcome_cleanup_split env m h _ _ ho with ⟨⟨t6, ht6, hord6⟩, _⟩
      | ⟨r, h6, t7, ⟨h5, ⟨h4, hr, hw⟩, hv⟩, _⟩
    · have : t6 = t := List.append_cancel_left (ht6.symm.trans ht)
      subst this
      obtain ⟨st, hst, hin⟩ := inOrder_mem m _ t6 hord6 ev hev
      exact absurd hop (not_delete_before_cleanup m st ev hst hin pv opts)
    · exact ⟨r, h4, h5, h6, hr, hw, hv⟩
  · intro hnone
    rcases ho with ⟨e, _, hres⟩ | ⟨r, h1, e, _, _, hres⟩ | ⟨r, h2, e, _, _, hres⟩
      | ⟨r, h3, e, _, _, hres⟩ | ⟨r, h4, e, _, _, hres⟩ | ⟨r, h5, e, _, _, hres⟩
      | ⟨r, h6, e, _, _, hres⟩ | ⟨r, hcl, _⟩
    all_goals first
      | exact ⟨r, hcl⟩
      | (rw [hnone] at hres; cases hres)

/-- A split of `a ++ b` at an element that is not in `a` falls after `a`. -/
theorem prefix_of_not_mem {α : Type} (ev : α) :
    ∀ (a b t0 t1 : List α), a ++ b = t0 ++ ev :: t1 → ev ∉ a → ∃ pre, t0 = a ++ pre := by
  intro a
  induction a with
  | nil => intro b t0 t1 _ _; exact ⟨t0, rfl⟩
  | cons x a1 ih =>
    intro b t0 t1 heq hnot
    cases t0 with
    | nil =>
      simp only [List.cons_append, List.nil_append, List.cons.injEq] at heq
      exact absurd (by rw [heq.1]; simp) hnot
    | cons y t0a =>
      simp only [List.cons_append, List.cons.injEq] at heq
      obtain ⟨pre, hpre⟩ := ih b t0a t1 heq.2 (fun hm => hnot (by simp [hm]))
      exact ⟨pre, by rw [heq.1, hpre]; simp⟩

theorem collect_not_write (m : migrator) (ev : Event) (hin : InStage m .collect ev) :
    (∀ o, ev.op ≠ .Update o) ∧ ∀ o opts, ev.op ≠ .Delete o opts := by
  have hr := hin.2
  constructor
  · intro o hop
    rw [hop] at hr
    simp [isRead] at hr
  · intro o opts hop
    rw [hop] at hr
    simp [isRead] at hr

theorem guard_not_delete (m : migrator) (ev : Event) (hin : InStage m .guard ev) :
    ∀ o opts, ev.op ≠ .Delete o opts := by
  intro o opts hop
  obtain ⟨_, pv, h1⟩ := hin
  rw [hop] at h1
  cases h1

theorem afterGuard_not_update (m : migrator) (ev : Event) (hin : AfterGuard m ev) :
    ∀ o, ev.op ≠ .Update o := by
  intro o hop
  obtain ⟨st, h1, h2, hst⟩ := hin
  cases st with
  | collect => exact h1 rfl
  | guard => exact h2 rfl
  | delete =>
    obtain ⟨_, ⟨es, h3⟩ | ⟨ns, labels, h3⟩ | ⟨p, h3⟩⟩ := hst <;> rw [hop] at h3 <;> cases h3
  | recreate => obtain ⟨_, o1, h3⟩ := hst; rw [hop] at h3; cases h3
  | wait => obtain ⟨_, key, h3⟩ := hst; rw [hop] at h3; cases h3
  | verify => obtain ⟨_, key, h3⟩ := hst; rw [hop] at h3; cases h3
  | cleanup => obtain ⟨_, pv, h3⟩ := hst; rw [hop] at h3; cases h3

/-- The history at which collection and the guard have succeeded: the reads
of the collection and then one successful Update carrying Retain per snapshot
volume not recorded as Retain. -/
theorem guarded_trace {env : Env} {m : migrator} {h : Trace} {r : resourcesFrom} {h2 : Trace}
    (hg : Guarded env m h r h2) :
    ∃ tc, (∀ ev ∈ tc, InStage m .collect ev)
      ∧ h2 = h ++ (tc ++ (notRetained r.pvs).map (retainUpdate m.clientFrom)) := by
  obtain ⟨h1, hc, hstep⟩ := hg
  obtain ⟨tc, htc, hev⟩ := step_events_of_eq (retrieve_events env m h) hc
  refine ⟨tc, hev, ?_⟩
  rcases setPVsReclaimPolicy_run env m.clientFrom r.pvs h1 with hrun | ⟨_, _, _, e, _, _, hrun⟩
  · rw [hrun] at hstep
    simp only [Prod.mk.injEq, true_and] at hstep
    rw [← hstep, htc]
    simp
  · rw [hrun] at hstep
    simp at hstep

/-- C1: in every run of `Migrate`, a Delete of the Elasticsearch resource is
issued only after collection and `setPVsReclaimPolicy` have returned success,
and then every volume of the collected snapshot either records the reclaim
policy Retain or has had, earlier in the run, a successful Update on the
source client carrying Retain; and when an Update fails, `Migrate` returns
that error and the run has no Delete call. -/
theorem C1_delete_only_after_retain (env : Env) (m : migrator) (h : Trace) :
    ∃ t, (Migrate env m h).2 = h ++ t
      ∧ (∀ t0 ev t1 es opts, t = t0 ++ ev :: t1 → ev.op = .Delete (.es es) opts
          → ∃ r h1 h2, retrieveExistingResources env m h = (.ok r, h1)
              ∧ setPVsReclaimPolicy env m.clientFrom r.pvs h1 = (none, h2)
              ∧ ∀ pv ∈ r.pvs,
                  pv.Spec.PersistentVolumeReclaimPolicy = PersistentVolumeReclaimRetain
                  ∨ retainUpdate m.clientFrom pv ∈ t0)
      ∧ (∀ ev ∈ t, ∀ o e, ev.op = .Update o → ev.resp = .err e
          → (Migrate env m h).1 = some e ∧ ∀ ev1 ∈ t, ∀ o1 opts, ev1.op ≠ .Delete o1 opts) := by
  have ho := Migrate_outcome env m h
  obtain ⟨t, ht, _⟩ := outcome_inOrder env m h _ _ ho
  refine ⟨t, ht, ?_, ?_⟩
  · intro t0 ev t1 es opts hsplit hop
    have hmem : ev ∈ t := by rw [hsplit]; simp
    rcases outcome_guard_split env m h _ _ ho with ⟨e, hc, _⟩ | ⟨r, h1, e, hc, hs, _⟩
      | ⟨r, h2, rest, hg, hout, _⟩
    · obtain ⟨tc, htc, hev⟩ := step_events_of_eq (retrieve_events env m h) hc
      have : tc = t := List.append_cancel_left (htc.symm.trans ht)
      subst this
      exact absurd hop ((collect_not_write m ev (hev ev hmem)).2 _ _)
    · obtain ⟨tc, htc, hev⟩ := step_events_of_eq (retrieve_events env m h) hc
      obtain ⟨tu, htu, hevu⟩ := step_events_of_eq (guard_events env m r.pvs h1) hs
      have : tc ++ tu = t := List.append_cancel_left (by rw [← ht, htu, htc]; simp)
      subst this
      rcases List.mem_append.1 hmem with h0 | h3
      · exact absurd hop ((collect_not_write m ev (hev ev h0)).2 _ _)
      · exact absurd hop (guard_not_delete m ev (hevu ev h3) _ _)
    · obtain ⟨tc, hev, h2eq⟩ := guarded_trace hg
      have ht2 : (tc ++ (notRetained r.pvs).map (retainUpdate m.clientFrom)) ++ rest = t :=
        List.append_cancel_left (by rw [← ht, hout, h2eq]; simp)
      have hnot : ev ∉ tc ++ (notRetained r.pvs).map (retainUpdate m.clientFrom) := by
        intro hm
        rcases List.mem_append.1 hm with h0 | h3
        · exact (collect_not_write m ev (hev ev h0)).2 _ _ hop
        · obtain ⟨pv, _, rfl⟩ := List.mem_map.1 h3
          cases hop
      obtain ⟨pre, hpre⟩ := prefix_of_not_mem ev _ rest t0 t1 (ht2.trans hsplit) hnot
      obtain ⟨h1, hc, hstep⟩ := hg
      refine ⟨r, h1, h2, hc, hstep, ?_⟩
      intro pv hpv
      by_cases hp : pv.Spec.PersistentVolumeReclaimPolicy = PersistentVolumeReclaimRetain
      · exact Or.inl hp
      · right
        rw [hpre]
        have : pv ∈ notRetained r.pvs := by
          simp [notRetained, hpv, hp]
        simp only [List.mem_append, List.mem_map]
        exact Or.inl (Or.inr ⟨pv, this, rfl⟩)
  · intro ev hmem o e hop hresp
    rcases outcome_guard_split env m h _ _ ho with ⟨e1, hc, _⟩ | ⟨r, h1, e1, hc, hs, hres⟩
      | ⟨r, h2, rest, hg, hout, hrest⟩
    · obtain ⟨tc, htc, hev⟩ := step_events_of_eq (retrieve_events env m h) hc
      have : tc = t := List.append_cancel_left (htc.symm.trans ht)
      subst this
      exact absurd hop ((collect_not_write m ev (hev ev hmem)).1 _)
    · obtain ⟨tc, htc, hev⟩ := step_events_of_eq (retrieve_events env m h) hc
      obtain ⟨tu, htu, hevu⟩ := step_events_of_eq (guard_events env m r.pvs h1) hs
      have htt : tc ++ tu = t := List.append_cancel_left (by rw [← ht, htu, htc]; simp)
      subst htt
      constructor
      · rcases List.mem_append.1 hmem with h0 | h3
        · exact absurd hop ((collect_not_write m ev (hev ev h0)).1 _)
        · rcases setPVsReclaimPolicy_run env m.clientFrom r.pvs h1 with hrun
            | ⟨ps, pv, rest, e2, _, _, hrun⟩
          · rw [hrun] at hs
            simp at hs
          · rw [hrun] at hs
            simp only [Prod.mk.injEq, Option.some.injEq] at hs
            have htu2 : tu = (notRetained ps).map (retainUpdate m.clientFrom)
                ++ [⟨m.clientFrom, .Update (.pv (withRetain pv)), .err e2⟩] :=
              List.append_cancel_left (by rw [← htu, ← hs.2])
            rw [htu2] at h3
            rcases List.mem_append.1 h3 with h4 | h5
            · obtain ⟨pv1, _, rfl⟩ := List.mem_map.1 h4
              cases hresp
            · rw [List.mem_singleton] at h5
              subst h5
              simp only [Response.err.injEq] at hresp
              rw [hres, ← hs.1, hresp]
      · intro ev1 hm1 o1 opts
        rcases List.mem_append.1 hm1 with h0 | h3
        · exact (collect_not_write m ev1 (hev ev1 h0)).2 _ _
        · exact guard_not_delete m ev1 (hevu ev1 h3) _ _
    · exfalso
      obtain ⟨tc, hev, h2eq⟩ := guarded_trace hg
      have ht2 : (tc ++ (notRetained r.pvs).map (retainUpdate m.clientFrom)) ++ rest = t :=
        List.append_cancel_left (by rw [← ht, hout, h2eq]; simp)
      rw [← ht2] at hmem
      rcases List.mem_append.1 hmem with h0 | h3
      · rcases List.mem_append.1 h0 with h4 | h5
        · exact (collect_not_write m ev (hev ev h4)).1 _ hop
        · obtain ⟨pv1, _, rfl⟩ := List.mem_map.1 h5
          cases hresp
      · exact afterGuard_not_update m ev (hrest ev h3) _ hop

/-- On a client whose Creates succeed, the volume loop of `recreateResources`
creates the recreation of every volume, in order, when no claimRef is nil. -/
theorem recreatePVs_ok (env : Env) (c : Client) (hok : ∀ h1 o, env.create h1 c o = none)
    (pvs : List PersistentVolume) (hclaim : ∀ pv ∈ pvs, pv.Spec.ClaimRef ≠ none) :
    ∀ h : Trace, recreatePVs env c pvs h = (none, h ++ pvs.map (createPVCall c)) := by
  induction pvs with
  | nil => intro h; simp [recreatePVs]
  | cons pv rest ih =>
    intro h
    cases hcr : pv.Spec.ClaimRef with
    | none => exact absurd hcr (hclaim pv (by simp))
    | some ref =>
      have hobj : ({ pv with
          ObjectMeta := { pv.ObjectMeta with
            CreationTimestamp := Time.zero, ResourceVersion := "", UID := "" },
          Spec := { pv.Spec with
            ClaimRef := some { ref with UID := "", ResourceVersion := "" } },
          Status := PersistentVolumeStatus.zero } : PersistentVolume) = recreatedPV pv := by
        simp [recreatedPV, hcr, clearedRef, Time.zero, PersistentVolumeStatus.zero]
      have hstep : recreatePVs env c (pv :: rest) h
          = recreatePVs env c rest (h ++ [createPVCall c pv]) := by
        simp only [recreatePVs, PersistentVolume.DeepCopy, hcr, Create, hobj]
        simp [hok, respOf, createPVCall]
      rw [hstep, ih (fun p hp => hclaim p (by simp [hp]))]
      simp

theorem verified_collected {env : Env} {m : migrator} {h : Trace} {r : resourcesFrom}
    {h6 : Trace} (hv : Verified env m h r h6) : ∃ h1, Collected env m h r h1 := by
  obtain ⟨_, ⟨_, ⟨_, ⟨_, ⟨h1, hc, _⟩, _⟩, _⟩, _⟩, _⟩ := hv
  exact ⟨h1, hc⟩

/-- C3: for a snapshot whose volumes all have a claimRef and a client on
which Create succeeds, `recreateResources` returns nil after creating, for
each snapshot volume in order, `recreatedPV` of it (the volume with creation
timestamp, resource version, uid, claimRef uid, claimRef resource version
and status cleared, and name, volume source, reclaim policy and the claimRef
name and namespace kept), and then `recreatedES` of the snapshot resource
(creation timestamp, resource version, uid, owner references, annotations
and status cleared, the rest kept).  The snapshot is not changed: the
volumes `Migrate` deletes afterwards are the volumes as collected. -/
theorem C3_recreate_sanitized_copies (env : Env) (c : Client) (r : resourcesFrom) (h : Trace)
    (hclaim : ∀ pv ∈ r.pvs, pv.Spec.ClaimRef ≠ none)
    (hok : ∀ h1 o, env.create h1 c o = none) :
    recreateResources env c r h
      = (none, h ++ (r.pvs.map (createPVCall c)
          ++ [⟨c, .Create (.es (recreatedES r.elasticsearch)), .done⟩]))
    ∧ (∀ pv ∈ r.pvs, ∃ ref, pv.Spec.ClaimRef = some ref
        ∧ (recreatedPV pv).Spec.ClaimRef = some (clearedRef ref)
        ∧ (clearedRef ref).Name = ref.Name ∧ (clearedRef ref).Namespace = ref.Namespace
        ∧ (recreatedPV pv).ObjectMeta.Name = pv.ObjectMeta.Name
        ∧ (recreatedPV pv).Spec.PersistentVolumeSource = pv.Spec.PersistentVolumeSource
        ∧ (recreatedPV pv).Spec.PersistentVolumeReclaimPolicy
            = pv.Spec.PersistentVolumeReclaimPolicy)
    ∧ (∀ m h0 h1, retrieveExistingResources env m h0 = (.ok r, h1)
        → ∃ t, (Migrate env m h0).2 = h0 ++ t
            ∧ ∀ ev ∈ t, ∀ pv opts, ev.op = .Delete (.pv pv) opts → pv ∈ r.pvs) := by
  refine ⟨?_, ?_, ?_⟩
  · have hobj : ({ r.elasticsearch with
        ObjectMeta := { r.elasticsearch.ObjectMeta with
          CreationTimestamp := Time.zero, ResourceVersion := "", UID := "",
          OwnerReferences := [], Annotations := [] },
        Status := ElasticsearchStatus.zero } : Elasticsearch)
        = recreatedES r.elasticsearch := by
      simp [recreatedES, Time.zero, ElasticsearchStatus.zero]
    simp only [recreateResources, recreatePVs_ok env c hok r.pvs hclaim h,
      Elasticsearch.DeepCopy, hobj, Create]
    simp [hok, respOf]
  · intro pv hpv
    cases hcr : pv.Spec.ClaimRef with
    | none => exact absurd hcr (hclaim pv hpv)
    | some ref => exact ⟨ref, rfl, by simp [recreatedPV, hcr], rfl, rfl, rfl, rfl, rfl⟩
  · intro m h0 h1 hc
    have ho := Migrate_outcome env m h0
    obtain ⟨t, ht, _⟩ := outcome_inOrder env m h0 _ _ ho
    refine ⟨t, ht, ?_⟩
    intro ev hev pv opts hop
    rcases outcome_cleanup_split env m h0 _ _ ho with ⟨⟨t6, ht6, hord6⟩, _⟩
      | ⟨r1, h6, t7, hv, hout, _, hev7⟩
    · have : t6 = t := List.append_cancel_left (ht6.symm.trans ht)
      subst this
      obtain ⟨st, hst, hin⟩ := inOrder_mem m _ t6 hord6 ev hev
      exact absurd hop (not_delete_before_cleanup m st ev hst hin pv opts)
    · obtain ⟨h1a, hc1⟩ := verified_collected hv
      have hr : r1 = r := by
        have := hc1.symm.trans hc
        simp only [Prod.mk.injEq, Except.ok.injEq] at this
        exact this.1
      subst hr
      obtain ⟨t6, ht6, hord6⟩ := (verified_progress hv).1
      have htt : t6 ++ t7 = t := List.append_cancel_left (by rw [← ht, hout, ht6]; simp)
      rw [← htt] at hev
      rcases List.mem_append.1 hev with h0a | h7
      · obtain ⟨st, hst, hin⟩ := inOrder_mem m _ t6 hord6 ev h0a
        exact absurd hop (not_delete_before_cleanup m st ev hst hin pv opts)
      · obtain ⟨_, pv1, hpv1, hop1⟩ := hev7 ev h7
        rw [hop] at hop1
        simp only [Op.Delete.injEq, Object.pv.injEq] at hop1
        rw [hop1.1]
        exact hpv1

/-- C3 on a snapshot of two volumes. -/
theorem C3_recreate_sanitized_copies_witness :
    (∀ pv ∈ demoSnapshot.pvs, pv.Spec.ClaimRef ≠ none)
    ∧ (∀ h1 o, okEnv.create h1 .target o = none)
    ∧ recreateResources okEnv .target demoSnapshot []
      = (none, [createPVCall .target (mkPV "pv-0" "Delete" (some (mkRef "ns" "data-0"))),
          createPVCall .target (mkPV "pv-1" "Retain" (some (mkRef "ns" "data-1"))),
          ⟨.target, .Create (.es (recreatedES demoSnapshot.elasticsearch)), .done⟩]) :=
  ⟨by decide, fun _ _ => rfl,
    (C3_recreate_sanitized_copies okEnv .target demoSnapshot [] (by decide)
      (fun _ _ => rfl)).1⟩

/-! ## What the collector returns -/

theorem retrievePVsRun_get (c : Client) (pvcs : List PersistentVolumeClaim)
    (acc : List PersistentVolume) (res : Except Error (List PersistentVolume)) (t : Trace)
    (hrun : RetrievePVsRun c pvcs acc res t) :
    ∀ ev ∈ t, (∃ key, ev.op = .Get .PersistentVolume key)
      ∧ ∀ e, ev.resp = .err e → res = .error e := by
  have hz : ∀ (ps : List PersistentVolumeClaim) (pvs : List PersistentVolume),
      ∀ ev ∈ List.zipWith (fetchPV c) ps pvs,
        (∃ key, ev.op = .Get .PersistentVolume key) ∧ ∀ e, ev.resp ≠ .err e := by
    intro ps pvs ev hev
    obtain ⟨p, _, pv, _, rfl⟩ := mem_zipWith_fetchPV c ps pvs ev hev
    exact ⟨⟨_, rfl⟩, fun e he => by cases he⟩
  intro ev hev
  rcases hrun with ⟨pvs, _, _, htr, _⟩ | ⟨ps, pvc, rest, pvs, _, _, _, hcase⟩
  · rw [htr] at hev
    exact ⟨(hz _ _ ev hev).1, fun e he => absurd he ((hz _ _ ev hev).2 e)⟩
  · rcases hcase with ⟨_, htr, _⟩ | ⟨e1, _, htr, hres⟩
    · rw [htr] at hev
      exact ⟨(hz _ _ ev hev).1, fun e he => absurd he ((hz _ _ ev hev).2 e)⟩
    · rw [htr] at hev
      rcases List.mem_append.1 hev with h0 | h1
      · exact ⟨(hz _ _ ev h0).1, fun e he => absurd he ((hz _ _ ev h0).2 e)⟩
      · rw [List.mem_singleton] at h1
        subst h1
        refine ⟨⟨_, rfl⟩, ?_⟩
        intro e he
        simp only [Response.err.injEq] at he
        rw [hres, he]

/-- The first element with a property splits a list in one way only. -/
theorem first_split_unique {α : Type} (P : α → Prop) :
    ∀ (a a1 : List α) (x x1 : α) (b b1 : List α), a ++ x :: b = a1 ++ x1 :: b1
      → (∀ y ∈ a, ¬ P y) → P x → (∀ y ∈ a1, ¬ P y) → P x1 → x = x1 := by
  intro a
  induction a with
  | nil =>
    intro a1 x x1 b b1 heq _ hx ha1 _
    cases a1 with
    | nil =>
      simp only [List.nil_append, List.cons.injEq] at heq
      exact heq.1
    | cons y a2 =>
      simp only [List.nil_append, List.cons_append, List.cons.injEq] at heq
      exact absurd (heq.1 ▸ hx) (ha1 y (by simp))
  | cons z a2 ih =>
    intro a1 x x1 b b1 heq ha hx ha1 hx1
    cases a1 with
    | nil =>
      simp only [List.nil_append, List.cons_append, List.cons.injEq] at heq
      exact absurd (heq.1 ▸ hx1) (ha z (by simp))
    | cons y a3 =>
      simp only [List.cons_append, List.cons.injEq] at heq
      exact ih a3 x x1 b b1 heq.2 (fun w hw => ha w (by simp [hw])) hx
        (fun w hw => ha1 w (by simp [hw])) hx1

/-- What a run of the collector whose List of claims answered the list
`listed` is: the empty list and the error `no PVC found`, or a non-empty
list and then the claim loop over it. -/
theorem retrieveRun_listed (m : migrator) (res : Except Error resourcesFrom) (t : Trace)
    (hrun : RetrieveRun m res t) (listed : List PersistentVolumeClaim)
    (hmem : listPVCsCall m (.pvcs listed) ∈ t) :
    (listed = [] ∧ res = .error noPVCFound ∧ ∀ ev ∈ t, ∀ e, ev.resp ≠ .err e)
    ∨ (listed ≠ [] ∧ ∃ es pods t1,
        t = [getESCall m (.object (.es es)), listPodsCall m (.pods pods),
          listPVCsCall m (.pvcs listed)] ++ t1
        ∧ ((∃ pvs, res = .ok ⟨es, pods, listed, pvs⟩
              ∧ RetrievePVsRun m.clientFrom listed [] (.ok pvs) t1)
          ∨ ∃ e, res = .error e ∧ RetrievePVsRun m.clientFrom listed [] (.error e) t1)) := by
  rcases hrun with ⟨e, rfl, _⟩ | ⟨es, e, rfl, _⟩ | ⟨es, pods, e, rfl, _⟩ | ⟨es, pods, rfl, hres⟩
    | ⟨es, pods, pvcs, t1, hne, rfl, hcase⟩
  · simp [getESCall, listPVCsCall] at hmem
  · simp [getESCall, listPodsCall, listPVCsCall] at hmem
  · simp [getESCall, listPodsCall, listPVCsCall] at hmem
  · simp [getESCall, listPodsCall, listPVCsCall] at hmem
    subst hmem
    refine Or.inl ⟨rfl, hres, ?_⟩
    intro ev hev e
    simp only [List.mem_cons, List.mem_singleton, List.not_mem_nil, or_false] at hev
    rcases hev with rfl | rfl | rfl <;> simp [getESCall, listPodsCall, listPVCsCall]
  · have hl : listed = pvcs := by
      rcases List.mem_append.1 hmem with h0 | h1
      · simpa [getESCall, listPodsCall, listPVCsCall] using h0
      · exfalso
        have hget : ∃ key, (listPVCsCall m (.pvcs listed)).op = .Get .PersistentVolume key := by
          rcases hcase with ⟨pvs, _, hpv⟩ | ⟨e, _, hpv⟩
          · exact (retrievePVsRun_get _ _ _ _ _ hpv _ h1).1
          · exact (retrievePVsRun_get _ _ _ _ _ hpv _ h1).1
        obtain ⟨key, hkey⟩ := hget
        simp [listPVCsCall] at hkey
    subst hl
    exact Or.inr ⟨hne, es, pods, t1, rfl, hcase⟩

/-! ## The collector against the answers of the source -/

theorem fetchedAll_length (env : Env) (c : Client) (pvcs : List PersistentVolumeClaim) :
    ∀ (pvs : List PersistentVolume) (h : Trace), FetchedAll env c h pvcs pvs
      → pvs.length = pvcs.length := by
  induction pvcs with
  | nil =>
    intro pvs h hf
    cases pvs with
    | nil => rfl
    | cons pv rest => exact absurd hf (by simp [FetchedAll])
  | cons pvc rest ih =>
    intro pvs h hf
    cases pvs with
    | nil => exact absurd hf (by simp [FetchedAll])
    | cons pv pvs1 =>
      simp only [FetchedAll] at hf
      simp [ih pvs1 _ hf.2]

/-- The claim loop over claims with volume names whose volumes the source
hands out: it goes on with the claims that follow. -/
theorem retrievePVs_fetched (env : Env) (c : Client) (tail : List PersistentVolumeClaim)
    (ps : List PersistentVolumeClaim) :
    ∀ (pvs acc : List PersistentVolume) (h : Trace), FetchedAll env c h ps pvs
      → (∀ p ∈ ps, p.Spec.VolumeName ≠ "")
      → retrievePVs env c (ps ++ tail) acc h
          = retrievePVs env c tail (acc ++ pvs) (h ++ List.zipWith (fetchPV c) ps pvs) := by
  induction ps with
  | nil =>
    intro pvs acc h hf _
    cases pvs with
    | nil => simp
    | cons pv rest => exact absurd hf (by simp [FetchedAll])
  | cons p rest ih =>
    intro pvs acc h hf hnames
    cases pvs with
    | nil => exact absurd hf (by simp [FetchedAll])
    | cons pv pvs1 =>
      simp only [FetchedAll] at hf
      have hv : ¬ p.Spec.VolumeName = "" := hnames p (by simp)
      have hg := hf.1
      simp only [pvKey] at hg
      have hstep : retrievePVs env c (p :: rest ++ tail) acc h
          = retrievePVs env c (rest ++ tail) (acc ++ [pv]) (h ++ [fetchPV c p pv]) := by
        simp [retrievePVs, hv, GetPersistentVolume, hg, pvKey, fetchPV]
      rw [hstep, ih pvs1 (acc ++ [pv]) (h ++ [fetchPV c p pv]) hf.2
        (fun q hq => hnames q (by simp [hq]))]
      simp

/-- The collector when the Get of the Elasticsearch resource fails. -/
theorem retrieve_getES_error (env : Env) (m : migrator) (h : Trace) (e : Error)
    (hes : env.getElasticsearch h m.clientFrom ⟨m.namespace_, m.name⟩ = .error e) :
    retrieveExistingResources env m h = (.error e, h ++ [getESCall m (.err e)]) := by
  simp [retrieveExistingResources, GetElasticsearch, hes, getESCall]

/-- The collector when the List of pods fails. -/
theorem retrieve_listPods_error (env : Env) (m : migrator) (h : Trace) (es : Elasticsearch)
    (e : Error)
    (hes : env.getElasticsearch h m.clientFrom ⟨m.namespace_, m.name⟩ = .ok es)
    (hpods : env.listPods (h ++ [getESCall m (.object (.es es))]) m.clientFrom m.namespace_
      (clusterPods m.name) = .error e) :
    retrieveExistingResources env m h
      = (.error e, h ++ [getESCall m (.object (.es es)), listPodsCall m (.err e)]) := by
  simp only [getESCall, clusterPods] at hpods
  simp [retrieveExistingResources, GetElasticsearch, hes, getESCall, ListPods, hpods,
    listPodsCall, clusterPods]

/-- The collector when the List of claims fails. -/
theorem retrieve_listPVCs_error (env : Env) (m : migrator) (h : Trace) (es : Elasticsearch)
    (pods : List Pod) (e : Error)
    (hes : env.getElasticsearch h m.clientFrom ⟨m.namespace_, m.name⟩ = .ok es)
    (hpods : env.listPods (h ++ [getESCall m (.object (.es es))]) m.clientFrom m.namespace_
      (clusterPods m.name) = .ok pods)
    (hpvcs : env.listPVCs (h ++ [getESCall m (.object (.es es)), listPodsCall m (.pods pods)])
      m.clientFrom m.namespace_ (clusterPods m.name) = .error e) :
    retrieveExistingResources env m h
      = (.error e, h ++ [getESCall m (.object (.es es)), listPodsCall m (.pods pods),
          listPVCsCall m (.err e)]) := by
  simp only [getESCall, listPodsCall, clusterPods] at hpods hpvcs
  simp [retrieveExistingResources, GetElasticsearch, hes, getESCall, ListPods, hpods,
    listPodsCall, clusterPods, ListPVCs, hpvcs, listPVCsCall]

/-- The collector once the source has listed the claims `listed`: the error
`no PVC found` on the empty list, the claim loop otherwise. -/
theorem retrieve_listed_eq (env : Env) (m : migrator) (h : Trace) (es : Elasticsearch)
    (pods : List Pod) (listed : List PersistentVolumeClaim)
    (hl : Listed env m h es pods listed) :
    retrieveExistingResources env m h
      = (if listed.length = 0 then (.error noPVCFound, afterListPVCs m h es pods listed)
          else
            match retrievePVs env m.clientFrom listed [] (afterListPVCs m h es pods listed) with
            | (.error e, h4) => (.error e, h4)
            | (.ok pvs, h4) => (.ok ⟨es, pods, listed, pvs⟩, h4)) := by
  obtain ⟨hes, hpods, hpvcs⟩ := hl
  simp only [getESCall, listPodsCall, clusterPods] at hpods hpvcs
  simp [retrieveExistingResources, GetElasticsearch, hes, getESCall, ListPods, hpods,
    listPodsCall, clusterPods, ListPVCs, hpvcs, listPVCsCall, afterListPVCs, noPVCFound]

theorem Migrate_of_collect_error (env : Env) (m : migrator) (h : Trace) (e : Error)
    (out : Trace) (hr : retrieveExistingResources env m h = (.error e, out)) :
    Migrate env m h = (some e, out) := by
  simp [Migrate, hr]

/-- The collector when the source lists a claim without volume name after
claims whose volumes it hands out: the error names that claim. -/
theorem retrieve_unbound_claim (env : Env) (m : migrator) (h : Trace) (es : Elasticsearch)
    (pods : List Pod) (ps : List PersistentVolumeClaim) (pvc : PersistentVolumeClaim)
    (rest : List PersistentVolumeClaim) (pvs : List PersistentVolume)
    (hl : Listed env m h es pods (ps ++ pvc :: rest))
    (hnames : ∀ p ∈ ps, p.Spec.VolumeName ≠ "")
    (hf : FetchedAll env m.clientFrom (afterListPVCs m h es pods (ps ++ pvc :: rest)) ps pvs)
    (hv : pvc.Spec.VolumeName = "") :
    retrieveExistingResources env m h
      = (.error (noVolumeName pvc), afterListPVCs m h es pods (ps ++ pvc :: rest)
          ++ List.zipWith (fetchPV m.clientFrom) ps pvs) := by
  rw [retrieve_listed_eq env m h es pods _ hl, if_neg (by simp),
    retrievePVs_fetched env m.clientFrom (pvc :: rest) ps pvs [] _ hf hnames]
  simp [retrievePVs, hv, noVolumeName]

/-- The collector when the source lists a claim whose volume it does not
hand out, after claims whose volumes it hands out: the error of that Get. -/
theorem retrieve_lost_volume (env : Env) (m : migrator) (h : Trace) (es : Elasticsearch)
    (pods : List Pod) (ps : List PersistentVolumeClaim) (pvc : PersistentVolumeClaim)
    (rest : List PersistentVolumeClaim) (pvs : List PersistentVolume) (e : Error)
    (hl : Listed env m h es pods (ps ++ pvc :: rest))
    (hnames : ∀ p ∈ ps, p.Spec.VolumeName ≠ "")
    (hf : FetchedAll env m.clientFrom (afterListPVCs m h es pods (ps ++ pvc :: rest)) ps pvs)
    (hv : pvc.Spec.VolumeName ≠ "")
    (hg : env.getPersistentVolume (afterListPVCs m h es pods (ps ++ pvc :: rest)
        ++ List.zipWith (fetchPV m.clientFrom) ps pvs) m.clientFrom (pvKey pvc) = .error e) :
    retrieveExistingResources env m h
      = (.error e, afterListPVCs m h es pods (ps ++ pvc :: rest)
          ++ List.zipWith (fetchPV m.clientFrom) ps pvs
          ++ [⟨m.clientFrom, .Get .PersistentVolume (pvKey pvc), .err e⟩]) := by
  rw [retrieve_listed_eq env m h es pods _ hl, if_neg (by simp),
    retrievePVs_fetched env m.clientFrom (pvc :: rest) ps pvs [] _ hf hnames]
  simp only [pvKey] at hg
  simp [retrievePVs, hv, GetPersistentVolume, hg, pvKey]

/-- The collector when the source lists at least one claim, each with a
volume name, and hands out every volume: the snapshot of what was fetched. -/
theorem retrieve_snapshot (env : Env) (m : migrator) (h : Trace) (es : Elasticsearch)
    (pods : List Pod) (listed : List PersistentVolumeClaim) (pvs : List PersistentVolume)
    (hl : Listed env m h es pods listed) (hne : listed ≠ [])
    (hnames : ∀ p ∈ listed, p.Spec.VolumeName ≠ "")
    (hf : FetchedAll env m.clientFrom (afterListPVCs m h es pods listed) listed pvs) :
    retrieveExistingResources env m h
      = (.ok ⟨es, pods, listed, pvs⟩, afterListPVCs m h es pods listed
          ++ List.zipWith (fetchPV m.clientFrom) listed pvs) := by
  have hlen : ¬ listed.length = 0 := fun h0 => hne (List.length_eq_zero.1 h0)
  have hloop := retrievePVs_fetched env m.clientFrom [] listed pvs [] _ hf hnames
  rw [List.append_nil] at hloop
  rw [retrieve_listed_eq env m h es pods _ hl, if_neg hlen, hloop]
  simp [retrievePVs]

/-- C7, counterexample: (1) the source lists the claims `data-0` (bound to
`pv-0`) and `data-1` (no volume name), and the Get of `pv-0` answers
NotFound: the collector returns that NotFound, not an error naming `data-1`;
(2) the source has no claim and no Elasticsearch resource: the collector
returns the NotFound of the resource, not `no PVC found`. -/
theorem C7_unbound_claim_not_named :
    (listPVCsCall demoMigrator (.pvcs [mkPVC "ns" "data-0" "pv-0", mkPVC "ns" "data-1" ""])
        ∈ (retrieveExistingResources lostVolumeEnv demoMigrator []).2
      ∧ (mkPVC "ns" "data-1" "").Spec.VolumeName = ""
      ∧ (retrieveExistingResources lostVolumeEnv demoMigrator []).1
          = .error (.api true "persistentvolumes pv-0 not found")
      ∧ Error.api true "persistentvolumes pv-0 not found"
          ≠ noVolumeName (mkPVC "ns" "data-1" ""))
    ∧ ((∀ h c ns labels, emptySourceEnv.listPVCs h c ns labels = .ok [])
      ∧ retrieveExistingResources emptySourceEnv demoMigrator []
          = (.error (.api true "elasticsearches es1 not found"),
              [getESCall demoMigrator (.err (.api true "elasticsearches es1 not found"))])
      ∧ Error.api true "elasticsearches es1 not found" ≠ noPVCFound) :=
  ⟨⟨by decide, by decide, rfl, by decide⟩, fun _ _ _ _ => rfl, rfl, by decide⟩

/-- C7, amended: `retrieveExistingResources` only reads, on the source
client, and when it returns an error `Migrate` returns that error with no
further call.  When the Get of the Elasticsearch resource and the List of
pods succeed and the source lists no claim, the error is `no PVC found`.
When the source lists a claim with an empty volume name the result is an
error: the one naming the first such claim when the source hands out the
volume of every earlier claim, and otherwise the error of the Get that
failed; the error of a failed Get or List is returned in every case.  When
the source lists at least one claim, each with a volume name, and hands out
every volume, the snapshot holds the listed claims and exactly one volume
per claim, fetched in claim order; and a snapshot returned without error is
always of that form. -/
theorem C7_collection_errors (env : Env) (m : migrator) (h : Trace) :
    ∃ t, (retrieveExistingResources env m h).2 = h ++ t
      ∧ (∀ ev ∈ t, ev.client = m.clientFrom ∧ isRead ev.op = true)
      ∧ (∀ e, (retrieveExistingResources env m h).1 = .error e
          → Migrate env m h = (some e, h ++ t))
      ∧ (listPVCsCall m (.pvcs []) ∈ t
          → (retrieveExistingResources env m h).1 = .error noPVCFound)
      ∧ (∀ listed, listPVCsCall m (.pvcs listed) ∈ t
          → (∃ pvc ∈ listed, pvc.Spec.VolumeName = "")
          → ∃ e, (retrieveExistingResources env m h).1 = .error e)
      ∧ (∀ ps pvc rest, listPVCsCall m (.pvcs (ps ++ pvc :: rest)) ∈ t
          → (∀ p ∈ ps, p.Spec.VolumeName ≠ "") → pvc.Spec.VolumeName = ""
          → (∀ ev ∈ t, ∀ e, ev.resp ≠ .err e)
          → (retrieveExistingResources env m h).1 = .error (noVolumeName pvc))
      ∧ (∀ ev ∈ t, ∀ e, ev.resp = .err e
          → (retrieveExistingResources env m h).1 = .error e)
      ∧ (∀ r, (retrieveExistingResources env m h).1 = .ok r
          → r.pvcs ≠ [] ∧ r.pvs.length = r.pvcs.length
            ∧ (∀ pvc ∈ r.pvcs, pvc.Spec.VolumeName ≠ "")
            ∧ t = [getESCall m (.object (.es r.elasticsearch)), listPodsCall m (.pods r.pods),
                listPVCsCall m (.pvcs r.pvcs)]
              ++ List.zipWith (fetchPV m.clientFrom) r.pvcs r.pvs)
      ∧ (∀ e, env.getElasticsearch h m.clientFrom ⟨m.namespace_, m.name⟩ = .error e
          → retrieveExistingResources env m h = (.error e, h ++ [getESCall m (.err e)])
            ∧ Migrate env m h = (some e, h ++ [getESCall m (.err e)]))
      ∧ (∀ es e, env.getElasticsearch h m.clientFrom ⟨m.namespace_, m.name⟩ = .ok es
          → env.listPods (h ++ [getESCall m (.object (.es es))]) m.clientFrom m.namespace_
              (clusterPods m.name) = .error e
          → retrieveExistingResources env m h
              = (.error e, h ++ [getESCall m (.object (.es es)), listPodsCall m (.err e)])
            ∧ Migrate env m h
              = (some e, h ++ [getESCall m (.object (.es es)), listPodsCall m (.err e)]))
      ∧ (∀ es pods e, env.getElasticsearch h m.clientFrom ⟨m.namespace_, m.name⟩ = .ok es
          → env.listPods (h ++ [getESCall m (.object (.es es))]) m.clientFrom m.namespace_
              (clusterPods m.name) = .ok pods
          → env.listPVCs (h ++ [getESCall m (.object (.es es)), listPodsCall m (.pods pods)])
              m.clientFrom m.namespace_ (clusterPods m.name) = .error e
          → retrieveExistingResources env m h
              = (.error e, h ++ [getESCall m (.object (.es es)), listPodsCall m (.pods pods),
                  listPVCsCall m (.err e)])
            ∧ Migrate env m h
              = (some e, h ++ [getESCall m (.object (.es es)), listPodsCall m (.pods pods),
                  listPVCsCall m (.err e)]))
      ∧ (∀ es pods, Listed env m h es pods []
          → retrieveExistingResources env m h
              = (.error noPVCFound, afterListPVCs m h es pods [])
            ∧ Migrate env m h = (some noPVCFound, afterListPVCs m h es pods []))
      ∧ (∀ es pods ps pvc rest pvs, Listed env m h es pods (ps ++ pvc :: rest)
          → (∀ p ∈ ps, p.Spec.VolumeName ≠ "")
          → FetchedAll env m.clientFrom (afterListPVCs m h es pods (ps ++ pvc :: rest)) ps pvs
          → (pvc.Spec.VolumeName = ""
              → retrieveExistingResources env m h
                  = (.error (noVolumeName pvc), afterListPVCs m h es pods (ps ++ pvc :: rest)
                      ++ List.zipWith (fetchPV m.clientFrom) ps pvs)
                ∧ Migrate env m h
                  = (some (noVolumeName pvc), afterListPVCs m h es pods (ps ++ pvc :: rest)
                      ++ List.zipWith (fetchPV m.clientFrom) ps pvs))
            ∧ (∀ e, pvc.Spec.VolumeName ≠ ""
              → env.getPersistentVolume (afterListPVCs m h es pods (ps ++ pvc :: rest)
                  ++ List.zipWith (fetchPV m.clientFrom) ps pvs) m.clientFrom (pvKey pvc)
                  = .error e
              → retrieveExistingResources env m h
                  = (.error e, afterListPVCs m h es pods (ps ++ pvc :: rest)
                      ++ List.zipWith (fetchPV m.clientFrom) ps pvs
                      ++ [⟨m.clientFrom, .Get .PersistentVolume (pvKey pvc), .err e⟩])
                ∧ Migrate env m h
                  = (some e, afterListPVCs m h es pods (ps ++ pvc :: rest)
                      ++ List.zipWith (fetchPV m.clientFrom) ps pvs
                      ++ [⟨m.clientFrom, .Get .PersistentVolume (pvKey pvc), .err e⟩])))
      ∧ (∀ es pods listed pvs, Listed env m h es pods listed → listed ≠ []
          → (∀ p ∈ listed, p.Spec.VolumeName ≠ "")
          → FetchedAll env m.clientFrom (afterListPVCs m h es pods listed) listed pvs
          → retrieveExistingResources env m h
              = (.ok ⟨es, pods, listed, pvs⟩, afterListPVCs m h es pods listed
                  ++ List.zipWith (fetchPV m.clientFrom) listed pvs)
            ∧ pvs.length = listed.length) := by
  obtain ⟨t, ht, hrun⟩ := retrieveExistingResources_run env m h
  refine ⟨t, ht, retrieveRun_events m _ t hrun, ?_, ?_, ?_, ?_, ?_, ?_, ?_, ?_, ?_, ?_, ?_, ?_⟩
  · intro e hres
    have hpair : retrieveExistingResources env m h = (.error e, h ++ t) := Prod.ext hres ht
    simp [Migrate, hpair]
  · intro hmem
    rcases retrieveRun_listed m _ t hrun [] hmem with ⟨_, hres, _⟩ | ⟨hne, _⟩
    · exact hres
    · exact absurd rfl hne
  · rintro listed hmem ⟨pvc, hpvc, hv⟩
    rcases retrieveRun_listed m _ t hrun listed hmem with ⟨_, hres, _⟩
      | ⟨_, es, pods, t1, _, ⟨pvs, _, hpv⟩ | ⟨e, hres, _⟩⟩
    · exact ⟨_, hres⟩
    · rcases hpv with ⟨_, _, _, _, hall⟩ | ⟨_, _, _, _, _, _, _, ⟨_, _, hbad⟩ | ⟨_, _, _, hbad⟩⟩
      · exact absurd hv (hall pvc hpvc)
      · cases hbad
      · cases hbad
    · exact ⟨e, hres⟩
  · intro ps pvc rest hmem hps hv hnoerr
    rcases retrieveRun_listed m _ t hrun _ hmem with ⟨hnil, _, _⟩
      | ⟨_, es, pods, t1, htr, ⟨pvs, _, hpv⟩ | ⟨e, hres, hpv⟩⟩
    · simp at hnil
    · rcases hpv with ⟨_, _, _, _, hall⟩ | ⟨_, _, _, _, _, _, _, ⟨_, _, hbad⟩ | ⟨_, _, _, hbad⟩⟩
      · exact absurd hv (hall pvc (by simp))
      · cases hbad
      · cases hbad
    · rcases hpv with ⟨_, hbad, _⟩ | ⟨ps1, pvc1, rest1, pvs1, hsplit, _, hps1, hcase⟩
      · cases hbad
      · rcases hcase with ⟨hv1, _, hres1⟩ | ⟨e1, _, ht1, _⟩
        · have hx := first_split_unique (fun p : PersistentVolumeClaim => p.Spec.VolumeName = "")
            ps ps1 pvc pvc1 rest rest1 hsplit hps hv hps1 hv1
          rw [hres, hx, Except.error.inj hres1]
        · exfalso
          refine hnoerr ⟨m.clientFrom, .Get .PersistentVolume (pvKey pvc1), .err e1⟩ ?_ e1 rfl
          rw [htr, ht1]
          simp
  · intro ev hev e hresp
    rcases hrun with ⟨e1, rfl, hres⟩ | ⟨es, e1, rfl, hres⟩ | ⟨es, pods, e1, rfl, hres⟩
      | ⟨es, pods, rfl, hres⟩ | ⟨es, pods, pvcs, t1, hne, rfl, hcase⟩
    · simp only [List.mem_singleton] at hev
      subst hev
      simp only [getESCall, Response.err.injEq] at hresp
      rw [hres, hresp]
    · simp only [List.mem_cons, List.mem_singleton, List.not_mem_nil, or_false] at hev
      rcases hev with rfl | rfl
      · simp [getESCall] at hresp
      · simp only [listPodsCall, Response.err.injEq] at hresp
        rw [hres, hresp]
    · simp only [List.mem_cons, List.mem_singleton, List.not_mem_nil, or_false] at hev
      rcases hev with rfl | rfl | rfl
      · simp [getESCall] at hresp
      · simp [listPodsCall] at hresp
      · simp only [listPVCsCall, Response.err.injEq] at hresp
        rw [hres, hresp]
    · simp only [List.mem_cons, List.mem_singleton, List.not_mem_nil, or_false] at hev
      rcases hev with rfl | rfl | rfl
      · simp [getESCall] at hresp
      · simp [listPodsCall] at hresp
      · simp [listPVCsCall] at hresp
    · rcases List.mem_append.1 hev with h0 | h1
      · simp only [List.mem_cons, List.mem_singleton, List.not_mem_nil, or_false] at h0
        rcases h0 with rfl | rfl | rfl
        · simp [getESCall] at hresp
        · simp [listPodsCall] at hresp
        · simp [listPVCsCall] at hresp
      · rcases hcase with ⟨pvs, _, hpv⟩ | ⟨e1, hres, hpv⟩
        · have := (retrievePVsRun_get _ _ _ _ _ hpv ev h1).2 e hresp
          cases this
        · have := (retrievePVsRun_get _ _ _ _ _ hpv ev h1).2 e hresp
          simp only [Except.error.injEq] at this
          rw [hres, this]
  · intro r hres
    rcases hrun with ⟨e1, _, hres1⟩ | ⟨es, e1, _, hres1⟩ | ⟨es, pods, e1, _, hres1⟩
      | ⟨es, pods, _, hres1⟩ | ⟨es, pods, pvcs, t1, hne, htr, hcase⟩
    · rw [hres] at hres1; cases hres1
    · rw [hres] at hres1; cases hres1
    · rw [hres] at hres1; cases hres1
    · rw [hres] at hres1; cases hres1
    · rcases hcase with ⟨pvs, hres1, hpv⟩ | ⟨e1, hres1, _⟩
      · rw [hres] at hres1
        simp only [Except.ok.injEq] at hres1
        subst hres1
        rcases hpv with ⟨pvs1, hok, hlen, ht1, hall⟩
          | ⟨_, _, _, _, _, _, _, ⟨_, _, hbad⟩ | ⟨_, _, _, hbad⟩⟩
        · simp only [List.nil_append, Except.ok.injEq] at hok
          subst hok
          exact ⟨hne, hlen, hall, by rw [htr, ht1]⟩
        · cases hbad
        · cases hbad
      · rw [hres] at hres1; cases hres1
  · intro e hes
    have hr := retrieve_getES_error env m h e hes
    exact ⟨hr, Migrate_of_collect_error env m h e _ hr⟩
  · intro es e hes hpods
    have hr := retrieve_listPods_error env m h es e hes hpods
    exact ⟨hr, Migrate_of_collect_error env m h e _ hr⟩
  · intro es pods e hes hpods hpvcs
    have hr := retrieve_listPVCs_error env m h es pods e hes hpods hpvcs
    exact ⟨hr, Migrate_of_collect_error env m h e _ hr⟩
  · intro es pods hl
    have hr : retrieveExistingResources env m h
        = (.error noPVCFound, afterListPVCs m h es pods []) := by
      rw [retrieve_listed_eq env m h es pods [] hl]
      simp
    exact ⟨hr, Migrate_of_collect_error env m h _ _ hr⟩
  · intro es pods ps pvc rest pvs hl hnames hf
    constructor
    · intro hv
      have hr := retrieve_unbound_claim env m h es pods ps pvc rest pvs hl hnames hf hv
      exact ⟨hr, Migrate_of_collect_error env m h _ _ hr⟩
    · intro e hv hg
      have hr := retrieve_lost_volume env m h es pods ps pvc rest pvs e hl hnames hf hv hg
      exact ⟨hr, Migrate_of_collect_error env m h _ _ hr⟩
  · intro es pods listed pvs hl hne hnames hf
    exact ⟨retrieve_snapshot env m h es pods listed pvs hl hne hnames hf,
      fetchedAll_length env m.clientFrom listed pvs _ hf⟩

/-- C7, amended, on two sources: one that lists no claim, where the result
is `no PVC found` after the three first calls, and one that lists `data-0`
bound to `pv-0` and then `data-1` without volume name, where the result
names `data-1` after the Get of `pv-0`. -/
theorem C7_collection_errors_witness :
    (Listed okEnv demoMigrator [] (blankES "ns" "es1") [] []
      ∧ retrieveExistingResources okEnv demoMigrator []
          = (.error (.text "no PVC found"),
              [getESCall demoMigrator (.object (.es (blankES "ns" "es1"))),
                listPodsCall demoMigrator (.pods []), listPVCsCall demoMigrator (.pvcs [])]))
    ∧ (Listed unboundClaimEnv demoMigrator [] (blankES "ns" "es1") []
          ([mkPVC "ns" "data-0" "pv-0"] ++ mkPVC "ns" "data-1" "" :: [])
      ∧ Migrate unboundClaimEnv demoMigrator []
          = (some (.text "PVC ns/data-1 has no spec.volumeName"),
              [getESCall demoMigrator (.object (.es (blankES "ns" "es1"))),
                listPodsCall demoMigrator (.pods []),
                listPVCsCall demoMigrator
                  (.pvcs [mkPVC "ns" "data-0" "pv-0", mkPVC "ns" "data-1" ""]),
                fetchPV .source (mkPVC "ns" "data-0" "pv-0") (blankPV "pv-0")])) := by
  refine ⟨⟨⟨rfl, rfl, rfl⟩, ?_⟩, ⟨⟨rfl, rfl, rfl⟩, ?_⟩⟩
  · obtain ⟨t, _, _, _, _, _, _, _, _, _, _, _, h4, _, _⟩ :=
      C7_collection_errors okEnv demoMigrator []
    exact (h4 (blankES "ns" "es1") [] ⟨rfl, rfl, rfl⟩).1
  · obtain ⟨t, _, _, _, _, _, _, _, _, _, _, _, _, h5, _⟩ :=
      C7_collection_errors unboundClaimEnv demoMigrator []
    exact ((h5 (blankES "ns" "es1") [] [mkPVC "ns" "data-0" "pv-0"] (mkPVC "ns" "data-1" "") []
      [blankPV "pv-0"] ⟨rfl, rfl, rfl⟩ (by decide) ⟨rfl, trivial⟩).1 rfl).2

/-! ## A run from end to end -/

/-- On `demoEnv` the migration succeeds after 19 calls, the last two being
the Deletes of the two source volumes. -/
theorem Migrate_demo :
    (Migrate demoEnv demoMigrator []).1 = none
    ∧ (Migrate demoEnv demoMigrator []).2.length = 19
    ∧ ((Migrate demoEnv demoMigrator []).2.drop 17).map (fun ev => ev.op)
      = [.Delete (.pv (mkPV "pv-0" "Delete" (some (mkRef "ns" "data")))) ⟨none⟩,
         .Delete (.pv (mkPV "pv-1" "Delete" (some (mkRef "ns" "data")))) ⟨none⟩] := by
  decide

/-- On a target whose pods run, the waiter succeeds after one round. -/
theorem checkPodsRunning_demo :
    checkPodsRunning okEnv .target [mkPod "ns" "es1-0" "Pending", mkPod "ns" "es1-1" "Pending"] []
      = (none,
          [⟨.target, .Get .Pod ⟨"ns", "es1-0"⟩,
              .object (.pod ⟨{ emptyMeta with Name := "es1-0", Namespace := "ns" }, ⟨"Running"⟩⟩)⟩,
           ⟨.target, .Get .Pod ⟨"ns", "es1-1"⟩,
              .object (.pod ⟨{ emptyMeta with Name := "es1-1", Namespace := "ns" }, ⟨"Running"⟩⟩)⟩]) := by
  decide

/-- On a target that never has the pods, the waiter asks for the first pod
30 times and gives up. -/
theorem checkPodsRunning_never_created :
    (checkPodsRunning noPodsEnv .target
        [mkPod "ns" "es1-0" "Running", mkPod "ns" "es1-1" "Running"] []).1
      = some (.text "not all Pods are running")
    ∧ (checkPodsRunning noPodsEnv .target
        [mkPod "ns" "es1-0" "Running", mkPod "ns" "es1-1" "Running"] []).2.length = 30 := by
  decide

/-- On a source whose Deletes all answer NotFound, `deletePVs` passes over
both volumes and returns nil, and `deleteElasticsearch` returns the NotFound
of the resource without listing pods. -/
theorem deletion_on_gone_source :
    deletePVs goneEnv .source [mkPV "pv-0" "Retain" none, mkPV "pv-1" "Retain" none] []
      = (none,
          [⟨.source, .Delete (.pv (mkPV "pv-0" "Retain" none)) ⟨none⟩,
              .err (.api true "not found")⟩,
           ⟨.source, .Delete (.pv (mkPV "pv-1" "Retain" none)) ⟨none⟩,
              .err (.api true "not found")⟩])
    ∧ deleteElasticsearch goneEnv .source (mkES "ns" "es1" []) []
      = (some (.api true "not found"),
          [⟨.source, .Delete (.es (mkES "ns" "es1" [])) ⟨none⟩,
              .err (.api true "not found")⟩]) := by
  decide

end K8sEsMigrator
